import Mathlib

/-!
Verification of the Digistorm connector (`connector.go`): a shallow embedding of
the task-dispatch and database-execution pipeline, together with proofs about
the claims of the specification.

The embedding models:
  * the JSON value language and the relevant behaviour of Go's `encoding/json`
    (compact encoding with HTML escaping, `json.RawMessage` capture, struct
    decoding with ignored unknown fields and continue-on-type-error),
  * the `Task` / `TaskDbConfig` data model and `parseTask` / `getTaskDbConfig`,
  * `database/sql` session lifecycle (`sql.Open` driver registry, per-task
    open/close) as explicit state passing over a `DbState`,
  * `processDbQuery`, `processDbExec`, `processTaskRequest`, `handleTask`,
  * HTTP basic-auth checking (`checkAuth`, `handleAuthMiddleware`) including a
    faithful standard base64 decoder.

Machine integers (`int64` counters) are modelled as `Int`; byte strings are
modelled as `List Nat` (byte values) or `List Char` where the code treats them
as text.
-/

namespace Connector

/-! ### Characters used by the JSON syntax

Named to keep character handling explicit. `qu` is the double quote, `bs` the
backslash, `lb`/`rb` the braces. -/

def qu : Char := Char.ofNat 34

def bs : Char := Char.ofNat 92

def lb : Char := Char.ofNat 123

def rb : Char := Char.ofNat 125

/-- JSON whitespace per RFC 7159 as accepted by Go's scanner. -/
def wsChar (c : Char) : Bool :=
  c.toNat = 32 || c.toNat = 9 || c.toNat = 10 || c.toNat = 13

def skipWs : List Char → List Char
  | [] => []
  | c :: cs => if wsChar c then skipWs cs else c :: cs

/-- Lowercase hexadecimal digit, as used by Go's JSON encoder (`hex` table). -/
def hexDigitChar (n : Nat) : Char :=
  if n < 10 then Char.ofNat (48 + n) else Char.ofNat (87 + n)

/-- Value of a hexadecimal digit character, accepting both cases. -/
def hexVal (c : Char) : Option Nat :=
  if 48 ≤ c.toNat ∧ c.toNat ≤ 57 then some (c.toNat - 48)
  else if 97 ≤ c.toNat ∧ c.toNat ≤ 102 then some (c.toNat - 87)
  else if 65 ≤ c.toNat ∧ c.toNat ≤ 70 then some (c.toNat - 55)
  else none

/-!
### JSON values

`Json.num` keeps the number's source lexeme verbatim, exactly as Go's encoder
and `json.RawMessage` round-trip number text without reformatting (and so that
no floating point enters the model).
-/

mutual

inductive Json where
  | null : Json
  | bool : Bool → Json
  | num : String → Json
  | str : String → Json
  | arr : JsonArr → Json
  | obj : JsonObj → Json

inductive JsonArr where
  | nil : JsonArr
  | cons : Json → JsonArr → JsonArr

inductive JsonObj where
  | nil : JsonObj
  | cons : String → Json → JsonObj → JsonObj

end

/-- Escaping performed by Go's `encoding/json` encoder with the default
`escapeHTML = true`: quote and backslash get two-character escapes, `\n`, `\r`,
`\t` their short forms, other control characters and `<`, `>`, `&` become
`\u00XX`, and U+2028/U+2029 become ` `/` `. -/
def escapeChar (c : Char) : List Char :=
  if c = qu then [bs, qu]
  else if c = bs then [bs, bs]
  else if c.toNat = 10 then [bs, 'n']
  else if c.toNat = 13 then [bs, 'r']
  else if c.toNat = 9 then [bs, 't']
  else if c.toNat < 32 || c.toNat = 60 || c.toNat = 62 || c.toNat = 38 then
    [bs, 'u', '0', '0', hexDigitChar (c.toNat / 16), hexDigitChar (c.toNat % 16)]
  else if c.toNat = 8232 then [bs, 'u', '2', '0', '2', '8']
  else if c.toNat = 8233 then [bs, 'u', '2', '0', '2', '9']
  else [c]

def escChars (cs : List Char) : List Char :=
  cs.foldr (fun c acc => escapeChar c ++ acc) []

/-- A JSON string literal as emitted by Go's encoder. -/
def encodeStringChars (s : String) : List Char :=
  qu :: escChars s.data ++ [qu]

mutual

/-- Compact JSON encoding, matching the bytes Go's `json.Marshal` produces
(no insignificant whitespace, fields in the order they are appended). -/
def encodeJson : Json → List Char
  | .null => "null".data
  | .bool true => "true".data
  | .bool false => "false".data
  | .num lex => lex.data
  | .str s => encodeStringChars s
  | .arr es => '[' :: encodeElems es ++ [']']
  | .obj ms => lb :: encodeMembers ms ++ [rb]

/-- Comma-separated encoding of the elements of an array. -/
def encodeElems : JsonArr → List Char
  | .nil => []
  | .cons h .nil => encodeJson h
  | .cons h (.cons h2 t2) => encodeJson h ++ ',' :: encodeElems (.cons h2 t2)

/-- Comma-separated encoding of the members of an object. -/
def encodeMembers : JsonObj → List Char
  | .nil => []
  | .cons k v .nil => encodeStringChars k ++ ':' :: encodeJson v
  | .cons k v (.cons k2 v2 t2) =>
    encodeStringChars k ++ ':' :: encodeJson v ++ ',' :: encodeMembers (.cons k2 v2 t2)

end

def encodeJsonStr (v : Json) : String :=
  String.mk (encodeJson v)

/-! ### JSON parsing (Go's scanner/decoder, restricted to full values) -/

def consStr (c : Char) : Option (List Char × List Char) → Option (List Char × List Char) :=
  Option.map (fun p => (c :: p.1, p.2))

/-- Unicode replacement character U+FFFD used by Go for invalid surrogates. -/
def replChar : Char := Char.ofNat 65533

/-- The value of four hexadecimal digits. -/
def hex4 (h1 h2 h3 h4 : Char) : Option Nat :=
  match hexVal h1, hexVal h2, hexVal h3, hexVal h4 with
  | some a, some b, some c, some d => some (a * 4096 + b * 256 + c * 16 + d)
  | _, _, _, _ => none

/-- The two-character escapes accepted after a backslash. -/
def escTwo (e : Char) : Option Char :=
  if e = qu then some qu
  else if e = bs then some bs
  else if e.toNat = 47 then some (Char.ofNat 47)
  else if e = 'b' then some (Char.ofNat 8)
  else if e = 'f' then some (Char.ofNat 12)
  else if e = 'n' then some (Char.ofNat 10)
  else if e = 'r' then some (Char.ofNat 13)
  else if e = 't' then some (Char.ofNat 9)
  else none

/-- When a high surrogate (value `n`) was decoded, check whether the input
continues with a `\uXXXX` low surrogate, and combine the pair. -/
def pairChar (n : Nat) : List Char → Option Char
  | e1 :: e2 :: g1 :: g2 :: g3 :: g4 :: _ =>
    if e1 = bs ∧ e2 = 'u' then
      match hex4 g1 g2 g3 g4 with
      | some m =>
        if 56320 ≤ m ∧ m < 57344 then
          some (Char.ofNat (65536 + (n - 55296) * 1024 + (m - 56320)))
        else none
      | none => none
    else none
  | _ => none

/-- Parse the body of a JSON string literal (the opening quote already
consumed), returning the decoded characters and the input after the closing
quote, with fuel bounding the recursion. Mirrors Go's `unquote`:
two-character escapes, `\uXXXX` with surrogate pair combination and U+FFFD for
unpaired surrogates, and rejection of raw control characters. Every step
consumes at least one input character, so fuel `length + 1` always suffices. -/
def psbF : Nat → List Char → Option (List Char × List Char)
  | 0, _ => none
  | Nat.succ f, cs =>
    match cs with
    | [] => none
    | c :: cs1 =>
      if c = qu then some ([], cs1)
      else if c = bs then
        match cs1 with
        | [] => none
        | 'u' :: h1 :: h2 :: h3 :: h4 :: cs3 =>
          match hex4 h1 h2 h3 h4 with
          | some n =>
            if 55296 ≤ n ∧ n < 56320 then
              match pairChar n cs3 with
              | some ch =>
                match cs3 with
                | _ :: _ :: _ :: _ :: _ :: _ :: cs4 => consStr ch (psbF f cs4)
                | _ => none
              | none => consStr replChar (psbF f cs3)
            else if 56320 ≤ n ∧ n < 57344 then consStr replChar (psbF f cs3)
            else consStr (Char.ofNat n) (psbF f cs3)
          | none => none
        | e :: cs2 =>
          match escTwo e with
          | some ch => consStr ch (psbF f cs2)
          | none => none
      else if c.toNat < 32 then none
      else consStr c (psbF f cs1)

/-- The string-literal body parser at its always-sufficient fuel. -/
def parseStringBody (cs : List Char) : Option (List Char × List Char) :=
  psbF (cs.length + 1) cs

/-- Characters that can occur in a JSON number lexeme. The parser consumes a
maximal run of these and then validates the run against the number grammar,
which accepts exactly the lexemes Go's scanner accepts. -/
def numChar (c : Char) : Bool :=
  c.isDigit || c = '-' || c = '+' || c = '.' || c = 'e' || c = 'E'

/-- Consume `[0-9]+` (at least one digit). -/
def chompDigits1 : List Char → Option (List Char)
  | c :: r => if c.isDigit then some (r.dropWhile Char.isDigit) else none
  | [] => none

/-- Consume the integer part: `0` or `[1-9][0-9]*`. -/
def chompInt : List Char → Option (List Char)
  | c :: r =>
    if c = '0' then some r
    else if c.isDigit then some (r.dropWhile Char.isDigit)
    else none
  | [] => none

/-- Consume an optional fraction part `.[0-9]+`. -/
def chompFrac (cs : List Char) : Option (List Char) :=
  match cs with
  | c :: r => if c = '.' then chompDigits1 r else some cs
  | [] => some cs

/-- Consume an optional exponent part `[eE][+-]?[0-9]+`. -/
def chompExp (cs : List Char) : Option (List Char) :=
  match cs with
  | c :: r =>
    if c = 'e' || c = 'E' then
      match r with
      | d :: r2 => if d = '+' || d = '-' then chompDigits1 r2 else chompDigits1 r
      | [] => none
    else some cs
  | [] => some cs

/-- Validity of a JSON number lexeme: `-?(0|[1-9][0-9]*)(.[0-9]+)?([eE][+-]?[0-9]+)?`. -/
def numWf (lex : List Char) : Bool :=
  let body := match lex with
    | c :: r => if c = '-' then r else lex
    | [] => []
  match lex with
  | [] => false
  | _ =>
    match chompInt body with
    | none => false
    | some r1 =>
      match chompFrac r1 with
      | none => false
      | some r2 =>
        match chompExp r2 with
        | none => false
        | some r3 => r3 = []

mutual

/-- One JSON value, with fuel bounding the recursion. Mirrors Go's scanner on
well-formed input: leading whitespace skipped, then a literal, string, number,
array or object. -/
def parseValue : Nat → List Char → Option (Json × List Char)
  | 0, _ => none
  | Nat.succ f, cs =>
    match skipWs cs with
    | [] => none
    | c :: r =>
      if c = qu then
        match parseStringBody r with
        | some (content, r1) => some (.str (String.mk content), r1)
        | none => none
      else if c = lb then
        match skipWs r with
        | d :: r1 =>
          if d = rb then some (.obj .nil, r1)
          else
            match parseMembers f (d :: r1) with
            | some (ms, r2) => some (.obj ms, r2)
            | none => none
        | [] => none
      else if c = '[' then
        match skipWs r with
        | d :: r1 =>
          if d = ']' then some (.arr .nil, r1)
          else
            match parseElems f (d :: r1) with
            | some (es, r2) => some (.arr es, r2)
            | none => none
        | [] => none
      else if c = 'n' then
        match r with
        | 'u' :: 'l' :: 'l' :: r1 => some (.null, r1)
        | _ => none
      else if c = 't' then
        match r with
        | 'r' :: 'u' :: 'e' :: r1 => some (.bool true, r1)
        | _ => none
      else if c = 'f' then
        match r with
        | 'a' :: 'l' :: 's' :: 'e' :: r1 => some (.bool false, r1)
        | _ => none
      else if c = '-' || c.isDigit then
        if numWf (List.takeWhile numChar (c :: r)) then
          some (.num (String.mk (List.takeWhile numChar (c :: r))),
            List.dropWhile numChar (c :: r))
        else none
      else none

/-- The elements of a non-empty array, consuming the closing bracket. -/
def parseElems : Nat → List Char → Option (JsonArr × List Char)
  | 0, _ => none
  | Nat.succ f, cs =>
    match parseValue f cs with
    | none => none
    | some (v, r) =>
      match skipWs r with
      | d :: r1 =>
        if d = ',' then
          match parseElems f r1 with
          | some (tl, r2) => some (.cons v tl, r2)
          | none => none
        else if d = ']' then some (.cons v .nil, r1)
        else none
      | [] => none

/-- The members of a non-empty object, consuming the closing brace. -/
def parseMembers : Nat → List Char → Option (JsonObj × List Char)
  | 0, _ => none
  | Nat.succ f, cs =>
    match skipWs cs with
    | c :: r =>
      if c = qu then
        match parseStringBody r with
        | some (key, r1) =>
          match skipWs r1 with
          | d :: r2 =>
            if d = ':' then
              match parseValue f r2 with
              | some (v, r3) =>
                match skipWs r3 with
                | e :: r4 =>
                  if e = ',' then
                    match parseMembers f r4 with
                    | some (tl, r5) => some (.cons (String.mk key) v tl, r5)
                    | none => none
                  else if e = rb then some (.cons (String.mk key) v .nil, r4)
                  else none
                | [] => none
              | none => none
            else none
          | [] => none
        | none => none
      else none
    | [] => none

end

/-- Parse a complete JSON document: one value with nothing but whitespace after
it, as `json.Unmarshal` requires (its `checkValid` pre-scan rejects anything
else before any field is assigned). -/
def parseJson (s : String) : Option Json :=
  match parseValue (2 * s.length + 2) s.data with
  | some (v, rest) => if skipWs rest = [] then some v else none
  | none => none

/-!
### `appendCompact` (Go's `json.Marshal` of a `json.RawMessage`)

`Marshal` re-emits the stored raw bytes through `compact` with
`escapeHTML = true`: insignificant whitespace is dropped, a raw `<`, `>`, `&`
becomes `\u00XX` and a raw U+2028/U+2029 becomes ` `/` `, and
everything else — in particular every escape sequence already present in a
string literal — is copied byte for byte. Go implements this as a flat byte
loop driven by the scanner; on the inputs it accepts (exactly the valid
values) its effect is structural, and it is modelled here by the same
recursive descent as the parser so the two can be related: the emitted bytes
are identical either way.
-/

/-- One raw string-content character as `compact` copies it: the HTML
characters and the line separators are escaped, everything else is kept. -/
def compactChar (c : Char) : List Char :=
  if c.toNat = 60 ∨ c.toNat = 62 ∨ c.toNat = 38 then
    [bs, 'u', '0', '0', hexDigitChar (c.toNat / 16), hexDigitChar (c.toNat % 16)]
  else if c.toNat = 8232 then [bs, 'u', '2', '0', '2', '8']
  else if c.toNat = 8233 then [bs, 'u', '2', '0', '2', '9']
  else [c]

/-- Prepend emitted characters to the output of a compaction step. -/
def consRaw (p : List Char) : Option (List Char × List Char) → Option (List Char × List Char) :=
  Option.map (fun q => (p ++ q.1, q.2))

/-- The body of a string literal as `compact` emits it (opening quote already
consumed): escape sequences are validated exactly as `psbF` validates them but
copied verbatim (a surrogate pair as one step, so the steps of the two
functions align), raw characters pass through `compactChar`, raw control
characters are rejected, and the closing quote ends the body. -/
def rsbF : Nat → List Char → Option (List Char × List Char)
  | 0, _ => none
  | Nat.succ f, cs =>
    match cs with
    | [] => none
    | c :: cs1 =>
      if c = qu then some ([], cs1)
      else if c = bs then
        match cs1 with
        | [] => none
        | 'u' :: h1 :: h2 :: h3 :: h4 :: cs3 =>
          match hex4 h1 h2 h3 h4 with
          | some nn =>
            if 55296 ≤ nn ∧ nn < 56320 then
              match cs3 with
              | e1 :: e2 :: g1 :: g2 :: g3 :: g4 :: cs4 =>
                if (pairChar nn (e1 :: e2 :: g1 :: g2 :: g3 :: g4 :: cs4)).isSome then
                  consRaw [bs, 'u', h1, h2, h3, h4, e1, e2, g1, g2, g3, g4] (rsbF f cs4)
                else
                  consRaw [bs, 'u', h1, h2, h3, h4]
                    (rsbF f (e1 :: e2 :: g1 :: g2 :: g3 :: g4 :: cs4))
              | _ => consRaw [bs, 'u', h1, h2, h3, h4] (rsbF f cs3)
            else consRaw [bs, 'u', h1, h2, h3, h4] (rsbF f cs3)
          | none => none
        | e :: cs2 =>
          match escTwo e with
          | some _ => consRaw [bs, e] (rsbF f cs2)
          | none => none
      else if c.toNat < 32 then none
      else consRaw (compactChar c) (rsbF f cs1)

/-- The string-body compactor at its always-sufficient fuel (every step
consumes at least one input character). -/
def rawStringBody (cs : List Char) : Option (List Char × List Char) :=
  rsbF (cs.length + 1) cs

mutual

/-- One JSON value as `compact` emits it, mirroring `parseValue` branch for
branch: same whitespace skipping, same literal/number validation, strings
through `rawStringBody`. -/
def compactValue : Nat → List Char → Option (List Char × List Char)
  | 0, _ => none
  | Nat.succ f, cs =>
    match skipWs cs with
    | [] => none
    | c :: r =>
      if c = qu then
        match rawStringBody r with
        | some (body, r1) => some (qu :: body ++ [qu], r1)
        | none => none
      else if c = lb then
        match skipWs r with
        | d :: r1 =>
          if d = rb then some ([lb, rb], r1)
          else
            match compactMembers f (d :: r1) with
            | some (out, r2) => some (lb :: out ++ [rb], r2)
            | none => none
        | [] => none
      else if c = '[' then
        match skipWs r with
        | d :: r1 =>
          if d = ']' then some (['[', ']'], r1)
          else
            match compactElems f (d :: r1) with
            | some (out, r2) => some ('[' :: out ++ [']'], r2)
            | none => none
        | [] => none
      else if c = 'n' then
        match r with
        | 'u' :: 'l' :: 'l' :: r1 => some ("null".data, r1)
        | _ => none
      else if c = 't' then
        match r with
        | 'r' :: 'u' :: 'e' :: r1 => some ("true".data, r1)
        | _ => none
      else if c = 'f' then
        match r with
        | 'a' :: 'l' :: 's' :: 'e' :: r1 => some ("false".data, r1)
        | _ => none
      else if c = '-' || c.isDigit then
        if numWf (List.takeWhile numChar (c :: r)) then
          some (List.takeWhile numChar (c :: r), List.dropWhile numChar (c :: r))
        else none
      else none

/-- The elements of a non-empty array, compacted and joined with commas; the
source's closing bracket is consumed, the emitted one is added by the caller. -/
def compactElems : Nat → List Char → Option (List Char × List Char)
  | 0, _ => none
  | Nat.succ f, cs =>
    match compactValue f cs with
    | none => none
    | some (out, r) =>
      match skipWs r with
      | d :: r1 =>
        if d = ',' then
          match compactElems f r1 with
          | some (tl, r2) => some (out ++ ',' :: tl, r2)
          | none => none
        else if d = ']' then some (out, r1)
        else none
      | [] => none

/-- The members of a non-empty object, compacted; keys are compacted like any
string literal. -/
def compactMembers : Nat → List Char → Option (List Char × List Char)
  | 0, _ => none
  | Nat.succ f, cs =>
    match skipWs cs with
    | c :: r =>
      if c = qu then
        match rawStringBody r with
        | some (kb, r1) =>
          match skipWs r1 with
          | d :: r2 =>
            if d = ':' then
              match compactValue f r2 with
              | some (vout, r3) =>
                match skipWs r3 with
                | e :: r4 =>
                  if e = ',' then
                    match compactMembers f r4 with
                    | some (tl, r5) =>
                      some (qu :: kb ++ qu :: ':' :: vout ++ ',' :: tl, r5)
                    | none => none
                  else if e = rb then some (qu :: kb ++ qu :: ':' :: vout, r4)
                  else none
                | [] => none
              | none => none
            else none
          | [] => none
        | none => none
      else none
    | [] => none

end

/-- `compact` of a complete document: one value, nothing but whitespace after
it (Go's scanner errors otherwise and `Marshal` fails). -/
def compactRaw (s : String) : Option (List Char) :=
  match compactValue (2 * s.length + 2) s.data with
  | some (out, rest) => if skipWs rest = [] then some out else none
  | none => none

/-!
### Data model (`connector.go`)

`Task` mirrors the Go struct: `Id`, `RawConfig json.RawMessage` (kept here as
the raw bytes in a `String`, with the zero value `""` standing for the nil
`RawMessage`), `Type`, `Payload`.
-/

structure Task where
  id : String
  rawConfig : String
  type : String
  payload : String
deriving DecidableEq

instance : Inhabited Task := ⟨⟨"", "", "", ""⟩⟩

/-- Config for a DB task (`TaskDbConfig`): driver name and DSN. -/
structure TaskDbConfig where
  type : String
  dsn : String
deriving DecidableEq

instance : Inhabited TaskDbConfig := ⟨⟨"", ""⟩⟩

/-- `{"last_insert_id": ..., "rows_affected": ...}` (`DbExecResult`). -/
structure DbExecResult where
  lastInsertId : Int
  rowsAffected : Int
deriving DecidableEq

/-!
### `json.Unmarshal` into the structs

Go's decoder validates the whole input first (`checkValid`), so a syntax error
assigns nothing. On a well-formed document it walks the object's members in
order; an unknown key is ignored, `null` for a field is a no-op, and a type
mismatch for one field records the first such error but continues decoding the
remaining fields ("Unmarshal skips that field and completes the unmarshalling
as best it can", returning the earliest `UnmarshalTypeError`). A
`json.RawMessage` field captures the value's literal bytes, which the decoder
hands to `RawMessage.UnmarshalJSON` verbatim.
-/

/-- Keep the first decode error, as Go's `d.saveError` does. -/
def keepFirst (e : Option String) (m : String) : Option String :=
  match e with
  | some x => some x
  | none => some m

/-- Process one object member into a `Task` under Go's field rules. For the
`config` field (`json.RawMessage`, an `Unmarshaler`) the decoder hands over
the value's literal bytes `raw`, kept verbatim — interior whitespace and
escape sequences included; the other fields use the decoded value. -/
def setTaskField (k : String) (v : Json) (raw : String) (acc : Task × Option String) :
    Task × Option String :=
  let t := acc.1
  let e := acc.2
  if k = "id" then
    match v with
    | .str s => ({ t with id := s }, e)
    | .null => (t, e)
    | _ => (t, keepFirst e "json: cannot unmarshal value into Go struct field Task.id of type string")
  else if k = "config" then
    ({ t with rawConfig := raw }, e)
  else if k = "type" then
    match v with
    | .str s => ({ t with type := s }, e)
    | .null => (t, e)
    | _ => (t, keepFirst e "json: cannot unmarshal value into Go struct field Task.type of type string")
  else if k = "payload" then
    match v with
    | .str s => ({ t with payload := s }, e)
    | .null => (t, e)
    | _ => (t, keepFirst e "json: cannot unmarshal value into Go struct field Task.payload of type string")
  else (t, e)

/-- The decoder's read of one member value with its `json.RawMessage` span:
whitespace before the value is skipped (the captured bytes start at the
value's first byte and end at its last, exactly what Go passes to
`RawMessage.UnmarshalJSON`), then the value is scanned once. -/
def parseValueSpan (cs : List Char) : Option ((Json × String) × List Char) :=
  let cs1 := skipWs cs
  match parseValue (2 * cs1.length + 2) cs1 with
  | some (v, rest) => some ((v, String.mk (cs1.take (cs1.length - rest.length))), rest)
  | none => none

/-- The decoder's walk over the members of the top-level `Task` object (the
opening brace and any empty-object case already handled), positioned at the
first member; fuel bounds the member count. -/
def twF : Nat → List Char → Task × Option String → Option (Task × Option String)
  | 0, _, _ => none
  | Nat.succ f, cs, acc =>
    match skipWs cs with
    | c :: r =>
      if c = qu then
        match parseStringBody r with
        | some (key, r1) =>
          match skipWs r1 with
          | d :: r2 =>
            if d = ':' then
              match parseValueSpan r2 with
              | some ((v, raw), r4) =>
                match skipWs r4 with
                | e :: r5 =>
                  if e = ',' then twF f r5 (setTaskField (String.mk key) v raw acc)
                  else if e = rb then some (setTaskField (String.mk key) v raw acc)
                  else none
                | [] => none
              | none => none
            else none
          | [] => none
        | none => none
      else none
    | [] => none

/-- The decoder's pass over a top-level object for a `Task`: consume the
opening brace, then the members. The none fallbacks are unreachable when the
input already passed the validity pre-scan, which is the only way this is
reached. -/
def walkTask (s : String) : Task × Option String :=
  match skipWs s.data with
  | c :: r =>
    if c = lb then
      match skipWs r with
      | d :: r1 =>
        if d = rb then (default, none)
        else
          match twF (s.length + 1) (d :: r1) (default, none) with
          | some acc => acc
          | none => (default, some "invalid character in JSON input")
      | [] => (default, some "unexpected end of JSON input")
    else (default, some "invalid character in JSON input")
  | [] => (default, some "unexpected end of JSON input")

/-- `json.Unmarshal(data, &task)` for a `Task`: `checkValid` first (a syntax
error assigns nothing), then `null` is a no-op, a non-object is a type error,
and an object's members are walked with the `config` value's bytes captured
verbatim. -/
def unmarshalTask (s : String) : Task × Option String :=
  match parseJson s with
  | none =>
    (default,
      some (if s.data = [] then "unexpected end of JSON input" else "invalid character in JSON input"))
  | some .null => (default, none)
  | some (.obj _) => walkTask s
  | some _ => (default, some "json: cannot unmarshal value into Go value of type main.Task")

/-- Process one object member into a `TaskDbConfig` under Go's field rules. -/
def setDbConfigField (k : String) (v : Json) (acc : TaskDbConfig × Option String) :
    TaskDbConfig × Option String :=
  let c := acc.1
  let e := acc.2
  if k = "type" then
    match v with
    | .str s => ({ c with type := s }, e)
    | .null => (c, e)
    | _ => (c, keepFirst e "json: cannot unmarshal value into Go struct field TaskDbConfig.type of type string")
  else if k = "dsn" then
    match v with
    | .str s => ({ c with dsn := s }, e)
    | .null => (c, e)
    | _ => (c, keepFirst e "json: cannot unmarshal value into Go struct field TaskDbConfig.dsn of type string")
  else (c, e)

def dbConfigFields : JsonObj → TaskDbConfig × Option String → TaskDbConfig × Option String
  | .nil, acc => acc
  | .cons k v tl, acc => dbConfigFields tl (setDbConfigField k v acc)

def unmarshalTaskDbConfigJson : Json → TaskDbConfig × Option String
  | .null => (default, none)
  | .obj ms => dbConfigFields ms (default, none)
  | _ => (default, some "json: cannot unmarshal value into Go value of type main.TaskDbConfig")

/-- `json.Unmarshal(task.RawConfig, &dbConfig)`; the nil `RawMessage` (modelled
as `""`) fails the validity pre-scan with "unexpected end of JSON input". -/
def unmarshalTaskDbConfig (s : String) : TaskDbConfig × Option String :=
  match parseJson s with
  | none =>
    (default,
      some (if s.data = [] then "unexpected end of JSON input" else "invalid character in JSON input"))
  | some j => unmarshalTaskDbConfigJson j

/-!
### `json.Marshal` of a `Task`

Fields are emitted in declaration order (`id`, `config`, `type`, `payload`).
The string fields go through the encoder's escaping; the `RawConfig` bytes go
through `compact` (HTML-escaped, whitespace dropped, escape sequences
preserved verbatim), and invalid raw bytes make `Marshal` fail. A nil
`RawMessage` marshals as `null`.
-/

/-- The bytes `Marshal` writes for a `Task` whose compacted config bytes are
`cfg`: `{"id":…,"config":cfg,"type":…,"payload":…}`. -/
def taskChars (t : Task) (cfg : List Char) : List Char :=
  lb :: qu :: 'i' :: 'd' :: qu :: ':' ::
    (encodeStringChars t.id ++
      (',' :: qu :: 'c' :: 'o' :: 'n' :: 'f' :: 'i' :: 'g' :: qu :: ':' ::
        (cfg ++
          (',' :: qu :: 't' :: 'y' :: 'p' :: 'e' :: qu :: ':' ::
            (encodeStringChars t.type ++
              (',' :: qu :: 'p' :: 'a' :: 'y' :: 'l' :: 'o' :: 'a' :: 'd' :: qu :: ':' ::
                (encodeStringChars t.payload ++ [rb])))))))

/-- `json.Marshal(task)`. -/
def marshalTask (t : Task) : Except String String :=
  if t.rawConfig = "" then .ok (String.mk (taskChars t ("null".data)))
  else
    match compactRaw t.rawConfig with
    | some cfg => .ok (String.mk (taskChars t cfg))
    | none => .error "json: error calling MarshalJSON for type json.RawMessage: unexpected end of JSON input"

/-- Encode a task to JSON and decode the result back (the spec's round-trip). -/
def taskRoundTrip (t : Task) : Except String Task :=
  match marshalTask t with
  | .error e => .error e
  | .ok s =>
    match unmarshalTask s with
    | (t2, none) => .ok t2
    | (_, some e) => .error e

/-!
### Database session model (`database/sql` + drivers)

`DbState` tracks the allocated session handles: `sqlOpen` registers a fresh
handle in `openSessions` and counts the attempt; `closeSession` (`db.Close()`)
removes it. The imported drivers register `mysql` (go-sql-driver) and both
`mssql` and `sqlserver` (go-mssqldb); `sql.Open` on any other name fails
eagerly with "sql: unknown driver". Driver-specific eager DSN validation and
the results of `db.Query`/`db.Exec` (including `mapquery.MapRows`) are left to
a `DbOracle`, since they depend on the external database.
-/

structure DbState where
  nextId : Nat
  openSessions : List Nat
  attempts : Nat
deriving DecidableEq

/-- A row as produced by `mapquery.MapRows`: ordered column-name/value pairs,
every value already text. -/
def Row : Type := List (String × String)

/-- The result of `driver.Result.LastInsertId()` / `RowsAffected()`: Go's
`(int64, error)` pairs. -/
structure RawExecResult where
  lastInsertId : Int
  lastInsertIdErr : Option String
  rowsAffected : Int
  rowsAffectedErr : Option String

/-- The environment behind `database/sql`: eager open errors, query results
(`db.Query` plus `mapquery.MapRows`, either failure collapsed into one
message as the code does) and exec results. -/
structure DbOracle where
  openRes : String → String → Option String
  queryRes : TaskDbConfig → String → Except String (List Row)
  execRes : TaskDbConfig → String → Except String RawExecResult

def registeredDrivers : List String := ["mysql", "mssql", "sqlserver"]

/-- `sql.Open(driverName, dsn)`. A successful open allocates a session handle;
a failure allocates nothing. Either way the attempt is counted. -/
def sqlOpen (o : DbOracle) (driver dsn : String) (st : DbState) :
    Except String Nat × DbState :=
  if driver ∈ registeredDrivers then
    match o.openRes driver dsn with
    | some e => (.error e, { st with attempts := st.attempts + 1 })
    | none =>
      (.ok st.nextId,
        { nextId := st.nextId + 1
          openSessions := st.nextId :: st.openSessions
          attempts := st.attempts + 1 })
  else (.error ("sql: unknown driver " ++ driver), { st with attempts := st.attempts + 1 })

/-- `db.Close()`. -/
def closeSession (h : Nat) (st : DbState) : DbState :=
  { st with openSessions := st.openSessions.erase h }

/-- `getTaskDbConfig`: unmarshal the raw config; the error goes only to
`errCheck` (logging), the partially-filled config is returned regardless. -/
def getTaskDbConfig (t : Task) : TaskDbConfig :=
  (unmarshalTaskDbConfig t.rawConfig).1

/-- `initDbConnection`: open by config; `errCheck(err)` only logs, and the
handle — nil (`none`) when the open failed — is returned as is. -/
def initDbConnection (o : DbOracle) (t : Task) (st : DbState) : Option Nat × DbState :=
  let config := getTaskDbConfig t
  match sqlOpen o config.type config.dsn st with
  | (.ok h, st1) => (some h, st1)
  | (.error _, st1) => (none, st1)

/-- Outcome of a Go call that returns `(value, error)` and can also panic. -/
inductive Outcome (α : Type) where
  | ok : α → Outcome α
  | err : String → Outcome α
  | panicked : String → Outcome α
deriving DecidableEq

/-- The runtime message of a method call on a nil `*sql.DB`. -/
def nilDerefMsg : String := "runtime error: invalid memory address or nil pointer dereference"

/-- `processDbQuery`: open, `SetMaxIdleConns(100)`, `defer db.Close()`, query,
map rows. When the open failed the handle is nil and `db.SetMaxIdleConns`
panics before the deferred close is even registered; no session exists then. -/
def processDbQuery (o : DbOracle) (t : Task) (st : DbState) :
    Outcome (List Row) × DbState :=
  let config := getTaskDbConfig t
  match initDbConnection o t st with
  | (none, st1) => (.panicked nilDerefMsg, st1)
  | (some h, st1) =>
    match o.queryRes config t.payload with
    | .error e => (.err e, closeSession h st1)
    | .ok rows => (.ok rows, closeSession h st1)

/-- `processDbExec`: like the query path, but `db.Exec`; the errors of
`LastInsertId()` / `RowsAffected()` are discarded (`_`), only the values are
kept. -/
def processDbExec (o : DbOracle) (t : Task) (st : DbState) :
    Outcome DbExecResult × DbState :=
  let config := getTaskDbConfig t
  match initDbConnection o t st with
  | (none, st1) => (.panicked nilDerefMsg, st1)
  | (some h, st1) =>
    match o.execRes config t.payload with
    | .error e => (.err e, closeSession h st1)
    | .ok raw =>
      (.ok { lastInsertId := raw.lastInsertId, rowsAffected := raw.rowsAffected },
        closeSession h st1)

/-! ### Request handling -/

/-- The response value inside an envelope: an error string, mapped query rows,
or an exec result. -/
inductive Body where
  | s : String → Body
  | rows : List Row → Body
  | exec : DbExecResult → Body

/-- `JsonResponse`: `{"type": ..., "body": ...}`. -/
structure JsonResponse where
  type : String
  body : Body

/-- An incoming HTTP request, reduced to what `processTaskRequest` consumes:
the body bytes the client sent and the possible errors of reading and of
closing the body. -/
structure Request where
  body : String
  readErr : Option String
  closeErr : Option String

/-- `ioutil.ReadAll(io.LimitReader(r.Body, 1048576))`: at most 1,048,576 bytes
are read; a longer body is truncated with no error. -/
def readAllLimited (r : Request) : Except String String :=
  match r.readErr with
  | some e => .error e
  | none => .ok (String.mk (r.body.data.take 1048576))

def TASK_TYPE_DB_MYSQL_QUERY : String := "mysql.query"

def TASK_TYPE_DB_MYSQL_EXEC : String := "mysql.exec"

def TASK_TYPE_DB_MSSQL_QUERY : String := "mssql.query"

def TASK_TYPE_DB_MSSQL_EXEC : String := "mssql.exec"

/-- `parseTask`: unmarshal the body into a `Task` (the log of the id has no
observable effect here). -/
def parseTask (s : String) : Task × Option String :=
  unmarshalTask s

/-- The `switch task.Type` of `processTaskRequest`: query types to the read
path, exec types to the write path (database failures wrapped as
"Database error: ..."), anything else to "Unknown task type: ...". -/
def dispatchTask (o : DbOracle) (t : Task) (st : DbState) : Outcome Body × DbState :=
  if t.type = TASK_TYPE_DB_MYSQL_QUERY || t.type = TASK_TYPE_DB_MSSQL_QUERY then
    match processDbQuery o t st with
    | (.ok rows, st1) => (.ok (.rows rows), st1)
    | (.err e, st1) => (.err ("Database error: " ++ e), st1)
    | (.panicked m, st1) => (.panicked m, st1)
  else if t.type = TASK_TYPE_DB_MYSQL_EXEC || t.type = TASK_TYPE_DB_MSSQL_EXEC then
    match processDbExec o t st with
    | (.ok res, st1) => (.ok (.exec res), st1)
    | (.err e, st1) => (.err ("Database error: " ++ e), st1)
    | (.panicked m, st1) => (.panicked m, st1)
  else (.err ("Unknown task type: " ++ t.type), st)

/-- `processTaskRequest`: read the capped body, close it, parse the task,
dispatch on its type. -/
def processTaskRequest (o : DbOracle) (r : Request) (st : DbState) :
    Outcome Body × DbState :=
  match readAllLimited r with
  | .error e => (.err e, st)
  | .ok body =>
    match r.closeErr with
    | some e => (.err e, st)
    | none =>
      match parseTask body with
      | (_, some e) => (.err ("Unable to parse JSON request body: " ++ e), st)
      | (task, none) => dispatchTask o task st

/-- What `handleTask` does with one request: a `(status, envelope)` response,
or a propagated panic (the HTTP server drops the connection; no response is
written). -/
inductive HttpOutcome where
  | resp : Nat → JsonResponse → HttpOutcome
  | panicked : String → HttpOutcome

/-- `handleTask` + `writeResponse`: 200/success around the raw response, or
500/error around the error's message. -/
def handleTask (o : DbOracle) (r : Request) (st : DbState) : HttpOutcome × DbState :=
  match processTaskRequest o r st with
  | (.ok b, st1) => (.resp 200 ⟨"success", b⟩, st1)
  | (.err e, st1) => (.resp 500 ⟨"error", .s e⟩, st1)
  | (.panicked m, st1) => (.panicked m, st1)

/-! ### The JSON the handler writes (`writeResponse` / `json.NewEncoder`) -/

def rowJson (row : Row) : Json :=
  .obj (row.foldr (fun p acc => .cons p.1 (.str p.2) acc) .nil)

def rowsJson (rows : List Row) : Json :=
  .arr (rows.foldr (fun row acc => .cons (rowJson row) acc) .nil)

/-- `json.Marshal` of a `DbExecResult`: both counters always present, as JSON
numbers, in declaration order. -/
def execResultJson (res : DbExecResult) : Json :=
  .obj (.cons "last_insert_id" (.num (Int.repr res.lastInsertId))
    (.cons "rows_affected" (.num (Int.repr res.rowsAffected)) .nil))

def bodyJson : Body → Json
  | .s m => .str m
  | .rows rows => rowsJson rows
  | .exec res => execResultJson res

/-- The envelope as encoded by `writeResponse`. -/
def envelopeJson (resp : JsonResponse) : Json :=
  .obj (.cons "type" (.str resp.type) (.cons "body" (bodyJson resp.body) .nil))

/-- The bytes `writeResponse` writes for an envelope. -/
def writeResponseBytes (resp : JsonResponse) : String :=
  encodeJsonStr (envelopeJson resp)

/-!
### HTTP basic auth (`checkAuth`, `handleAuthMiddleware`)

`checkAuth` splits the `Authorization` header at the first space, base64
decodes the second part, splits the decoded bytes at the first colon, and
compares the halves with `AUTH_USER` and the configured API key. Comparison is
byte-wise (Go string equality), so the decoded credentials are kept as bytes.
-/

def AUTH_USER : String := "digistormconnector"

/-- The UTF-8 encoding of one character. -/
def utf8Bytes (c : Char) : List Nat :=
  let n := c.toNat
  if n < 128 then [n]
  else if n < 2048 then [192 + n / 64, 128 + n % 64]
  else if n < 65536 then [224 + n / 4096, 128 + n / 64 % 64, 128 + n % 64]
  else [240 + n / 262144, 128 + n / 4096 % 64, 128 + n / 64 % 64, 128 + n % 64]

/-- UTF-8 bytes of a string, for Go's byte-wise string comparison. -/
def strBytes (s : String) : List Nat :=
  s.data.foldr (fun c acc => utf8Bytes c ++ acc) []

/-- `strings.SplitN(s, sep, 2)` produces two parts exactly when the separator
occurs; this returns those two parts. -/
def splitFirst {α : Type} [DecidableEq α] (sep : α) : List α → Option (List α × List α)
  | [] => none
  | c :: cs =>
    if c = sep then some ([], cs)
    else
      match splitFirst sep cs with
      | some (a, b) => some (c :: a, b)
      | none => none

/-- Value of a standard base64 alphabet character. -/
def b64Index (c : Char) : Option Nat :=
  if 65 ≤ c.toNat ∧ c.toNat ≤ 90 then some (c.toNat - 65)
  else if 97 ≤ c.toNat ∧ c.toNat ≤ 122 then some (c.toNat - 97 + 26)
  else if 48 ≤ c.toNat ∧ c.toNat ≤ 57 then some (c.toNat - 48 + 52)
  else if c.toNat = 43 then some 62
  else if c.toNat = 47 then some 63
  else none

/-- Decode the newline-filtered input four characters at a time, with `=`
padding allowed only to end the final quantum, as
`base64.StdEncoding.DecodeString` accepts. -/
def b64Quanta : List Char → Except String (List Nat)
  | [] => .ok []
  | c1 :: c2 :: c3 :: c4 :: rest =>
    match b64Index c1, b64Index c2 with
    | some i1, some i2 =>
      if c3.toNat = 61 then
        if c4.toNat = 61 ∧ rest = [] then .ok [i1 * 4 + i2 / 16]
        else .error "illegal base64 data"
      else
        match b64Index c3 with
        | some i3 =>
          if c4.toNat = 61 then
            if rest = [] then .ok [i1 * 4 + i2 / 16, i2 % 16 * 16 + i3 / 4]
            else .error "illegal base64 data"
          else
            match b64Index c4 with
            | some i4 =>
              match b64Quanta rest with
              | .ok bs2 =>
                .ok ((i1 * 4 + i2 / 16) :: (i2 % 16 * 16 + i3 / 4) :: (i3 % 4 * 64 + i4) :: bs2)
              | .error e => .error e
            | none => .error "illegal base64 data"
        | none => .error "illegal base64 data"
    | _, _ => .error "illegal base64 data"
  | _ => .error "illegal base64 data"

/-- `base64.StdEncoding.DecodeString`: newlines are ignored, everything else
must be full padded quanta. -/
def base64Decode (cs : List Char) : Except String (List Nat) :=
  b64Quanta (cs.filter (fun c => c.toNat ≠ 10 ∧ c.toNat ≠ 13))

/-- `checkAuth(w, r)` for a given configured API key and `Authorization`
header value. -/
def checkAuth (apiKey : String) (authHeader : String) : Bool :=
  match splitFirst ' ' authHeader.data with
  | none => false
  | some (_, creds) =>
    match base64Decode creds with
    | .error _ => false
    | .ok bs2 =>
      match splitFirst 58 bs2 with
      | none => false
      | some (user, pass) => user = strBytes AUTH_USER && pass = strBytes apiKey

/-- What `handleAuthMiddleware` does before any handler runs. -/
inductive AuthOutcome where
  | dispatched : AuthOutcome
  | unauthorized : Nat → String → String → AuthOutcome
deriving DecidableEq

/-- `handleAuthMiddleware`: dispatch on success, else 401 with the
`WWW-Authenticate` challenge and a plain text body. -/
def handleAuthMiddleware (apiKey : String) (authHeader : String) : AuthOutcome :=
  if checkAuth apiKey authHeader then .dispatched
  else .unauthorized 401 "Basic realm=\"MY REALM\"" "401 Unauthorized\n"

/-!
### Auxiliary definitions for the correctness development

`jsize` is a structural size driving the fuel arguments; `jwf` states that the
number lexemes stored in a value are well-formed (always true of parser
output). `SafeAfter` says the following input cannot extend a number lexeme.
-/

mutual

def jsize : Json → Nat
  | .null => 1
  | .bool _ => 1
  | .num _ => 1
  | .str _ => 1
  | .arr es => asize es + 1
  | .obj ms => osize ms + 1

def asize : JsonArr → Nat
  | .nil => 1
  | .cons h t => max (jsize h) (asize t) + 1

def osize : JsonObj → Nat
  | .nil => 1
  | .cons _ v t => max (jsize v) (osize t) + 1

end

mutual

def jwf : Json → Bool
  | .null => true
  | .bool _ => true
  | .num lex => numWf lex.data && lex.data.all numChar
  | .str _ => true
  | .arr es => awf es
  | .obj ms => owf ms

def awf : JsonArr → Bool
  | .nil => true
  | .cons h t => jwf h && awf t

def owf : JsonObj → Bool
  | .nil => true
  | .cons _ v t => jwf v && owf t

end

/-- What follows an encoded array element before the separator. -/
def elemsTail : JsonArr → List Char
  | .nil => []
  | .cons h2 t2 => ',' :: encodeElems (.cons h2 t2)

/-- What follows an encoded object member before the separator. -/
def membersTail : JsonObj → List Char
  | .nil => []
  | .cons k2 v2 t2 => ',' :: encodeMembers (.cons k2 v2 t2)

/-- The input continues with something that cannot extend a number lexeme. -/
def SafeAfter (rest : List Char) : Prop :=
  ∀ c, rest.head? = some c → numChar c = false

/-- Round-trip statement for values at a given fuel. -/
def RTv (f : Nat) : Prop :=
  ∀ v rest, jwf v = true → jsize v ≤ f → SafeAfter rest →
    parseValue f (encodeJson v ++ rest) = some (v, rest)

/-- Round-trip statement for non-empty array elements at a given fuel. -/
def RTa (f : Nat) : Prop :=
  ∀ h t rest, awf (.cons h t) = true → asize (.cons h t) ≤ f →
    parseElems f (encodeElems (.cons h t) ++ ']' :: rest) = some (.cons h t, rest)

/-- Round-trip statement for non-empty object members at a given fuel. -/
def RTo (f : Nat) : Prop :=
  ∀ k v t rest, owf (.cons k v t) = true → osize (.cons k v t) ≤ f →
    parseMembers f (encodeMembers (.cons k v t) ++ rb :: rest) = some (.cons k v t, rest)

end Connector

namespace Connector

/-! ### Character and list facts -/

theorem toNat_ofNat_lt (n : Nat) (h : n < 55296) : (Char.ofNat n).toNat = n := by
  have hv : n.isValidChar := Or.inl h
  unfold Char.ofNat
  rw [dif_pos hv]
  unfold Char.ofNatAux Char.toNat
  rw [UInt32.toNat]
  simp [BitVec.toNat_ofNatLt]

theorem ofNat_toNat (c : Char) : Char.ofNat c.toNat = c := by
  have hv : c.toNat.isValidChar := by
    have := c.valid
    simpa [Char.toNat, UInt32.isValidChar] using this
  unfold Char.ofNat
  rw [dif_pos hv]
  unfold Char.ofNatAux
  apply Char.eq_of_val_eq
  apply UInt32.toBitVec_injective
  apply BitVec.eq_of_toNat_eq
  simp [BitVec.toNat_ofNatLt, Char.toNat, UInt32.toNat]

theorem char_eq_iff_toNat (a b : Char) : a = b ↔ a.toNat = b.toNat := by
  constructor
  · intro h
    rw [h]
  · intro h
    have := congrArg Char.ofNat h
    rwa [ofNat_toNat, ofNat_toNat] at this

theorem hexVal_hexDigitChar (m : Nat) (h : m < 16) : hexVal (hexDigitChar m) = some m := by
  unfold hexDigitChar hexVal
  by_cases h10 : m < 10
  · rw [if_pos h10]
    rw [toNat_ofNat_lt (48 + m) (by omega)]
    rw [if_pos (by omega)]
    congr 1
    omega
  · rw [if_neg h10]
    rw [toNat_ofNat_lt (87 + m) (by omega)]
    rw [if_neg (by omega), if_pos (by omega)]
    congr 1
    omega

theorem skipWs_not_ws (c : Char) (cs : List Char) (h : wsChar c = false) :
    skipWs (c :: cs) = c :: cs := by
  simp [skipWs, h]

theorem takeWhile_all_append (p : Char → Bool) (l rest : List Char)
    (hl : ∀ x ∈ l, p x = true) (hr : ∀ c, rest.head? = some c → p c = false) :
    List.takeWhile p (l ++ rest) = l ∧ List.dropWhile p (l ++ rest) = rest := by
  induction l with
  | nil =>
    simp only [List.nil_append]
    cases rest with
    | nil => simp
    | cons c X =>
      have := hr c (by simp)
      simp [List.takeWhile, List.dropWhile, this]
  | cons a l ih =>
    have ha : p a = true := hl a (by simp)
    have ih2 := ih (fun x hx => hl x (by simp [hx]))
    simp [List.takeWhile, List.dropWhile, ha, ih2.1, ih2.2]

/-! ### String-literal decoding inverts the encoder's escaping -/

theorem psbF_qu (f : Nat) (X : List Char) :
    psbF (Nat.succ f) (bs :: qu :: X) = consStr qu (psbF f X) := rfl

theorem psbF_bs (f : Nat) (X : List Char) :
    psbF (Nat.succ f) (bs :: bs :: X) = consStr bs (psbF f X) := rfl

theorem psbF_n (f : Nat) (X : List Char) :
    psbF (Nat.succ f) (bs :: 'n' :: X) = consStr (Char.ofNat 10) (psbF f X) := rfl

theorem psbF_r (f : Nat) (X : List Char) :
    psbF (Nat.succ f) (bs :: 'r' :: X) = consStr (Char.ofNat 13) (psbF f X) := rfl

theorem psbF_t (f : Nat) (X : List Char) :
    psbF (Nat.succ f) (bs :: 't' :: X) = consStr (Char.ofNat 9) (psbF f X) := rfl

theorem psbF_u2028 (f : Nat) (X : List Char) :
    psbF (Nat.succ f) (bs :: 'u' :: '2' :: '0' :: '2' :: '8' :: X) =
      consStr (Char.ofNat 8232) (psbF f X) := rfl

theorem psbF_u2029 (f : Nat) (X : List Char) :
    psbF (Nat.succ f) (bs :: 'u' :: '2' :: '0' :: '2' :: '9' :: X) =
      consStr (Char.ofNat 8233) (psbF f X) := rfl

theorem psbF_u00 (n : Nat) (hn : n < 256) (f : Nat) (X : List Char) :
    psbF (Nat.succ f)
        (bs :: 'u' :: '0' :: '0' :: hexDigitChar (n / 16) :: hexDigitChar (n % 16) :: X) =
      consStr (Char.ofNat n) (psbF f X) := by
  have hh : hex4 '0' '0' (hexDigitChar (n / 16)) (hexDigitChar (n % 16)) = some n := by
    unfold hex4
    rw [hexVal_hexDigitChar _ (show n / 16 < 16 by omega),
      hexVal_hexDigitChar _ (show n % 16 < 16 by omega)]
    show some (0 * 4096 + 0 * 256 + n / 16 * 16 + n % 16) = some n
    congr 1
    omega
  rw [psbF.eq_def]
  simp only [hh]
  rw [if_neg (by decide), if_pos trivial, if_neg (by omega), if_neg (by omega)]

theorem psbF_plain (c : Char) (f : Nat) (X : List Char) (h1 : ¬c = qu) (h2 : ¬c = bs)
    (h3 : ¬c.toNat < 32) : psbF (Nat.succ f) (c :: X) = consStr c (psbF f X) := by
  rw [psbF.eq_def]
  dsimp only
  rw [if_neg h1, if_neg h2, if_neg h3]

theorem escChars_cons (c : Char) (cs : List Char) :
    escChars (c :: cs) = escapeChar c ++ escChars cs := rfl

/-- Decoding inverts encoding for string contents, at any sufficient fuel. -/
theorem psbF_esc (s : List Char) : ∀ (f : Nat) (rest : List Char), s.length + 1 ≤ f →
    psbF f (escChars s ++ qu :: rest) = some (s, rest) := by
  induction s with
  | nil =>
    intro f rest hf
    match f, hf with
    | Nat.succ f, _ => rfl
  | cons c s ih =>
    intro f rest hf
    match f, hf with
    | Nat.succ f, hf =>
      have hf2 : s.length + 1 ≤ f := by
        simp only [List.length_cons] at hf
        omega
      have ih2 := ih f rest hf2
      rw [escChars_cons, List.append_assoc]
      unfold escapeChar
      by_cases h1 : c = qu
      · rw [if_pos h1]
        show psbF (Nat.succ f) (bs :: qu :: (escChars s ++ qu :: rest)) = _
        rw [psbF_qu, ih2]
        simp [consStr, h1]
      · rw [if_neg h1]
        by_cases h2 : c = bs
        · rw [if_pos h2]
          show psbF (Nat.succ f) (bs :: bs :: (escChars s ++ qu :: rest)) = _
          rw [psbF_bs, ih2]
          simp [consStr, h2]
        · rw [if_neg h2]
          by_cases h3 : c.toNat = 10
          · rw [if_pos h3]
            show psbF (Nat.succ f) (bs :: 'n' :: (escChars s ++ qu :: rest)) = _
            rw [psbF_n, ih2]
            have hc : Char.ofNat 10 = c := by
              rw [← h3, ofNat_toNat]
            rw [hc]
            simp [consStr]
          · rw [if_neg h3]
            by_cases h4 : c.toNat = 13
            · rw [if_pos h4]
              show psbF (Nat.succ f) (bs :: 'r' :: (escChars s ++ qu :: rest)) = _
              rw [psbF_r, ih2]
              have hc : Char.ofNat 13 = c := by
                rw [← h4, ofNat_toNat]
              rw [hc]
              simp [consStr]
            · rw [if_neg h4]
              by_cases h5 : c.toNat = 9
              · rw [if_pos h5]
                show psbF (Nat.succ f) (bs :: 't' :: (escChars s ++ qu :: rest)) = _
                rw [psbF_t, ih2]
                have hc : Char.ofNat 9 = c := by
                  rw [← h5, ofNat_toNat]
                rw [hc]
                simp [consStr]
              · rw [if_neg h5]
                by_cases h6 : c.toNat < 32 || c.toNat = 60 || c.toNat = 62 || c.toNat = 38
                · rw [if_pos h6]
                  show psbF (Nat.succ f)
                    (bs :: 'u' :: '0' :: '0' :: hexDigitChar (c.toNat / 16) ::
                      hexDigitChar (c.toNat % 16) :: (escChars s ++ qu :: rest)) = _
                  have hlt : c.toNat < 256 := by
                    simp only [Bool.or_eq_true, decide_eq_true_eq] at h6
                    omega
                  rw [psbF_u00 c.toNat hlt, ih2]
                  simp [consStr, ofNat_toNat]
                · rw [if_neg h6]
                  by_cases h7 : c.toNat = 8232
                  · rw [if_pos h7]
                    show psbF (Nat.succ f)
                      (bs :: 'u' :: '2' :: '0' :: '2' :: '8' :: (escChars s ++ qu :: rest)) = _
                    rw [psbF_u2028, ih2]
                    have hc : Char.ofNat 8232 = c := by
                      rw [← h7, ofNat_toNat]
                    rw [hc]
                    simp [consStr]
                  · rw [if_neg h7]
                    by_cases h8 : c.toNat = 8233
                    · rw [if_pos h8]
                      show psbF (Nat.succ f)
                        (bs :: 'u' :: '2' :: '0' :: '2' :: '9' :: (escChars s ++ qu :: rest)) = _
                      rw [psbF_u2029, ih2]
                      have hc : Char.ofNat 8233 = c := by
                        rw [← h8, ofNat_toNat]
                      rw [hc]
                      simp [consStr]
                    · rw [if_neg h8]
                      show psbF (Nat.succ f) (c :: (escChars s ++ qu :: rest)) = _
                      rw [psbF_plain c f _ h1 h2 (by
                        simp only [Bool.or_eq_true, decide_eq_true_eq] at h6
                        omega), ih2]
                      simp [consStr]

theorem escapeChar_len (c : Char) : 1 ≤ (escapeChar c).length := by
  unfold escapeChar
  split_ifs <;> simp

theorem escChars_len (s : List Char) : s.length ≤ (escChars s).length := by
  induction s with
  | nil => simp [escChars]
  | cons c s ih =>
    rw [escChars_cons]
    have := escapeChar_len c
    simp only [List.length_append, List.length_cons]
    omega

/-- Decoding inverts encoding for string contents: the escaped characters
followed by the closing quote and anything else parse back to the original
characters. -/
theorem psb_esc (s : List Char) (rest : List Char) :
    parseStringBody (escChars s ++ qu :: rest) = some (s, rest) := by
  unfold parseStringBody
  apply psbF_esc
  have := escChars_len s
  simp only [List.length_append, List.length_cons]
  omega

/-! ### Surrogate-pair lookahead facts -/

theorem pairChar_head (n : Nat) (c : Char) (l : List Char) (h : ¬c = bs) :
    pairChar n (c :: l) = none := by
  rcases l with _ | ⟨e2, l2⟩
  · rfl
  rcases l2 with _ | ⟨g1, l3⟩
  · rfl
  rcases l3 with _ | ⟨g2, l4⟩
  · rfl
  rcases l4 with _ | ⟨g3, l5⟩
  · rfl
  rcases l5 with _ | ⟨g4, l6⟩
  · rfl
  rw [pairChar.eq_def]
  dsimp only
  rw [if_neg (fun hand => h hand.1)]

theorem pairChar_snd (n : Nat) (c e2 : Char) (l : List Char) (h : ¬e2 = 'u') :
    pairChar n (c :: e2 :: l) = none := by
  rcases l with _ | ⟨g1, l3⟩
  · rfl
  rcases l3 with _ | ⟨g2, l4⟩
  · rfl
  rcases l4 with _ | ⟨g3, l5⟩
  · rfl
  rcases l5 with _ | ⟨g4, l6⟩
  · rfl
  rw [pairChar.eq_def]
  dsimp only
  rw [if_neg (fun hand => h hand.2)]

theorem pairChar_val (n : Nat) (e1 e2 g1 g2 g3 g4 : Char) (l : List Char) (m : Nat)
    (hm : hex4 g1 g2 g3 g4 = some m) (h : ¬(56320 ≤ m ∧ m < 57344)) :
    pairChar n (e1 :: e2 :: g1 :: g2 :: g3 :: g4 :: l) = none := by
  rw [pairChar.eq_def]
  dsimp only
  by_cases hc : e1 = bs ∧ e2 = 'u'
  · rw [if_pos hc]
    simp only [hm]
    rw [if_neg h]
  · rw [if_neg hc]

theorem pairChar_none_inv (n : Nat) (h1 h2 h3 h4 : Char) (l : List Char) (m : Nat)
    (hm : hex4 h1 h2 h3 h4 = some m)
    (h : pairChar n (bs :: 'u' :: h1 :: h2 :: h3 :: h4 :: l) = none) :
    ¬(56320 ≤ m ∧ m < 57344) := by
  intro hlo
  rw [pairChar.eq_def] at h
  dsimp only at h
  rw [if_pos ⟨rfl, rfl⟩] at h
  simp only [hm] at h
  rw [if_pos hlo] at h
  exact Option.noConfusion h

/-- The pair lookahead only inspects the first six characters. -/
theorem pairChar_six (n : Nat) (a b c d e f2 : Char) (Z Z2 : List Char) :
    pairChar n (a :: b :: c :: d :: e :: f2 :: Z) =
      pairChar n (a :: b :: c :: d :: e :: f2 :: Z2) := rfl

/-! ### Further one-step unfoldings of the string-body decoder -/

theorem psbF_slash (f : Nat) (X : List Char) :
    psbF (Nat.succ f) (bs :: Char.ofNat 47 :: X) = consStr (Char.ofNat 47) (psbF f X) := rfl

theorem psbF_b (f : Nat) (X : List Char) :
    psbF (Nat.succ f) (bs :: 'b' :: X) = consStr (Char.ofNat 8) (psbF f X) := rfl

theorem psbF_fc (f : Nat) (X : List Char) :
    psbF (Nat.succ f) (bs :: 'f' :: X) = consStr (Char.ofNat 12) (psbF f X) := rfl

theorem escTwo_cases (e ch : Char) (h : escTwo e = some ch) :
    e = qu ∨ e = bs ∨ e = Char.ofNat 47 ∨ e = 'b' ∨ e = 'f' ∨ e = 'n' ∨ e = 'r' ∨ e = 't' := by
  unfold escTwo at h
  split_ifs at h with h1 h2 h3 h4 h5 h6 h7 h8
  · exact Or.inl h1
  · exact Or.inr (Or.inl h2)
  · refine Or.inr (Or.inr (Or.inl ?_))
    rw [← ofNat_toNat e, h3]
  · exact Or.inr (Or.inr (Or.inr (Or.inl h4)))
  · exact Or.inr (Or.inr (Or.inr (Or.inr (Or.inl h5))))
  · exact Or.inr (Or.inr (Or.inr (Or.inr (Or.inr (Or.inl h6)))))
  · exact Or.inr (Or.inr (Or.inr (Or.inr (Or.inr (Or.inr (Or.inl h7))))))
  · exact Or.inr (Or.inr (Or.inr (Or.inr (Or.inr (Or.inr (Or.inr h8))))))

theorem escTwo_ne_u (e ch : Char) (h : escTwo e = some ch) : ¬e = 'u' := by
  intro hu
  rw [hu] at h
  rw [show escTwo 'u' = none from by decide] at h
  exact Option.noConfusion h

theorem psbF_u_gen (h1 h2 h3 h4 : Char) (n : Nat) (f : Nat) (X : List Char)
    (hhex : hex4 h1 h2 h3 h4 = some n) (hns : ¬(55296 ≤ n ∧ n < 56320)) :
    psbF (Nat.succ f) (bs :: 'u' :: h1 :: h2 :: h3 :: h4 :: X) =
      consStr (if 56320 ≤ n ∧ n < 57344 then replChar else Char.ofNat n) (psbF f X) := by
  rw [psbF.eq_def]
  simp only [hhex]
  rw [if_neg (by decide), if_pos trivial, if_neg hns]
  by_cases hlo : 56320 ≤ n ∧ n < 57344
  · rw [if_pos hlo, if_pos hlo]
  · rw [if_neg hlo, if_neg hlo]

theorem psbF_u_unpaired (h1 h2 h3 h4 : Char) (n : Nat) (f : Nat) (X : List Char)
    (hhex : hex4 h1 h2 h3 h4 = some n) (hhs : 55296 ≤ n ∧ n < 56320)
    (hpc : pairChar n X = none) :
    psbF (Nat.succ f) (bs :: 'u' :: h1 :: h2 :: h3 :: h4 :: X) =
      consStr replChar (psbF f X) := by
  rw [psbF.eq_def]
  simp only [hhex, hpc]
  rw [if_neg (by decide), if_pos trivial, if_pos hhs]

theorem psbF_u_paired (h1 h2 h3 h4 : Char) (n : Nat) (f : Nat)
    (e1 e2 g1 g2 g3 g4 : Char) (Z : List Char) (ch : Char)
    (hhex : hex4 h1 h2 h3 h4 = some n) (hhs : 55296 ≤ n ∧ n < 56320)
    (hpc : pairChar n (e1 :: e2 :: g1 :: g2 :: g3 :: g4 :: Z) = some ch) :
    psbF (Nat.succ f)
        (bs :: 'u' :: h1 :: h2 :: h3 :: h4 :: e1 :: e2 :: g1 :: g2 :: g3 :: g4 :: Z) =
      consStr ch (psbF f Z) := by
  rw [psbF.eq_def]
  simp only [hhex, hpc]
  rw [if_neg (by decide), if_pos trivial, if_pos hhs]

/-! ### Unpacking one compaction step -/

theorem consRaw_some (p : List Char) (o : Option (List Char × List Char))
    (a b : List Char) (h : consRaw p o = some (a, b)) :
    ∃ a2, o = some (a2, b) ∧ a = p ++ a2 := by
  rcases o with _ | ⟨a2, b2⟩
  · exact Option.noConfusion h
  · simp only [consRaw, Option.map] at h
    simp only [Option.some.injEq, Prod.mk.injEq] at h
    obtain ⟨hab, hb⟩ := h
    exact ⟨a2, by rw [hb], hab.symm⟩

/-! ### Compaction of string bodies re-parses -/

theorem rsb_pairChar (f : Nat) (cs outb rest : List Char) (n : Nat) (X : List Char)
    (h : rsbF f cs = some (outb, rest)) (hpc : pairChar n cs = none) :
    pairChar n (outb ++ qu :: X) = none := by
  match f with
  | 0 => exact Option.noConfusion h
  | Nat.succ f =>
    rw [rsbF.eq_def] at h
    dsimp only at h
    split at h
    · exact Option.noConfusion h
    rename_i c cs1
    by_cases hq : c = qu
    · rw [if_pos hq] at h
      simp only [Option.some.injEq, Prod.mk.injEq] at h
      obtain ⟨h1, -⟩ := h
      rw [← h1, List.nil_append]
      exact pairChar_head n qu X (by decide)
    rw [if_neg hq] at h
    by_cases hb : c = bs
    · subst hb
      rw [if_pos rfl] at h
      split at h
      · exact Option.noConfusion h
      · rename_i h1 h2 h3 h4 cs3
        split at h
        · rename_i nn hhex
          have hninv := fun l => pairChar_none_inv n h1 h2 h3 h4 l nn hhex
          split at h
          · rename_i hhs
            split at h
            · rename_i e1 e2 g1 g2 g3 g4 cs4
              split at h
              · obtain ⟨out2, hrec, houtb⟩ := consRaw_some _ _ _ _ h
                subst houtb
                simp only [List.cons_append, List.nil_append]
                exact pairChar_val n bs 'u' h1 h2 h3 h4 _ nn hhex (hninv _ hpc)
              · obtain ⟨out2, hrec, houtb⟩ := consRaw_some _ _ _ _ h
                subst houtb
                simp only [List.cons_append, List.nil_append]
                exact pairChar_val n bs 'u' h1 h2 h3 h4 _ nn hhex (hninv _ hpc)
            · obtain ⟨out2, hrec, houtb⟩ := consRaw_some _ _ _ _ h
              subst houtb
              simp only [List.cons_append, List.nil_append]
              exact pairChar_val n bs 'u' h1 h2 h3 h4 _ nn hhex (hninv _ hpc)
          · obtain ⟨out2, hrec, houtb⟩ := consRaw_some _ _ _ _ h
            subst houtb
            simp only [List.cons_append, List.nil_append]
            exact pairChar_val n bs 'u' h1 h2 h3 h4 _ nn hhex (hninv _ hpc)
        · exact Option.noConfusion h
      · rename_i e cs2 hx
        split at h
        · rename_i ch he
          obtain ⟨out2, hrec, houtb⟩ := consRaw_some _ _ _ _ h
          subst houtb
          simp only [List.cons_append, List.nil_append]
          exact pairChar_snd n bs e _ (escTwo_ne_u e ch he)
        · exact Option.noConfusion h
    rw [if_neg hb] at h
    by_cases hctl : c.toNat < 32
    · rw [if_pos hctl] at h
      exact Option.noConfusion h
    rw [if_neg hctl] at h
    obtain ⟨out2, hrec, houtb⟩ := consRaw_some _ _ _ _ h
    subst houtb
    unfold compactChar
    by_cases hh : c.toNat = 60 ∨ c.toNat = 62 ∨ c.toNat = 38
    · rw [if_pos hh]
      simp only [List.cons_append, List.nil_append]
      refine pairChar_val n bs 'u' '0' '0' _ _ _ c.toNat ?_ (by rcases hh with h'|h'|h' <;> omega)
      unfold hex4
      rw [hexVal_hexDigitChar _ (by omega), hexVal_hexDigitChar _ (by omega)]
      show some (0 * 4096 + 0 * 256 + c.toNat / 16 * 16 + c.toNat % 16) = some c.toNat
      congr 1
      omega
    rw [if_neg hh]
    by_cases h28 : c.toNat = 8232
    · rw [if_pos h28]
      simp only [List.cons_append, List.nil_append]
      exact pairChar_val n bs 'u' '2' '0' '2' '8' _ 8232 (by decide) (by omega)
    rw [if_neg h28]
    by_cases h29 : c.toNat = 8233
    · rw [if_pos h29]
      simp only [List.cons_append, List.nil_append]
      exact pairChar_val n bs 'u' '2' '0' '2' '9' _ 8233 (by decide) (by omega)
    rw [if_neg h29]
    simp only [List.cons_append, List.nil_append]
    exact pairChar_head n c _ hb

theorem pairChar_not6 (n : Nat) (l : List Char)
    (hnot : ∀ (a b c d e f2 : Char) (tl : List Char), l = a :: b :: c :: d :: e :: f2 :: tl → False) :
    pairChar n l = none := by
  rcases l with _ | ⟨a, l1⟩
  · rfl
  rcases l1 with _ | ⟨b, l2⟩
  · rfl
  rcases l2 with _ | ⟨c, l3⟩
  · rfl
  rcases l3 with _ | ⟨d, l4⟩
  · rfl
  rcases l4 with _ | ⟨e, l5⟩
  · rfl
  rcases l5 with _ | ⟨f2, l6⟩
  · rfl
  exact (hnot a b c d e f2 l6 rfl).elim

/-- Re-parsing the compacted body of a string literal succeeds and consumes
exactly the emitted characters, at any sufficient fuel: the decoder walks the
compactor's output step for step. -/
theorem rsb_psb (f : Nat) : ∀ cs outb rest, rsbF f cs = some (outb, rest) →
    ∀ X g, outb.length + 1 ≤ g → ∃ w, psbF g (outb ++ qu :: X) = some (w, X) := by
  induction f with
  | zero =>
    intro cs outb rest h
    exact Option.noConfusion h
  | succ f ih =>
    intro cs outb rest h X g hg
    rw [rsbF.eq_def] at h
    dsimp only at h
    split at h
    · exact Option.noConfusion h
    rename_i c cs1
    by_cases hq : c = qu
    · rw [if_pos hq] at h
      simp only [Option.some.injEq, Prod.mk.injEq] at h
      obtain ⟨h1, -⟩ := h
      rw [← h1] at hg ⊢
      rcases g with _ | g
      · simp at hg
      refine ⟨[], ?_⟩
      rw [List.nil_append]
      rfl
    rw [if_neg hq] at h
    by_cases hb : c = bs
    · subst hb
      rw [if_pos rfl] at h
      split at h
      · exact Option.noConfusion h
      · rename_i h1 h2 h3 h4 cs3
        split at h
        · rename_i nn hhex
          split at h
          · rename_i hhs
            split at h
            · rename_i e1 e2 g1 g2 g3 g4 cs4
              split at h
              · rename_i hps
                obtain ⟨out2, hrec, houtb⟩ := consRaw_some _ _ _ _ h
                subst houtb
                rw [List.length_append] at hg
                rcases g with _ | g
                · simp at hg
                obtain ⟨ch, hch⟩ := Option.isSome_iff_exists.mp hps
                obtain ⟨w2, hw2⟩ := ih cs4 out2 rest hrec X g (by
                  simp only [List.length_cons, List.length_nil] at hg
                  omega)
                refine ⟨ch :: w2, ?_⟩
                simp only [List.cons_append, List.nil_append]
                rw [psbF_u_paired h1 h2 h3 h4 nn g e1 e2 g1 g2 g3 g4 _ ch hhex hhs
                  (by rw [pairChar_six nn e1 e2 g1 g2 g3 g4 _ cs4]; exact hch)]
                rw [hw2]
                rfl
              · rename_i hps
                obtain ⟨out2, hrec, houtb⟩ := consRaw_some _ _ _ _ h
                subst houtb
                rw [List.length_append] at hg
                rcases g with _ | g
                · simp at hg
                have hpcnone : pairChar nn (e1 :: e2 :: g1 :: g2 :: g3 :: g4 :: cs4) = none := by
                  rcases hn : pairChar nn (e1 :: e2 :: g1 :: g2 :: g3 :: g4 :: cs4) with _ | ch
                  · rfl
                  · exact absurd (by rw [hn]; rfl) hps
                obtain ⟨w2, hw2⟩ := ih _ out2 rest hrec X g (by
                  simp only [List.length_cons, List.length_nil] at hg
                  omega)
                refine ⟨replChar :: w2, ?_⟩
                simp only [List.cons_append, List.nil_append]
                rw [psbF_u_unpaired h1 h2 h3 h4 nn g _ hhex hhs
                  (rsb_pairChar f _ out2 rest nn X hrec hpcnone)]
                rw [hw2]
                rfl
            · rename_i hx
              obtain ⟨out2, hrec, houtb⟩ := consRaw_some _ _ _ _ h
              subst houtb
              rw [List.length_append] at hg
              rcases g with _ | g
              · simp at hg
              have hpcnone : pairChar nn cs3 = none := pairChar_not6 nn cs3 (by
                intro a b c d e f2 tl hEq
                exact hx a b c d e f2 tl hEq)
              obtain ⟨w2, hw2⟩ := ih cs3 out2 rest hrec X g (by
                simp only [List.length_cons, List.length_nil] at hg
                omega)
              refine ⟨replChar :: w2, ?_⟩
              simp only [List.cons_append, List.nil_append]
              rw [psbF_u_unpaired h1 h2 h3 h4 nn g _ hhex hhs
                (rsb_pairChar f cs3 out2 rest nn X hrec hpcnone)]
              rw [hw2]
              rfl
          · rename_i hns
            obtain ⟨out2, hrec, houtb⟩ := consRaw_some _ _ _ _ h
            subst houtb
            rw [List.length_append] at hg
            rcases g with _ | g
            · simp at hg
            obtain ⟨w2, hw2⟩ := ih cs3 out2 rest hrec X g (by
              simp only [List.length_cons, List.length_nil] at hg
              omega)
            refine ⟨(if 56320 ≤ nn ∧ nn < 57344 then replChar else Char.ofNat nn) :: w2, ?_⟩
            simp only [List.cons_append, List.nil_append]
            rw [psbF_u_gen h1 h2 h3 h4 nn g _ hhex hns]
            rw [hw2]
            rfl
        · exact Option.noConfusion h
      · rename_i e cs2 hx
        split at h
        · rename_i ch he
          obtain ⟨out2, hrec, houtb⟩ := consRaw_some _ _ _ _ h
          subst houtb
          rw [List.length_append] at hg
          rcases g with _ | g
          · simp at hg
          obtain ⟨w2, hw2⟩ := ih cs2 out2 rest hrec X g (by
            simp only [List.length_cons, List.length_nil] at hg
            omega)
          simp only [List.cons_append, List.nil_append]
          rcases escTwo_cases e ch he with he1 | he1 | he1 | he1 | he1 | he1 | he1 | he1 <;>
            subst he1
          · rw [show escTwo qu = some qu from rfl] at he
            injection he with he2
            subst he2
            refine ⟨qu :: w2, ?_⟩
            rw [psbF_qu, hw2]
            rfl
          · rw [show escTwo bs = some bs from rfl] at he
            injection he with he2
            subst he2
            refine ⟨bs :: w2, ?_⟩
            rw [psbF_bs, hw2]
            rfl
          · rw [show escTwo (Char.ofNat 47) = some (Char.ofNat 47) from by decide] at he
            injection he with he2
            subst he2
            refine ⟨Char.ofNat 47 :: w2, ?_⟩
            rw [psbF_slash, hw2]
            rfl
          · rw [show escTwo 'b' = some (Char.ofNat 8) from by decide] at he
            injection he with he2
            subst he2
            refine ⟨Char.ofNat 8 :: w2, ?_⟩
            rw [psbF_b, hw2]
            rfl
          · rw [show escTwo 'f' = some (Char.ofNat 12) from by decide] at he
            injection he with he2
            subst he2
            refine ⟨Char.ofNat 12 :: w2, ?_⟩
            rw [psbF_fc, hw2]
            rfl
          · rw [show escTwo 'n' = some (Char.ofNat 10) from by decide] at he
            injection he with he2
            subst he2
            refine ⟨Char.ofNat 10 :: w2, ?_⟩
            rw [psbF_n, hw2]
            rfl
          · rw [show escTwo 'r' = some (Char.ofNat 13) from by decide] at he
            injection he with he2
            subst he2
            refine ⟨Char.ofNat 13 :: w2, ?_⟩
            rw [psbF_r, hw2]
            rfl
          · rw [show escTwo 't' = some (Char.ofNat 9) from by decide] at he
            injection he with he2
            subst he2
            refine ⟨Char.ofNat 9 :: w2, ?_⟩
            rw [psbF_t, hw2]
            rfl
        · exact Option.noConfusion h
    rw [if_neg hb] at h
    by_cases hctl : c.toNat < 32
    · rw [if_pos hctl] at h
      exact Option.noConfusion h
    rw [if_neg hctl] at h
    obtain ⟨out2, hrec, houtb⟩ := consRaw_some _ _ _ _ h
    subst houtb
    rw [List.length_append] at hg
    by_cases hh : c.toNat = 60 ∨ c.toNat = 62 ∨ c.toNat = 38
    · have hcce : compactChar c =
          [bs, 'u', '0', '0', hexDigitChar (c.toNat / 16), hexDigitChar (c.toNat % 16)] := by
        unfold compactChar
        rw [if_pos hh]
      rw [hcce] at hg ⊢
      rcases g with _ | g
      · simp at hg
      obtain ⟨w2, hw2⟩ := ih cs1 out2 rest hrec X g (by
        simp only [List.length_cons, List.length_nil] at hg
        omega)
      refine ⟨Char.ofNat c.toNat :: w2, ?_⟩
      simp only [List.cons_append, List.nil_append]
      rw [psbF_u00 c.toNat (by rcases hh with h' | h' | h' <;> omega) g _]
      rw [hw2]
      rfl
    have hcc1 : ¬(c.toNat = 60 ∨ c.toNat = 62 ∨ c.toNat = 38) := hh
    by_cases h28 : c.toNat = 8232
    · have hcce : compactChar c = [bs, 'u', '2', '0', '2', '8'] := by
        unfold compactChar
        rw [if_neg hcc1, if_pos h28]
      rw [hcce] at hg ⊢
      rcases g with _ | g
      · simp at hg
      obtain ⟨w2, hw2⟩ := ih cs1 out2 rest hrec X g (by
        simp only [List.length_cons, List.length_nil] at hg
        omega)
      refine ⟨Char.ofNat 8232 :: w2, ?_⟩
      simp only [List.cons_append, List.nil_append]
      rw [psbF_u2028, hw2]
      rfl
    by_cases h29 : c.toNat = 8233
    · have hcce : compactChar c = [bs, 'u', '2', '0', '2', '9'] := by
        unfold compactChar
        rw [if_neg hcc1, if_neg h28, if_pos h29]
      rw [hcce] at hg ⊢
      rcases g with _ | g
      · simp at hg
      obtain ⟨w2, hw2⟩ := ih cs1 out2 rest hrec X g (by
        simp only [List.length_cons, List.length_nil] at hg
        omega)
      refine ⟨Char.ofNat 8233 :: w2, ?_⟩
      simp only [List.cons_append, List.nil_append]
      rw [psbF_u2029, hw2]
      rfl
    have hcce : compactChar c = [c] := by
      unfold compactChar
      rw [if_neg hcc1, if_neg h28, if_neg h29]
    rw [hcce] at hg ⊢
    rcases g with _ | g
    · simp at hg
    obtain ⟨w2, hw2⟩ := ih cs1 out2 rest hrec X g (by
      simp only [List.length_cons, List.length_nil] at hg
      omega)
    refine ⟨c :: w2, ?_⟩
    simp only [List.cons_append, List.nil_append]
    rw [psbF_plain c g _ hq hb hctl, hw2]
    rfl

/-! ### One-step unfoldings of the compactor -/

/-! ### Number lexemes and value head characters -/

theorem digit_toNat (c : Char) (h : c.isDigit = true) : 48 ≤ c.toNat ∧ c.toNat ≤ 57 := by
  simp only [Char.isDigit, Bool.and_eq_true, decide_eq_true_eq] at h
  exact h

theorem numWf_head (lex : List Char) (h : numWf lex = true) :
    ∃ c r, lex = c :: r ∧ (c = '-' ∨ c.isDigit = true) := by
  match lex with
  | [] => exact absurd h (by simp [numWf])
  | c :: r =>
    refine ⟨c, r, rfl, ?_⟩
    by_cases hc : c = '-'
    · exact Or.inl hc
    · right
      by_cases hd : c.isDigit = true
      · exact hd
      · exfalso
        have hz : ¬c = '0' := by
          intro h0
          rw [h0] at hd
          simp at hd
        have hci : chompInt (c :: r) = none := by
          rw [chompInt.eq_def]
          dsimp only
          rw [if_neg hz, if_neg (by simpa using hd)]
        simp only [numWf] at h
        rw [if_neg hc, hci] at h
        simp at h

theorem numStart_facts (c : Char) (h : c = '-' ∨ c.isDigit = true) :
    wsChar c = false ∧ ¬c = qu ∧ ¬c = lb ∧ ¬c = '[' ∧ ¬c = 'n' ∧ ¬c = 't' ∧ ¬c = 'f' ∧
      ¬c = ']' ∧ ¬c = rb := by
  have hn : c.toNat = 45 ∨ (48 ≤ c.toNat ∧ c.toNat ≤ 57) := by
    rcases h with h | h
    · left
      rw [h]
      rfl
    · right
      exact digit_toNat c h
  have e1 : qu.toNat = 34 := rfl
  have e2 : lb.toNat = 123 := rfl
  have e3 : ('[').toNat = 91 := rfl
  have e4 : ('n').toNat = 110 := rfl
  have e5 : ('t').toNat = 116 := rfl
  have e6 : ('f').toNat = 102 := rfl
  have e7 : (']').toNat = 93 := rfl
  have e8 : rb.toNat = 125 := rfl
  refine ⟨?_, ?_, ?_, ?_, ?_, ?_, ?_, ?_, ?_⟩
  · simp only [wsChar, Bool.or_eq_false_iff, decide_eq_false_iff_not]
    omega
  all_goals rw [char_eq_iff_toNat]
  · rw [e1]; omega
  · rw [e2]; omega
  · rw [e3]; omega
  · rw [e4]; omega
  · rw [e5]; omega
  · rw [e6]; omega
  · rw [e7]; omega
  · rw [e8]; omega

theorem jsize_pos (v : Json) : 1 ≤ jsize v := by
  cases v <;> simp [jsize]

theorem asize_pos (es : JsonArr) : 1 ≤ asize es := by
  cases es <;> simp [asize]

theorem osize_pos (ms : JsonObj) : 1 ≤ osize ms := by
  cases ms <;> simp [osize]

theorem encodeElems_cons (h : Json) (t : JsonArr) :
    encodeElems (.cons h t) = encodeJson h ++ elemsTail t := by
  cases t <;> simp [encodeElems, elemsTail]

theorem encodeMembers_cons (k : String) (v : Json) (t : JsonObj) :
    encodeMembers (.cons k v t) = encodeStringChars k ++ ':' :: encodeJson v ++ membersTail t := by
  cases t <;> simp [encodeMembers, membersTail]

/-- The first character of an encoded well-formed value is not whitespace and
not a closing bracket or brace. -/
theorem enc_head (v : Json) (hwf : jwf v = true) :
    ∃ c cs, encodeJson v = c :: cs ∧ wsChar c = false ∧ ¬c = ']' ∧ ¬c = rb := by
  cases v with
  | null => exact ⟨'n', _, rfl, by decide, by decide, by decide⟩
  | bool b =>
    cases b
    · exact ⟨'f', _, rfl, by decide, by decide, by decide⟩
    · exact ⟨'t', _, rfl, by decide, by decide, by decide⟩
  | num lex =>
    have hw : numWf lex.data = true := by
      simp only [jwf, Bool.and_eq_true] at hwf
      exact hwf.1
    obtain ⟨c, r, hcr, hc⟩ := numWf_head _ hw
    obtain ⟨f1, _, _, _, _, _, _, f8, f9⟩ := numStart_facts c hc
    exact ⟨c, r, by simp [encodeJson, hcr], f1, f8, f9⟩
  | str s => exact ⟨qu, _, rfl, by decide, by decide, by decide⟩
  | arr es => exact ⟨'[', _, rfl, by decide, by decide, by decide⟩
  | obj ms => exact ⟨lb, _, rfl, by decide, by decide, by decide⟩

/-! ### One-step unfoldings of the value parser -/

theorem pv_str (f : Nat) (Y : List Char) :
    parseValue (Nat.succ f) (qu :: Y) =
      (match parseStringBody Y with
       | some (content, r1) => some (.str (String.mk content), r1)
       | none => none) := rfl

theorem pv_lb (f : Nat) (Y : List Char) :
    parseValue (Nat.succ f) (lb :: Y) =
      (match skipWs Y with
       | d :: r1 =>
         if d = rb then some (.obj .nil, r1)
         else
           match parseMembers f (d :: r1) with
           | some (ms, r2) => some (.obj ms, r2)
           | none => none
       | [] => none) := rfl

theorem pv_lsb (f : Nat) (Y : List Char) :
    parseValue (Nat.succ f) ('[' :: Y) =
      (match skipWs Y with
       | d :: r1 =>
         if d = ']' then some (.arr .nil, r1)
         else
           match parseElems f (d :: r1) with
           | some (es, r2) => some (.arr es, r2)
           | none => none
       | [] => none) := rfl

theorem pv_succ (f : Nat) (cs : List Char) :
    parseValue (Nat.succ f) cs =
      (match skipWs cs with
       | [] => none
       | c :: r =>
         if c = qu then
           match parseStringBody r with
           | some (content, r1) => some (.str (String.mk content), r1)
           | none => none
         else if c = lb then
           match skipWs r with
           | d :: r1 =>
             if d = rb then some (.obj .nil, r1)
             else
               match parseMembers f (d :: r1) with
               | some (ms, r2) => some (.obj ms, r2)
               | none => none
           | [] => none
         else if c = '[' then
           match skipWs r with
           | d :: r1 =>
             if d = ']' then some (.arr .nil, r1)
             else
               match parseElems f (d :: r1) with
               | some (es, r2) => some (.arr es, r2)
               | none => none
           | [] => none
         else if c = 'n' then
           match r with
           | 'u' :: 'l' :: 'l' :: r1 => some (.null, r1)
           | _ => none
         else if c = 't' then
           match r with
           | 'r' :: 'u' :: 'e' :: r1 => some (.bool true, r1)
           | _ => none
         else if c = 'f' then
           match r with
           | 'a' :: 'l' :: 's' :: 'e' :: r1 => some (.bool false, r1)
           | _ => none
         else if c = '-' || c.isDigit then
           if numWf (List.takeWhile numChar (c :: r)) then
             some (.num (String.mk (List.takeWhile numChar (c :: r))),
               List.dropWhile numChar (c :: r))
           else none
         else none) := rfl

theorem pe_succ (f : Nat) (cs : List Char) :
    parseElems (Nat.succ f) cs =
      (match parseValue f cs with
       | none => none
       | some (v, r) =>
         match skipWs r with
         | d :: r1 =>
           if d = ',' then
             match parseElems f r1 with
             | some (tl, r2) => some (.cons v tl, r2)
             | none => none
           else if d = ']' then some (.cons v .nil, r1)
           else none
         | [] => none) := rfl

theorem pm_succ (f : Nat) (cs : List Char) :
    parseMembers (Nat.succ f) cs =
      (match skipWs cs with
       | c :: r =>
         if c = qu then
           match parseStringBody r with
           | some (key, r1) =>
             match skipWs r1 with
             | d :: r2 =>
               if d = ':' then
                 match parseValue f r2 with
                 | some (v, r3) =>
                   match skipWs r3 with
                   | e :: r4 =>
                     if e = ',' then
                       match parseMembers f r4 with
                       | some (tl, r5) => some (.cons (String.mk key) v tl, r5)
                       | none => none
                     else if e = rb then some (.cons (String.mk key) v .nil, r4)
                     else none
                   | [] => none
                 | none => none
               else none
             | [] => none
           | none => none
         else none
       | [] => none) := rfl

theorem pv_num (f : Nat) (c : Char) (Y : List Char) (h : c = '-' ∨ c.isDigit = true) :
    parseValue (Nat.succ f) (c :: Y) =
      (if numWf (List.takeWhile numChar (c :: Y)) then
        some (.num (String.mk (List.takeWhile numChar (c :: Y))),
          List.dropWhile numChar (c :: Y))
      else none) := by
  obtain ⟨hws, hqu, hlb, hlsb, hn, ht, hf, _, _⟩ := numStart_facts c h
  have hguard : (decide (c = '-') || c.isDigit) = true := by
    rcases h with h | h
    · simp [h]
    · simp [h]
  rw [parseValue.eq_def]
  simp only [skipWs_not_ws c Y hws]
  rw [if_neg hqu, if_neg hlb, if_neg hlsb, if_neg hn, if_neg ht, if_neg hf, if_pos hguard]

/-! ### The parser inverts the encoder -/

theorem safeAfter_nil : SafeAfter [] := by
  intro d hd
  simp at hd

theorem safeAfter_cons (c : Char) (X : List Char) (h : numChar c = false) :
    SafeAfter (c :: X) := by
  intro d hd
  rw [List.head?_cons] at hd
  cases hd
  exact h

/-- Parsing inverts encoding, at every sufficient fuel, for values, array
elements and object members simultaneously. -/
theorem parse_encode (f : Nat) : RTv f ∧ RTa f ∧ RTo f := by
  induction f with
  | zero =>
    refine ⟨?_, ?_, ?_⟩
    · intro v rest _ hsz _
      exact absurd hsz (by have := jsize_pos v; omega)
    · intro h t rest _ hsz
      exact absurd hsz (by have := asize_pos (.cons h t); omega)
    · intro k v t rest _ hsz
      exact absurd hsz (by have := osize_pos (.cons k v t); omega)
  | succ f ih =>
    obtain ⟨ihv, iha, iho⟩ := ih
    refine ⟨?_, ?_, ?_⟩
    · intro v rest hwf hsz hsafe
      cases v with
      | null =>
        show parseValue (Nat.succ f) (['n', 'u', 'l', 'l'] ++ rest) = some (.null, rest)
        rfl
      | bool b =>
        cases b
        · show parseValue (Nat.succ f) (['f', 'a', 'l', 's', 'e'] ++ rest) = some (.bool false, rest)
          rfl
        · show parseValue (Nat.succ f) (['t', 'r', 'u', 'e'] ++ rest) = some (.bool true, rest)
          rfl
      | num lex =>
        have hsplit0 : numWf lex.data = true ∧ lex.data.all numChar = true := by
          simpa [jwf, Bool.and_eq_true] using hwf
        obtain ⟨hnw, hall⟩ := hsplit0
        obtain ⟨c, r, hcr, hc⟩ := numWf_head lex.data hnw
        have henc : encodeJson (.num lex) = lex.data := rfl
        rw [henc, hcr, List.cons_append]
        rw [pv_num f c (r ++ rest) hc]
        have hsplit := takeWhile_all_append numChar (c :: r) rest
          (by
            intro x hx
            rw [hcr] at hall
            exact (List.all_eq_true.mp hall) x hx)
          hsafe
        rw [← List.cons_append, hsplit.1, hsplit.2, ← hcr, if_pos hnw]
      | str s =>
        have henc : encodeJson (.str s) = qu :: (escChars s.data ++ [qu]) := rfl
        rw [henc, List.cons_append, List.append_assoc, List.singleton_append]
        rw [pv_str, psb_esc s.data rest]
      | arr es =>
        cases es with
        | nil =>
          show parseValue (Nat.succ f) (['[', ']'] ++ rest) = some (.arr .nil, rest)
          rfl
        | cons h t =>
          have hwf2 : awf (.cons h t) = true := by simpa [jwf] using hwf
          have hsz2 : asize (.cons h t) ≤ f := by
            simp only [jsize] at hsz
            omega
          have henc : encodeJson (.arr (.cons h t)) = '[' :: (encodeElems (.cons h t) ++ [']']) := rfl
          rw [henc, List.cons_append, List.append_assoc, List.singleton_append, pv_lsb]
          obtain ⟨c0, cs0, hhd, hws0, hnrsb, _⟩ := enc_head h (by
            simp only [awf, Bool.and_eq_true] at hwf2
            exact hwf2.1)
          have hE : encodeElems (.cons h t) ++ ']' :: rest =
              c0 :: (cs0 ++ (elemsTail t ++ ']' :: rest)) := by
            rw [encodeElems_cons, hhd]
            simp [List.cons_append, List.append_assoc]
          rw [hE, skipWs_not_ws c0 _ hws0]
          dsimp only
          rw [if_neg hnrsb, ← hE, iha h t rest hwf2 hsz2]
      | obj ms =>
        cases ms with
        | nil =>
          show parseValue (Nat.succ f) ([lb, rb] ++ rest) = some (.obj .nil, rest)
          rfl
        | cons k v t =>
          have hwf2 : owf (.cons k v t) = true := by simpa [jwf] using hwf
          have hsz2 : osize (.cons k v t) ≤ f := by
            simp only [jsize] at hsz
            omega
          have henc : encodeJson (.obj (.cons k v t)) =
              lb :: (encodeMembers (.cons k v t) ++ [rb]) := rfl
          rw [henc, List.cons_append, List.append_assoc, List.singleton_append, pv_lb]
          have hE : encodeMembers (.cons k v t) ++ rb :: rest =
              qu :: (escChars k.data ++ (qu :: ':' :: (encodeJson v ++ (membersTail t ++ rb :: rest)))) := by
            rw [encodeMembers_cons, encodeStringChars]
            simp [List.cons_append, List.append_assoc]
          rw [hE, skipWs_not_ws qu _ (by decide)]
          dsimp only
          rw [if_neg (by decide), ← hE, iho k v t rest hwf2 hsz2]
    · intro h t rest hwf hsz
      have hwfp : jwf h = true ∧ awf t = true := by
        simpa [awf, Bool.and_eq_true] using hwf
      have hszp : jsize h ≤ f ∧ asize t ≤ f := by
        have hm : max (jsize h) (asize t) + 1 ≤ Nat.succ f := by simpa [asize] using hsz
        have := Nat.max_le.mp (by omega : max (jsize h) (asize t) ≤ f)
        exact this
      rw [pe_succ, encodeElems_cons, List.append_assoc]
      cases t with
      | nil =>
        have hT : elemsTail JsonArr.nil ++ ']' :: rest = ']' :: rest := rfl
        rw [hT, ihv h (']' :: rest) hwfp.1 hszp.1 (safeAfter_cons _ _ (by decide))]
        dsimp only
        rw [skipWs_not_ws ']' rest (by decide)]
        dsimp only
        rw [if_neg (by decide), if_pos rfl]
      | cons h2 t2 =>
        have hT : elemsTail (JsonArr.cons h2 t2) ++ ']' :: rest =
            ',' :: (encodeElems (.cons h2 t2) ++ ']' :: rest) := by
          simp [elemsTail, List.cons_append]
        rw [hT, ihv h _ hwfp.1 hszp.1 (safeAfter_cons _ _ (by decide))]
        dsimp only
        rw [skipWs_not_ws ',' _ (by decide)]
        dsimp only
        rw [if_pos rfl, iha h2 t2 rest hwfp.2 hszp.2]
    · intro k v t rest hwf hsz
      have hwfp : jwf v = true ∧ owf t = true := by
        simpa [owf, Bool.and_eq_true] using hwf
      have hszp : jsize v ≤ f ∧ osize t ≤ f := by
        have hm : max (jsize v) (osize t) + 1 ≤ Nat.succ f := by simpa [osize] using hsz
        have := Nat.max_le.mp (by omega : max (jsize v) (osize t) ≤ f)
        exact this
      have hsafe2 : SafeAfter (membersTail t ++ rb :: rest) := by
        cases t with
        | nil => exact safeAfter_cons _ _ (by decide)
        | cons k2 v2 t2 =>
          rw [show membersTail (JsonObj.cons k2 v2 t2) ++ rb :: rest =
            ',' :: (encodeMembers (.cons k2 v2 t2) ++ rb :: rest) from by
              simp [membersTail, List.cons_append]]
          exact safeAfter_cons _ _ (by decide)
      rw [pm_succ]
      have hE : encodeMembers (.cons k v t) ++ rb :: rest =
          qu :: (escChars k.data ++ (qu :: ':' :: (encodeJson v ++ (membersTail t ++ rb :: rest)))) := by
        rw [encodeMembers_cons, encodeStringChars]
        simp [List.cons_append, List.append_assoc]
      rw [hE, skipWs_not_ws qu _ (by decide)]
      dsimp only
      rw [if_pos rfl]
      rw [psb_esc k.data (':' :: (encodeJson v ++ (membersTail t ++ rb :: rest)))]
      dsimp only
      rw [skipWs_not_ws ':' _ (by decide)]
      dsimp only
      rw [if_pos rfl, ihv v _ hwfp.1 hszp.1 hsafe2]
      dsimp only
      cases t with
      | nil =>
        rw [show membersTail JsonObj.nil ++ rb :: rest = rb :: rest from rfl]
        rw [skipWs_not_ws rb rest (by decide)]
        dsimp only
        rw [if_neg (by decide), if_pos rfl]
      | cons k2 v2 t2 =>
        rw [show membersTail (JsonObj.cons k2 v2 t2) ++ rb :: rest =
          ',' :: (encodeMembers (.cons k2 v2 t2) ++ rb :: rest) from by
            simp [membersTail, List.cons_append]]
        rw [skipWs_not_ws ',' _ (by decide)]
        dsimp only
        rw [if_pos rfl, iho k2 v2 t2 rest hwfp.2 hszp.2]

/-! ### Parser output is well-formed -/

/-- Every value produced by the parser has well-formed number lexemes. -/
theorem parse_wf (f : Nat) :
    (∀ cs v rest, parseValue f cs = some (v, rest) → jwf v = true) ∧
    (∀ cs es rest, parseElems f cs = some (es, rest) → awf es = true) ∧
    (∀ cs ms rest, parseMembers f cs = some (ms, rest) → owf ms = true) := by
  induction f with
  | zero =>
    refine ⟨?_, ?_, ?_⟩ <;> intro cs x rest h <;>
      simp [parseValue, parseElems, parseMembers] at h
  | succ f ih =>
    obtain ⟨ihv, iha, iho⟩ := ih
    refine ⟨?_, ?_, ?_⟩
    · intro cs v rest h
      rw [pv_succ] at h
      repeat' split at h
      all_goals try exact Option.noConfusion h
      all_goals simp only [Option.some.injEq, Prod.mk.injEq] at h
      all_goals obtain ⟨h1, h2⟩ := h
      all_goals subst h1
      all_goals try simp [jwf, awf, owf]
      all_goals try simp only [jwf, Bool.and_eq_true]
      all_goals try trivial
      all_goals first
        | exact iho _ _ _ (by assumption)
        | exact iha _ _ _ (by assumption)
        | (refine ⟨by assumption, ?_⟩
           rw [List.all_eq_true]
           intro x hx
           exact List.mem_takeWhile_imp hx)
    · intro cs es rest h
      rw [pe_succ] at h
      repeat' split at h
      all_goals try exact Option.noConfusion h
      all_goals simp only [Option.some.injEq, Prod.mk.injEq] at h
      all_goals obtain ⟨h1, h2⟩ := h
      all_goals subst h1
      all_goals simp only [awf, Bool.and_eq_true]
      all_goals try trivial
      all_goals refine ⟨ihv _ _ _ (by assumption), ?_⟩
      all_goals first
        | exact iha _ _ _ (by assumption)
        | trivial
    · intro cs ms rest h
      rw [pm_succ] at h
      repeat' split at h
      all_goals try exact Option.noConfusion h
      all_goals simp only [Option.some.injEq, Prod.mk.injEq] at h
      all_goals obtain ⟨h1, h2⟩ := h
      all_goals subst h1
      all_goals simp only [owf, Bool.and_eq_true]
      all_goals try trivial
      all_goals refine ⟨ihv _ _ _ (by assumption), ?_⟩
      all_goals first
        | exact iho _ _ _ (by assumption)
        | trivial

/-! ### The size measure is bounded by the encoding's length -/

theorem enc_len_pos (v : Json) (hwf : jwf v = true) : 1 ≤ (encodeJson v).length := by
  obtain ⟨c, cs, henc, -, -, -⟩ := enc_head v hwf
  rw [henc]
  simp

/-- The fuel measure of a well-formed value never exceeds the length of its
encoding, so `parseJson`'s fuel is always sufficient for encoder output. -/
theorem jsize_le_enc (f : Nat) :
    (∀ v, jwf v = true → jsize v ≤ f → jsize v ≤ (encodeJson v).length) ∧
    (∀ h t, awf (.cons h t) = true → asize (.cons h t) ≤ f →
      asize (.cons h t) ≤ (encodeElems (.cons h t)).length + 1) ∧
    (∀ k v t, owf (.cons k v t) = true → osize (.cons k v t) ≤ f →
      osize (.cons k v t) ≤ (encodeMembers (.cons k v t)).length + 1) := by
  induction f with
  | zero =>
    refine ⟨?_, ?_, ?_⟩
    · intro v _ hsz
      exact absurd hsz (by have := jsize_pos v; omega)
    · intro h t _ hsz
      exact absurd hsz (by have := asize_pos (.cons h t); omega)
    · intro k v t _ hsz
      exact absurd hsz (by have := osize_pos (.cons k v t); omega)
  | succ f ih =>
    obtain ⟨ihv, iha, iho⟩ := ih
    refine ⟨?_, ?_, ?_⟩
    · intro v hwf hsz
      cases v with
      | null => simp [jsize, encodeJson]
      | bool b => cases b <;> simp [jsize, encodeJson]
      | num lex =>
        have hnw : numWf lex.data = true := by
          simp only [jwf, Bool.and_eq_true] at hwf
          exact hwf.1
        obtain ⟨c, r, hcr, -⟩ := numWf_head lex.data hnw
        simp [jsize, encodeJson, hcr]
      | str s => simp [jsize, encodeJson, encodeStringChars]
      | arr es =>
        cases es with
        | nil => simp [jsize, asize, encodeJson, encodeElems]
        | cons h t =>
          have hwf2 : awf (.cons h t) = true := by simpa [jwf] using hwf
          have hsz2 : asize (.cons h t) ≤ f := by
            simp only [jsize] at hsz
            omega
          have := iha h t hwf2 hsz2
          simp only [jsize, encodeJson, List.length_cons, List.length_append]
          simp only [List.length_cons, List.length_nil] at this ⊢
          omega
      | obj ms =>
        cases ms with
        | nil => simp [jsize, osize, encodeJson, encodeMembers]
        | cons k v t =>
          have hwf2 : owf (.cons k v t) = true := by simpa [jwf] using hwf
          have hsz2 : osize (.cons k v t) ≤ f := by
            simp only [jsize] at hsz
            omega
          have := iho k v t hwf2 hsz2
          simp only [jsize, encodeJson, List.length_cons, List.length_append]
          simp only [List.length_cons, List.length_nil] at this ⊢
          omega
    · intro h t hwf hsz
      have hwfp : jwf h = true ∧ awf t = true := by
        simpa [awf, Bool.and_eq_true] using hwf
      have hszp : jsize h ≤ f ∧ asize t ≤ f := by
        have hm : max (jsize h) (asize t) + 1 ≤ Nat.succ f := by simpa [asize] using hsz
        exact Nat.max_le.mp (by omega : max (jsize h) (asize t) ≤ f)
      have hh := ihv h hwfp.1 hszp.1
      have hpos := enc_len_pos h hwfp.1
      cases t with
      | nil =>
        have henc : encodeElems (.cons h JsonArr.nil) = encodeJson h := rfl
        simp only [asize, henc]
        have hmax : max (jsize h) (asize JsonArr.nil) ≤ (encodeJson h).length :=
          Nat.max_le.mpr ⟨hh, hpos⟩
        simp only [asize] at hmax
        omega
      | cons h2 t2 =>
        have ht := iha h2 t2 hwfp.2 hszp.2
        have henc : encodeElems (.cons h (.cons h2 t2)) =
            encodeJson h ++ ',' :: encodeElems (.cons h2 t2) := rfl
        rw [henc]
        simp only [asize, List.length_append, List.length_cons] at ht ⊢
        omega
    · intro k v t hwf hsz
      have hwfp : jwf v = true ∧ owf t = true := by
        simpa [owf, Bool.and_eq_true] using hwf
      have hszp : jsize v ≤ f ∧ osize t ≤ f := by
        have hm : max (jsize v) (osize t) + 1 ≤ Nat.succ f := by simpa [osize] using hsz
        exact Nat.max_le.mp (by omega : max (jsize v) (osize t) ≤ f)
      have hh := ihv v hwfp.1 hszp.1
      have hpos := enc_len_pos v hwfp.1
      cases t with
      | nil =>
        have henc : encodeMembers (.cons k v JsonObj.nil) =
            encodeStringChars k ++ ':' :: encodeJson v := rfl
        rw [henc]
        have hmax : max (jsize v) (osize JsonObj.nil) ≤ (encodeJson v).length :=
          Nat.max_le.mpr ⟨hh, hpos⟩
        simp only [osize] at hmax
        simp only [osize, List.length_append, List.length_cons]
        omega
      | cons k2 v2 t2 =>
        have ht := iho k2 v2 t2 hwfp.2 hszp.2
        have henc : encodeMembers (.cons k v (.cons k2 v2 t2)) =
            encodeStringChars k ++ ':' :: encodeJson v ++ ',' :: encodeMembers (.cons k2 v2 t2) := rfl
        rw [henc]
        simp only [osize, List.length_append, List.length_cons] at ht ⊢
        omega

/-! ### Whole-document corollaries -/

/-- `parseJson` recovers every well-formed value from its encoding. -/
theorem parseJson_encode (v : Json) (hwf : jwf v = true) :
    parseJson (encodeJsonStr v) = some v := by
  have hsz : jsize v ≤ 2 * (encodeJson v).length + 2 := by
    have := (jsize_le_enc (jsize v)).1 v hwf (le_refl _)
    omega
  have hparse := (parse_encode (2 * (encodeJson v).length + 2)).1 v [] hwf hsz safeAfter_nil
  rw [List.append_nil] at hparse
  unfold parseJson encodeJsonStr
  rw [show (String.mk (encodeJson v)).length = (encodeJson v).length from rfl,
    show (String.mk (encodeJson v)).data = encodeJson v from rfl, hparse]
  rfl

/-- Values returned by `parseJson` are well-formed. -/
theorem parseJson_wf (s : String) (v : Json) (h : parseJson s = some v) : jwf v = true := by
  unfold parseJson at h
  rcases hp : parseValue (2 * s.length + 2) s.data with _ | ⟨v2, rest⟩ <;> rw [hp] at h
  · exact Option.noConfusion h
  · dsimp only at h
    split at h
    · cases h
      exact (parse_wf (2 * s.length + 2)).1 _ _ _ hp
    · exact Option.noConfusion h


/-! ### The byte compactor's output re-parses, and the encoded task re-decodes -/

theorem cv_succ (f : Nat) (cs : List Char) :
    compactValue (Nat.succ f) cs =
      (match skipWs cs with
       | [] => none
       | c :: r =>
         if c = qu then
           match rawStringBody r with
           | some (body, r1) => some (qu :: body ++ [qu], r1)
           | none => none
         else if c = lb then
           match skipWs r with
           | d :: r1 =>
             if d = rb then some ([lb, rb], r1)
             else
               match compactMembers f (d :: r1) with
               | some (out, r2) => some (lb :: out ++ [rb], r2)
               | none => none
           | [] => none
         else if c = '[' then
           match skipWs r with
           | d :: r1 =>
             if d = ']' then some (['[', ']'], r1)
             else
               match compactElems f (d :: r1) with
               | some (out, r2) => some ('[' :: out ++ [']'], r2)
               | none => none
           | [] => none
         else if c = 'n' then
           match r with
           | 'u' :: 'l' :: 'l' :: r1 => some ("null".data, r1)
           | _ => none
         else if c = 't' then
           match r with
           | 'r' :: 'u' :: 'e' :: r1 => some ("true".data, r1)
           | _ => none
         else if c = 'f' then
           match r with
           | 'a' :: 'l' :: 's' :: 'e' :: r1 => some ("false".data, r1)
           | _ => none
         else if c = '-' || c.isDigit then
           if numWf (List.takeWhile numChar (c :: r)) then
             some (List.takeWhile numChar (c :: r), List.dropWhile numChar (c :: r))
           else none
         else none) := rfl

theorem ce_succ (f : Nat) (cs : List Char) :
    compactElems (Nat.succ f) cs =
      (match compactValue f cs with
       | none => none
       | some (out, r) =>
         match skipWs r with
         | d :: r1 =>
           if d = ',' then
             match compactElems f r1 with
             | some (tl, r2) => some (out ++ ',' :: tl, r2)
             | none => none
           else if d = ']' then some (out, r1)
           else none
         | [] => none) := rfl

theorem cm_succ (f : Nat) (cs : List Char) :
    compactMembers (Nat.succ f) cs =
      (match skipWs cs with
       | c :: r =>
         if c = qu then
           match rawStringBody r with
           | some (kb, r1) =>
             match skipWs r1 with
             | d :: r2 =>
               if d = ':' then
                 match compactValue f r2 with
                 | some (vout, r3) =>
                   match skipWs r3 with
                   | e :: r4 =>
                     if e = ',' then
                       match compactMembers f r4 with
                       | some (tl, r5) =>
                         some (qu :: kb ++ qu :: ':' :: vout ++ ',' :: tl, r5)
                       | none => none
                     else if e = rb then some (qu :: kb ++ qu :: ':' :: vout, r4)
                     else none
                   | [] => none
                 | none => none
               else none
             | [] => none
           | none => none
         else none
       | [] => none) := rfl

/-- The first character of a compacted value starts a value: not whitespace,
not a closing bracket or brace. -/
theorem cv_head (f : Nat) (cs out rest : List Char) (h : compactValue f cs = some (out, rest)) :
    ∃ c0 cs0, out = c0 :: cs0 ∧ wsChar c0 = false ∧ ¬c0 = ']' ∧ ¬c0 = rb := by
  match f with
  | 0 => exact Option.noConfusion h
  | Nat.succ f =>
    rw [cv_succ] at h
    rcases hsk : skipWs cs with _ | ⟨c, r⟩ <;> rw [hsk] at h
    · exact Option.noConfusion h
    dsimp only at h
    by_cases hq : c = qu
    · rw [if_pos hq] at h
      rcases hrs : rawStringBody r with _ | ⟨body, r1⟩ <;> rw [hrs] at h
      · exact Option.noConfusion h
      dsimp only at h
      simp only [Option.some.injEq, Prod.mk.injEq] at h
      exact ⟨qu, _, h.1.symm, by decide, by decide, by decide⟩
    rw [if_neg hq] at h
    by_cases hlb : c = lb
    · rw [if_pos hlb] at h
      rcases hsk2 : skipWs r with _ | ⟨d, r1⟩ <;> rw [hsk2] at h
      · exact Option.noConfusion h
      dsimp only at h
      by_cases hdr : d = rb
      · rw [if_pos hdr] at h
        simp only [Option.some.injEq, Prod.mk.injEq] at h
        exact ⟨lb, _, h.1.symm, by decide, by decide, by decide⟩
      · rw [if_neg hdr] at h
        rcases hcm : compactMembers f (d :: r1) with _ | ⟨mout, r2⟩ <;> rw [hcm] at h
        · exact Option.noConfusion h
        dsimp only at h
        simp only [Option.some.injEq, Prod.mk.injEq] at h
        exact ⟨lb, _, h.1.symm, by decide, by decide, by decide⟩
    rw [if_neg hlb] at h
    by_cases hlsb : c = '['
    · rw [if_pos hlsb] at h
      rcases hsk2 : skipWs r with _ | ⟨d, r1⟩ <;> rw [hsk2] at h
      · exact Option.noConfusion h
      dsimp only at h
      by_cases hdr : d = ']'
      · rw [if_pos hdr] at h
        simp only [Option.some.injEq, Prod.mk.injEq] at h
        exact ⟨'[', _, h.1.symm, by decide, by decide, by decide⟩
      · rw [if_neg hdr] at h
        rcases hce : compactElems f (d :: r1) with _ | ⟨eout, r2⟩ <;> rw [hce] at h
        · exact Option.noConfusion h
        dsimp only at h
        simp only [Option.some.injEq, Prod.mk.injEq] at h
        exact ⟨'[', _, h.1.symm, by decide, by decide, by decide⟩
    rw [if_neg hlsb] at h
    by_cases hn : c = 'n'
    · rw [if_pos hn] at h
      rcases r with _ | ⟨c1, r⟩
      · exact Option.noConfusion h
      rcases r with _ | ⟨c2, r⟩
      · by_cases h1 : c1 = 'u' <;> simp [h1] at h
      rcases r with _ | ⟨c3, r⟩
      · by_cases h1 : c1 = 'u' <;> by_cases h2 : c2 = 'l' <;> simp [h1, h2] at h
      by_cases h1 : c1 = 'u'
      · by_cases h2 : c2 = 'l'
        · by_cases h3 : c3 = 'l'
          · subst h1 h2 h3
            simp only [Option.some.injEq, Prod.mk.injEq] at h
            exact ⟨'n', ['u', 'l', 'l'], h.1.symm, by decide, by decide, by decide⟩
          · simp [h1, h2, h3] at h
        · simp [h1, h2] at h
      · simp [h1] at h
    rw [if_neg hn] at h
    by_cases ht : c = 't'
    · rw [if_pos ht] at h
      rcases r with _ | ⟨c1, r⟩
      · exact Option.noConfusion h
      rcases r with _ | ⟨c2, r⟩
      · by_cases h1 : c1 = 'r' <;> simp [h1] at h
      rcases r with _ | ⟨c3, r⟩
      · by_cases h1 : c1 = 'r' <;> by_cases h2 : c2 = 'u' <;> simp [h1, h2] at h
      by_cases h1 : c1 = 'r'
      · by_cases h2 : c2 = 'u'
        · by_cases h3 : c3 = 'e'
          · subst h1 h2 h3
            simp only [Option.some.injEq, Prod.mk.injEq] at h
            exact ⟨'t', ['r', 'u', 'e'], h.1.symm, by decide, by decide, by decide⟩
          · simp [h1, h2, h3] at h
        · simp [h1, h2] at h
      · simp [h1] at h
    rw [if_neg ht] at h
    by_cases hf : c = 'f'
    · rw [if_pos hf] at h
      rcases r with _ | ⟨c1, r⟩
      · exact Option.noConfusion h
      rcases r with _ | ⟨c2, r⟩
      · by_cases h1 : c1 = 'a' <;> simp [h1] at h
      rcases r with _ | ⟨c3, r⟩
      · by_cases h1 : c1 = 'a' <;> by_cases h2 : c2 = 'l' <;> simp [h1, h2] at h
      rcases r with _ | ⟨c4, r⟩
      · by_cases h1 : c1 = 'a' <;> by_cases h2 : c2 = 'l' <;> by_cases h3 : c3 = 's' <;>
          simp [h1, h2, h3] at h
      by_cases h1 : c1 = 'a'
      · by_cases h2 : c2 = 'l'
        · by_cases h3 : c3 = 's'
          · by_cases h4 : c4 = 'e'
            · subst h1 h2 h3 h4
              simp only [Option.some.injEq, Prod.mk.injEq] at h
              exact ⟨'f', ['a', 'l', 's', 'e'], h.1.symm, by decide, by decide, by decide⟩
            · simp [h1, h2, h3, h4] at h
          · simp [h1, h2, h3] at h
        · simp [h1, h2] at h
      · simp [h1] at h
    rw [if_neg hf] at h
    by_cases hnum : (decide (c = '-') || c.isDigit) = true
    · rw [if_pos hnum] at h
      by_cases hnw : numWf (List.takeWhile numChar (c :: r)) = true
      · rw [if_pos hnw] at h
        simp only [Option.some.injEq, Prod.mk.injEq] at h
        have hc : c = '-' ∨ c.isDigit = true := by
          simp only [Bool.or_eq_true, decide_eq_true_eq] at hnum
          exact hnum
        obtain ⟨f1, _, _, _, _, _, _, f8, f9⟩ := numStart_facts c hc
        have hcn : numChar c = true := by
          rcases hc with h' | h'
          · rw [h']
            decide
          · simp [numChar, h']
        refine ⟨c, List.takeWhile numChar r, ?_, f1, f8, f9⟩
        rw [← h.1, List.takeWhile_cons_of_pos hcn]
      · rw [if_neg hnw] at h
        exact Option.noConfusion h
    · rw [if_neg hnum] at h
      exact Option.noConfusion h

/-- A compacted member list starts with the opening quote of its first key. -/
theorem cm_shape (f : Nat) (cs out rest : List Char)
    (h : compactMembers f cs = some (out, rest)) : ∃ out2, out = qu :: out2 := by
  match f with
  | 0 => exact Option.noConfusion h
  | Nat.succ f =>
    rw [cm_succ] at h
    rcases hsk : skipWs cs with _ | ⟨c, r⟩ <;> rw [hsk] at h
    · exact Option.noConfusion h
    dsimp only at h
    by_cases hq : c = qu
    · rw [if_pos hq] at h
      rcases hrs : rawStringBody r with _ | ⟨kb, r1⟩ <;> rw [hrs] at h
      · exact Option.noConfusion h
      dsimp only at h
      rcases hsk2 : skipWs r1 with _ | ⟨d, r2⟩ <;> rw [hsk2] at h
      · exact Option.noConfusion h
      dsimp only at h
      by_cases hd : d = ':'
      · rw [if_pos hd] at h
        rcases hcv : compactValue f r2 with _ | ⟨vout, r3⟩ <;> rw [hcv] at h
        · exact Option.noConfusion h
        dsimp only at h
        rcases hsk3 : skipWs r3 with _ | ⟨e, r4⟩ <;> rw [hsk3] at h
        · exact Option.noConfusion h
        dsimp only at h
        by_cases he : e = ','
        · rw [if_pos he] at h
          rcases hcm : compactMembers f r4 with _ | ⟨tl, r5⟩ <;> rw [hcm] at h
          · exact Option.noConfusion h
          dsimp only at h
          simp only [Option.some.injEq, Prod.mk.injEq] at h
          exact ⟨_, h.1.symm⟩
        · rw [if_neg he] at h
          by_cases he2 : e = rb
          · rw [if_pos he2] at h
            simp only [Option.some.injEq, Prod.mk.injEq] at h
            exact ⟨_, h.1.symm⟩
          · rw [if_neg he2] at h
            exact Option.noConfusion h
      · rw [if_neg hd] at h
        exact Option.noConfusion h
    · rw [if_neg hq] at h
      exact Option.noConfusion h

/-- A compacted element list starts with the first value's head character. -/
theorem ce_shape (f : Nat) (cs out rest : List Char)
    (h : compactElems f cs = some (out, rest)) :
    ∃ c0 cs0, out = c0 :: cs0 ∧ wsChar c0 = false ∧ ¬c0 = ']' ∧ ¬c0 = rb := by
  match f with
  | 0 => exact Option.noConfusion h
  | Nat.succ f =>
    rw [ce_succ] at h
    rcases hcv : compactValue f cs with _ | ⟨vout, r⟩ <;> rw [hcv] at h
    · exact Option.noConfusion h
    dsimp only at h
    obtain ⟨c0, cs0, hhd, hws, hr1, hr2⟩ := cv_head f cs vout r hcv
    rcases hsk : skipWs r with _ | ⟨d, r1⟩ <;> rw [hsk] at h
    · exact Option.noConfusion h
    dsimp only at h
    by_cases hd : d = ','
    · rw [if_pos hd] at h
      rcases hce : compactElems f r1 with _ | ⟨tl, r2⟩ <;> rw [hce] at h
      · exact Option.noConfusion h
      dsimp only at h
      simp only [Option.some.injEq, Prod.mk.injEq] at h
      exact ⟨c0, _, by rw [← h.1, hhd, List.cons_append], hws, hr1, hr2⟩
    · rw [if_neg hd] at h
      by_cases hd2 : d = ']'
      · rw [if_pos hd2] at h
        simp only [Option.some.injEq, Prod.mk.injEq] at h
        exact ⟨c0, cs0, by rw [← h.1, hhd], hws, hr1, hr2⟩
      · rw [if_neg hd2] at h
        exact Option.noConfusion h

/-- Re-parse statement for compacted values at given compaction fuel. -/
def CRv (f : Nat) : Prop :=
  ∀ cs out rest, compactValue f cs = some (out, rest) →
    ∀ X g, SafeAfter X → out.length + 1 ≤ g →
      ∃ v, parseValue g (out ++ X) = some (v, X)

/-- Re-parse statement for compacted array elements. -/
def CRa (f : Nat) : Prop :=
  ∀ cs out rest, compactElems f cs = some (out, rest) →
    ∀ X g, out.length + 2 ≤ g →
      ∃ es, parseElems g (out ++ ']' :: X) = some (es, X)

/-- Re-parse statement for compacted object members. -/
def CRo (f : Nat) : Prop :=
  ∀ cs out rest, compactMembers f cs = some (out, rest) →
    ∀ X g, out.length + 2 ≤ g →
      ∃ ms, parseMembers g (out ++ rb :: X) = some (ms, X)

/-- The parser accepts exactly what the compactor emitted, consuming all of
it: compaction never changes where a value ends. -/
theorem compact_parse (f : Nat) : CRv f ∧ CRa f ∧ CRo f := by
  induction f with
  | zero =>
    refine ⟨?_, ?_, ?_⟩ <;> intro cs out rest h <;> exact Option.noConfusion h
  | succ f ih =>
    obtain ⟨ihv, iha, iho⟩ := ih
    refine ⟨?_, ?_, ?_⟩
    · intro cs out rest h X g hsafe hg
      rw [cv_succ] at h
      rcases hsk : skipWs cs with _ | ⟨c, r⟩ <;> rw [hsk] at h
      · exact Option.noConfusion h
      dsimp only at h
      by_cases hq : c = qu
      · rw [if_pos hq] at h
        rcases hrs : rawStringBody r with _ | ⟨body, r1⟩ <;> rw [hrs] at h
        · exact Option.noConfusion h
        dsimp only at h
        simp only [Option.some.injEq, Prod.mk.injEq] at h
        obtain ⟨h1, -⟩ := h
        subst h1
        rcases g with _ | g
        · omega
        have hE : (qu :: body ++ [qu]) ++ X = qu :: (body ++ qu :: X) := by
          simp [List.cons_append, List.append_assoc]
        rw [hE, pv_str]
        obtain ⟨w, hw⟩ := rsb_psb (r.length + 1) r body r1 hrs X
          ((body ++ qu :: X).length + 1) (by
            simp only [List.length_append, List.length_cons]
            omega)
        unfold parseStringBody
        rw [hw]
        exact ⟨.str (String.mk w), rfl⟩
      rw [if_neg hq] at h
      by_cases hlb : c = lb
      · rw [if_pos hlb] at h
        rcases hsk2 : skipWs r with _ | ⟨d, r1⟩ <;> rw [hsk2] at h
        · exact Option.noConfusion h
        dsimp only at h
        by_cases hdr : d = rb
        · rw [if_pos hdr] at h
          simp only [Option.some.injEq, Prod.mk.injEq] at h
          obtain ⟨h1, -⟩ := h
          subst h1
          rcases g with _ | g
          · simp at hg
          exact ⟨.obj .nil, rfl⟩
        · rw [if_neg hdr] at h
          rcases hcm : compactMembers f (d :: r1) with _ | ⟨mout, r2⟩ <;> rw [hcm] at h
          · exact Option.noConfusion h
          dsimp only at h
          simp only [Option.some.injEq, Prod.mk.injEq] at h
          obtain ⟨h1, -⟩ := h
          subst h1
          simp only [List.length_append, List.length_cons, List.length_nil] at hg
          rcases g with _ | g
          · omega
          obtain ⟨mout2, hmo⟩ := cm_shape f (d :: r1) mout r2 hcm
          have hE : (lb :: mout ++ [rb]) ++ X = lb :: (mout ++ rb :: X) := by
            simp [List.cons_append, List.append_assoc]
          rw [hE, pv_lb]
          have hE2 : mout ++ rb :: X = qu :: (mout2 ++ rb :: X) := by
            rw [hmo, List.cons_append]
          rw [hE2, skipWs_not_ws qu _ (by decide)]
          dsimp only
          rw [if_neg (by decide), ← hE2]
          obtain ⟨ms, hms⟩ := iho (d :: r1) mout r2 hcm X g (by omega)
          rw [hms]
          exact ⟨.obj ms, rfl⟩
      rw [if_neg hlb] at h
      by_cases hlsb : c = '['
      · rw [if_pos hlsb] at h
        rcases hsk2 : skipWs r with _ | ⟨d, r1⟩ <;> rw [hsk2] at h
        · exact Option.noConfusion h
        dsimp only at h
        by_cases hdr : d = ']'
        · rw [if_pos hdr] at h
          simp only [Option.some.injEq, Prod.mk.injEq] at h
          obtain ⟨h1, -⟩ := h
          subst h1
          rcases g with _ | g
          · simp at hg
          exact ⟨.arr .nil, rfl⟩
        · rw [if_neg hdr] at h
          rcases hce : compactElems f (d :: r1) with _ | ⟨eout, r2⟩ <;> rw [hce] at h
          · exact Option.noConfusion h
          dsimp only at h
          simp only [Option.some.injEq, Prod.mk.injEq] at h
          obtain ⟨h1, -⟩ := h
          subst h1
          simp only [List.length_append, List.length_cons, List.length_nil] at hg
          rcases g with _ | g
          · omega
          obtain ⟨c0, cs0, hhd, hws0, hnr, -⟩ := ce_shape f (d :: r1) eout r2 hce
          have hE : ('[' :: eout ++ [']']) ++ X = '[' :: (eout ++ ']' :: X) := by
            simp [List.cons_append, List.append_assoc]
          rw [hE, pv_lsb]
          have hE2 : eout ++ ']' :: X = c0 :: (cs0 ++ ']' :: X) := by
            rw [hhd, List.cons_append]
          rw [hE2, skipWs_not_ws c0 _ hws0]
          dsimp only
          rw [if_neg hnr, ← hE2]
          obtain ⟨es, hes⟩ := iha (d :: r1) eout r2 hce X g (by omega)
          rw [hes]
          exact ⟨.arr es, rfl⟩
      rw [if_neg hlsb] at h
      by_cases hn : c = 'n'
      · rw [if_pos hn] at h
        rcases r with _ | ⟨c1, r⟩
        · exact Option.noConfusion h
        rcases r with _ | ⟨c2, r⟩
        · by_cases h1 : c1 = 'u' <;> simp [h1] at h
        rcases r with _ | ⟨c3, r⟩
        · by_cases h1 : c1 = 'u' <;> by_cases h2 : c2 = 'l' <;> simp [h1, h2] at h
        by_cases h1 : c1 = 'u'
        · by_cases h2 : c2 = 'l'
          · by_cases h3 : c3 = 'l'
            · subst h1 h2 h3
              simp only [Option.some.injEq, Prod.mk.injEq] at h
              obtain ⟨h4, -⟩ := h
              subst h4
              rcases g with _ | g
              · have : ("null".data).length = 4 := rfl
                omega
              exact ⟨.null, rfl⟩
            · simp [h1, h2, h3] at h
          · simp [h1, h2] at h
        · simp [h1] at h
      rw [if_neg hn] at h
      by_cases ht : c = 't'
      · rw [if_pos ht] at h
        rcases r with _ | ⟨c1, r⟩
        · exact Option.noConfusion h
        rcases r with _ | ⟨c2, r⟩
        · by_cases h1 : c1 = 'r' <;> simp [h1] at h
        rcases r with _ | ⟨c3, r⟩
        · by_cases h1 : c1 = 'r' <;> by_cases h2 : c2 = 'u' <;> simp [h1, h2] at h
        by_cases h1 : c1 = 'r'
        · by_cases h2 : c2 = 'u'
          · by_cases h3 : c3 = 'e'
            · subst h1 h2 h3
              simp only [Option.some.injEq, Prod.mk.injEq] at h
              obtain ⟨h4, -⟩ := h
              subst h4
              rcases g with _ | g
              · have : ("true".data).length = 4 := rfl
                omega
              exact ⟨.bool true, rfl⟩
            · simp [h1, h2, h3] at h
          · simp [h1, h2] at h
        · simp [h1] at h
      rw [if_neg ht] at h
      by_cases hf : c = 'f'
      · rw [if_pos hf] at h
        rcases r with _ | ⟨c1, r⟩
        · exact Option.noConfusion h
        rcases r with _ | ⟨c2, r⟩
        · by_cases h1 : c1 = 'a' <;> simp [h1] at h
        rcases r with _ | ⟨c3, r⟩
        · by_cases h1 : c1 = 'a' <;> by_cases h2 : c2 = 'l' <;> simp [h1, h2] at h
        rcases r with _ | ⟨c4, r⟩
        · by_cases h1 : c1 = 'a' <;> by_cases h2 : c2 = 'l' <;> by_cases h3 : c3 = 's' <;>
            simp [h1, h2, h3] at h
        by_cases h1 : c1 = 'a'
        · by_cases h2 : c2 = 'l'
          · by_cases h3 : c3 = 's'
            · by_cases h4 : c4 = 'e'
              · subst h1 h2 h3 h4
                simp only [Option.some.injEq, Prod.mk.injEq] at h
                obtain ⟨h5, -⟩ := h
                subst h5
                rcases g with _ | g
                · have : ("false".data).length = 5 := rfl
                  omega
                exact ⟨.bool false, rfl⟩
              · simp [h1, h2, h3, h4] at h
            · simp [h1, h2, h3] at h
          · simp [h1, h2] at h
        · simp [h1] at h
      rw [if_neg hf] at h
      by_cases hnum : (decide (c = '-') || c.isDigit) = true
      · rw [if_pos hnum] at h
        by_cases hnw : numWf (List.takeWhile numChar (c :: r)) = true
        · rw [if_pos hnw] at h
          simp only [Option.some.injEq, Prod.mk.injEq] at h
          obtain ⟨h1, -⟩ := h
          subst h1
          have hc : c = '-' ∨ c.isDigit = true := by
            simp only [Bool.or_eq_true, decide_eq_true_eq] at hnum
            exact hnum
          have hcn : numChar c = true := by
            rcases hc with h' | h'
            · rw [h']
              decide
            · simp [numChar, h']
          rcases g with _ | g
          · omega
          have hL : List.takeWhile numChar (c :: r) = c :: List.takeWhile numChar r :=
            List.takeWhile_cons_of_pos hcn
          have hsplit := takeWhile_all_append numChar (c :: List.takeWhile numChar r) X
            (by
              intro x hx
              rcases List.mem_cons.mp hx with h' | h'
              · rw [h']
                exact hcn
              · exact List.mem_takeWhile_imp h')
            hsafe
          rw [hL, List.cons_append, pv_num g c _ hc, ← List.cons_append, hsplit.1, hsplit.2,
            ← hL, if_pos hnw]
          exact ⟨_, rfl⟩
        · rw [if_neg hnw] at h
          exact Option.noConfusion h
      · rw [if_neg hnum] at h
        exact Option.noConfusion h
    · intro cs out rest h X g hg
      rw [ce_succ] at h
      rcases hcv : compactValue f cs with _ | ⟨vout, r⟩ <;> rw [hcv] at h
      · exact Option.noConfusion h
      dsimp only at h
      rcases hsk : skipWs r with _ | ⟨d, r1⟩ <;> rw [hsk] at h
      · exact Option.noConfusion h
      dsimp only at h
      by_cases hd : d = ','
      · rw [if_pos hd] at h
        rcases hce : compactElems f r1 with _ | ⟨tl, r2⟩ <;> rw [hce] at h
        · exact Option.noConfusion h
        dsimp only at h
        simp only [Option.some.injEq, Prod.mk.injEq] at h
        obtain ⟨h1, -⟩ := h
        subst h1
        simp only [List.length_append, List.length_cons] at hg
        rcases g with _ | g
        · omega
        rw [pe_succ]
        have hE : (vout ++ ',' :: tl) ++ ']' :: X = vout ++ (',' :: (tl ++ ']' :: X)) := by
          simp [List.cons_append, List.append_assoc]
        rw [hE]
        obtain ⟨v, hv⟩ := ihv cs vout r hcv (',' :: (tl ++ ']' :: X)) g
          (safeAfter_cons _ _ (by decide)) (by omega)
        rw [hv]
        dsimp only
        rw [skipWs_not_ws ',' _ (by decide)]
        dsimp only
        rw [if_pos rfl]
        obtain ⟨es, hes⟩ := iha r1 tl r2 hce X g (by omega)
        rw [hes]
        exact ⟨.cons v es, rfl⟩
      · rw [if_neg hd] at h
        by_cases hd2 : d = ']'
        · rw [if_pos hd2] at h
          simp only [Option.some.injEq, Prod.mk.injEq] at h
          obtain ⟨h1, -⟩ := h
          subst h1
          rcases g with _ | g
          · omega
          rw [pe_succ]
          obtain ⟨v, hv⟩ := ihv cs vout r hcv (']' :: X) g
            (safeAfter_cons _ _ (by decide)) (by omega)
          rw [hv]
          dsimp only
          rw [skipWs_not_ws ']' _ (by decide)]
          dsimp only
          rw [if_neg (by decide), if_pos rfl]
          exact ⟨.cons v .nil, rfl⟩
        · rw [if_neg hd2] at h
          exact Option.noConfusion h
    · intro cs out rest h X g hg
      rw [cm_succ] at h
      rcases hsk : skipWs cs with _ | ⟨c, r⟩ <;> rw [hsk] at h
      · exact Option.noConfusion h
      dsimp only at h
      by_cases hq : c = qu
      · rw [if_pos hq] at h
        rcases hrs : rawStringBody r with _ | ⟨kb, r1⟩ <;> rw [hrs] at h
        · exact Option.noConfusion h
        dsimp only at h
        rcases hsk2 : skipWs r1 with _ | ⟨d, r2⟩ <;> rw [hsk2] at h
        · exact Option.noConfusion h
        dsimp only at h
        by_cases hd : d = ':'
        · rw [if_pos hd] at h
          rcases hcv : compactValue f r2 with _ | ⟨vout, r3⟩ <;> rw [hcv] at h
          · exact Option.noConfusion h
          dsimp only at h
          rcases hsk3 : skipWs r3 with _ | ⟨e, r4⟩ <;> rw [hsk3] at h
          · exact Option.noConfusion h
          dsimp only at h
          by_cases he : e = ','
          · rw [if_pos he] at h
            rcases hcm : compactMembers f r4 with _ | ⟨tl, r5⟩ <;> rw [hcm] at h
            · exact Option.noConfusion h
            dsimp only at h
            simp only [Option.some.injEq, Prod.mk.injEq] at h
            obtain ⟨h1, -⟩ := h
            subst h1
            simp only [List.length_append, List.length_cons] at hg
            rcases g with _ | g
            · omega
            rw [pm_succ]
            have hE : (qu :: kb ++ qu :: ':' :: vout ++ ',' :: tl) ++ rb :: X =
                qu :: (kb ++ qu :: (':' :: (vout ++ (',' :: (tl ++ rb :: X))))) := by
              simp [List.cons_append, List.append_assoc]
            rw [hE, skipWs_not_ws qu _ (by decide)]
            dsimp only
            rw [if_pos rfl]
            obtain ⟨w, hw⟩ := rsb_psb (r.length + 1) r kb r1 hrs
              (':' :: (vout ++ (',' :: (tl ++ rb :: X))))
              ((kb ++ qu :: (':' :: (vout ++ (',' :: (tl ++ rb :: X))))).length + 1) (by
                simp only [List.length_append, List.length_cons]
                omega)
            unfold parseStringBody
            rw [hw]
            dsimp only
            rw [skipWs_not_ws ':' _ (by decide)]
            dsimp only
            rw [if_pos rfl]
            obtain ⟨v, hv⟩ := ihv r2 vout r3 hcv (',' :: (tl ++ rb :: X)) g
              (safeAfter_cons _ _ (by decide)) (by omega)
            rw [hv]
            dsimp only
            rw [skipWs_not_ws ',' _ (by decide)]
            dsimp only
            rw [if_pos rfl]
            obtain ⟨ms, hms⟩ := iho r4 tl r5 hcm X g (by omega)
            rw [hms]
            exact ⟨.cons (String.mk w) v ms, rfl⟩
          · rw [if_neg he] at h
            by_cases he2 : e = rb
            · rw [if_pos he2] at h
              simp only [Option.some.injEq, Prod.mk.injEq] at h
              obtain ⟨h1, -⟩ := h
              subst h1
              simp only [List.length_append, List.length_cons] at hg
              rcases g with _ | g
              · omega
              rw [pm_succ]
              have hE : (qu :: kb ++ qu :: ':' :: vout) ++ rb :: X =
                  qu :: (kb ++ qu :: (':' :: (vout ++ rb :: X))) := by
                simp [List.cons_append, List.append_assoc]
              rw [hE, skipWs_not_ws qu _ (by decide)]
              dsimp only
              rw [if_pos rfl]
              obtain ⟨w, hw⟩ := rsb_psb (r.length + 1) r kb r1 hrs
                (':' :: (vout ++ rb :: X))
                ((kb ++ qu :: (':' :: (vout ++ rb :: X))).length + 1) (by
                  simp only [List.length_append, List.length_cons]
                  omega)
              unfold parseStringBody
              rw [hw]
              dsimp only
              rw [skipWs_not_ws ':' _ (by decide)]
              dsimp only
              rw [if_pos rfl]
              obtain ⟨v, hv⟩ := ihv r2 vout r3 hcv (rb :: X) g
                (safeAfter_cons _ _ (by decide)) (by omega)
              rw [hv]
              dsimp only
              rw [skipWs_not_ws rb _ (by decide)]
              dsimp only
              rw [if_neg (by decide), if_pos rfl]
              exact ⟨.cons (String.mk w) v .nil, rfl⟩
            · rw [if_neg he2] at h
              exact Option.noConfusion h
        · rw [if_neg hd] at h
          exact Option.noConfusion h
      · rw [if_neg hq] at h
        exact Option.noConfusion h

theorem str_eta (s : String) : String.mk s.data = s := rfl

theorem tw_succ (f : Nat) (cs : List Char) (acc : Task × Option String) :
    twF (Nat.succ f) cs acc =
      (match skipWs cs with
       | c :: r =>
         if c = qu then
           match parseStringBody r with
           | some (key, r1) =>
             match skipWs r1 with
             | d :: r2 =>
               if d = ':' then
                 match parseValueSpan r2 with
                 | some ((v, raw), r4) =>
                   match skipWs r4 with
                   | e :: r5 =>
                     if e = ',' then twF f r5 (setTaskField (String.mk key) v raw acc)
                     else if e = rb then some (setTaskField (String.mk key) v raw acc)
                     else none
                   | [] => none
                 | none => none
               else none
             | [] => none
           | none => none
         else none
       | [] => none) := rfl

/-- A string literal parses as one value whose captured span is its own text. -/
theorem pv_strlit (f : Nat) (s : String) (X : List Char) :
    parseValue (Nat.succ f) (encodeStringChars s ++ X) = some (.str s, X) := by
  have hE : encodeStringChars s ++ X = qu :: (escChars s.data ++ qu :: X) := by
    simp [encodeStringChars, List.cons_append, List.append_assoc]
  rw [hE, pv_str, psb_esc s.data X]

/-- Evaluate `parseValueSpan` on an input that starts with the value: the
captured bytes are exactly the value's text. -/
theorem pvs_eval (c : Char) (VAL X : List Char) (v : Json) (hc : wsChar c = false)
    (hv : parseValue (2 * (c :: (VAL ++ X)).length + 2) (c :: (VAL ++ X)) = some (v, X)) :
    parseValueSpan (c :: (VAL ++ X)) = some ((v, String.mk (c :: VAL)), X) := by
  unfold parseValueSpan
  dsimp only
  rw [skipWs_not_ws c _ hc, hv]
  dsimp only
  have hlen : (c :: (VAL ++ X)).length - X.length = (c :: VAL).length := by
    simp only [List.length_append, List.length_cons]
    omega
  rw [hlen, show c :: (VAL ++ X) = (c :: VAL) ++ X from by rw [List.cons_append],
    List.take_left]

/-- `parseValueSpan` on a string literal. -/
theorem pvs_strlit (s : String) (X : List Char) :
    parseValueSpan (encodeStringChars s ++ X) =
      some ((.str s, String.mk (encodeStringChars s)), X) := by
  have hE : encodeStringChars s ++ X = qu :: ((escChars s.data ++ [qu]) ++ X) := by
    simp [encodeStringChars, List.cons_append, List.append_assoc]
  rw [hE]
  have hv : parseValue (2 * (qu :: ((escChars s.data ++ [qu]) ++ X)).length + 2)
      (qu :: ((escChars s.data ++ [qu]) ++ X)) = some (.str s, X) := by
    rw [show (2 * (qu :: ((escChars s.data ++ [qu]) ++ X)).length + 2) =
      Nat.succ (2 * (qu :: ((escChars s.data ++ [qu]) ++ X)).length + 1) from rfl]
    rw [← hE]
    exact pv_strlit _ s X
  rw [pvs_eval qu (escChars s.data ++ [qu]) X (.str s) (by decide) hv]
  rfl

theorem tw_step (f : Nat) (kb key B : List Char) (v : Json) (raw : String) (Y : List Char)
    (acc res : Task × Option String)
    (hkey : parseStringBody kb = some (key, ':' :: B))
    (hval : parseValueSpan B = some ((v, raw), ',' :: Y))
    (hrest : twF f Y (setTaskField (String.mk key) v raw acc) = some res) :
    twF (Nat.succ f) (qu :: kb) acc = some res := by
  rw [tw_succ, skipWs_not_ws qu _ (by decide)]
  dsimp only
  rw [if_pos rfl, hkey]
  dsimp only
  rw [skipWs_not_ws ':' _ (by decide)]
  dsimp only
  rw [if_pos rfl, hval]
  dsimp only
  rw [skipWs_not_ws ',' _ (by decide)]
  dsimp only
  rw [if_pos rfl]
  exact hrest

theorem tw_last (f : Nat) (kb key B : List Char) (v : Json) (raw : String) (Y : List Char)
    (acc : Task × Option String)
    (hkey : parseStringBody kb = some (key, ':' :: B))
    (hval : parseValueSpan B = some ((v, raw), rb :: Y)) :
    twF (Nat.succ f) (qu :: kb) acc = some (setTaskField (String.mk key) v raw acc) := by
  rw [tw_succ, skipWs_not_ws qu _ (by decide)]
  dsimp only
  rw [if_pos rfl, hkey]
  dsimp only
  rw [skipWs_not_ws ':' _ (by decide)]
  dsimp only
  rw [if_pos rfl, hval]
  dsimp only
  rw [skipWs_not_ws rb _ (by decide)]
  dsimp only
  rw [if_neg (by decide), if_pos rfl]

theorem pm_step (f : Nat) (kb key B : List Char) (v : Json) (Y : List Char)
    (ms : JsonObj) (r2 : List Char)
    (hkey : parseStringBody kb = some (key, ':' :: B))
    (hval : parseValue f B = some (v, ',' :: Y))
    (hrest : parseMembers f Y = some (ms, r2)) :
    parseMembers (Nat.succ f) (qu :: kb) = some (.cons (String.mk key) v ms, r2) := by
  rw [pm_succ, skipWs_not_ws qu _ (by decide)]
  dsimp only
  rw [if_pos rfl, hkey]
  dsimp only
  rw [skipWs_not_ws ':' _ (by decide)]
  dsimp only
  rw [if_pos rfl, hval]
  dsimp only
  rw [skipWs_not_ws ',' _ (by decide)]
  dsimp only
  rw [if_pos rfl, hrest]

theorem pm_last (f : Nat) (kb key B : List Char) (v : Json) (Y : List Char)
    (hkey : parseStringBody kb = some (key, ':' :: B))
    (hval : parseValue f B = some (v, rb :: Y)) :
    parseMembers (Nat.succ f) (qu :: kb) = some (.cons (String.mk key) v .nil, Y) := by
  rw [pm_succ, skipWs_not_ws qu _ (by decide)]
  dsimp only
  rw [if_pos rfl, hkey]
  dsimp only
  rw [skipWs_not_ws ':' _ (by decide)]
  dsimp only
  rw [if_pos rfl, hval]
  dsimp only
  rw [skipWs_not_ws rb _ (by decide)]
  dsimp only
  rw [if_neg (by decide), if_pos rfl]

/-- The length of the marshalled task text. -/
theorem taskChars_len (t : Task) (cfg : List Char) :
    (taskChars t cfg).length =
      cfg.length + (escChars t.id.data).length + (escChars t.type.data).length +
        (escChars t.payload.data).length + 42 := by
  simp only [taskChars, encodeStringChars, List.length_append, List.length_cons,
    List.length_nil]
  omega

/-- Parsing the marshalled task text: one top-level object consuming the whole
text, the config slot parsed by the re-parse property of its bytes. -/
theorem pv_taskChars (t : Task) (cfg : List Char) (g : Nat) (X : List Char)
    (hcfg : ∀ Z g2, SafeAfter Z → cfg.length + 1 ≤ g2 →
      ∃ v, parseValue g2 (cfg ++ Z) = some (v, Z))
    (hg : cfg.length + 6 ≤ g) :
    ∃ ms, parseValue g (taskChars t cfg ++ X) = some (.obj ms, X) := by
  obtain ⟨g5, rfl⟩ : ∃ g5, g = g5 + 6 := ⟨g - 6, by omega⟩
  have hcl : cfg.length ≤ g5 := by omega
  have hTC : taskChars t cfg ++ X = lb :: (qu :: ('i' :: 'd' :: qu :: ':' :: (encodeStringChars t.id ++ (',' :: (qu :: ('c' :: 'o' :: 'n' :: 'f' :: 'i' :: 'g' :: qu :: ':' :: (cfg ++ (',' :: (qu :: ('t' :: 'y' :: 'p' :: 'e' :: qu :: ':' :: (encodeStringChars t.type ++ (',' :: (qu :: ('p' :: 'a' :: 'y' :: 'l' :: 'o' :: 'a' :: 'd' :: qu :: ':' :: (encodeStringChars t.payload ++ (rb :: X)))))))))))))))) := by
    simp [taskChars, List.cons_append, List.append_assoc]
  obtain ⟨vc, hvc⟩ := hcfg (',' :: (qu :: ('t' :: 'y' :: 'p' :: 'e' :: qu :: ':' :: (encodeStringChars t.type ++ (',' :: (qu :: ('p' :: 'a' :: 'y' :: 'l' :: 'o' :: 'a' :: 'd' :: qu :: ':' :: (encodeStringChars t.payload ++ (rb :: X))))))))) (g5 + 3)
    (safeAfter_cons _ _ (by decide)) (by omega)
  have hkey4 : parseStringBody ('p' :: 'a' :: 'y' :: 'l' :: 'o' :: 'a' :: 'd' :: qu :: ':' :: (encodeStringChars t.payload ++ (rb :: X))) =
      some (['p', 'a', 'y', 'l', 'o', 'a', 'd'], ':' :: (encodeStringChars t.payload ++ (rb :: X))) := by
    rw [show ('p' :: 'a' :: 'y' :: 'l' :: 'o' :: 'a' :: 'd' :: qu :: ':' :: (encodeStringChars t.payload ++ (rb :: X)) : List Char) =
      escChars ['p', 'a', 'y', 'l', 'o', 'a', 'd'] ++ qu :: (':' :: (encodeStringChars t.payload ++ (rb :: X))) from rfl]
    exact psb_esc _ _
  have hval4 : parseValue (Nat.succ g5) (encodeStringChars t.payload ++ (rb :: X)) = some (.str t.payload, rb :: X) :=
    pv_strlit g5 t.payload (rb :: X)
  have h4 : parseMembers (Nat.succ (Nat.succ g5)) (qu :: ('p' :: 'a' :: 'y' :: 'l' :: 'o' :: 'a' :: 'd' :: qu :: ':' :: (encodeStringChars t.payload ++ (rb :: X)))) =
      some (.cons (String.mk ['p', 'a', 'y', 'l', 'o', 'a', 'd']) (.str t.payload) .nil, X) :=
    pm_last (Nat.succ g5) _ _ _ _ _ hkey4 hval4
  have hkey3 : parseStringBody ('t' :: 'y' :: 'p' :: 'e' :: qu :: ':' :: (encodeStringChars t.type ++ (',' :: (qu :: ('p' :: 'a' :: 'y' :: 'l' :: 'o' :: 'a' :: 'd' :: qu :: ':' :: (encodeStringChars t.payload ++ (rb :: X))))))) =
      some (['t', 'y', 'p', 'e'], ':' :: (encodeStringChars t.type ++ (',' :: (qu :: ('p' :: 'a' :: 'y' :: 'l' :: 'o' :: 'a' :: 'd' :: qu :: ':' :: (encodeStringChars t.payload ++ (rb :: X))))))) := by
    rw [show ('t' :: 'y' :: 'p' :: 'e' :: qu :: ':' :: (encodeStringChars t.type ++ (',' :: (qu :: ('p' :: 'a' :: 'y' :: 'l' :: 'o' :: 'a' :: 'd' :: qu :: ':' :: (encodeStringChars t.payload ++ (rb :: X)))))) : List Char) =
      escChars ['t', 'y', 'p', 'e'] ++ qu :: (':' :: (encodeStringChars t.type ++ (',' :: (qu :: ('p' :: 'a' :: 'y' :: 'l' :: 'o' :: 'a' :: 'd' :: qu :: ':' :: (encodeStringChars t.payload ++ (rb :: X))))))) from rfl]
    exact psb_esc _ _
  have hval3 : parseValue (Nat.succ (Nat.succ g5)) (encodeStringChars t.type ++ (',' :: (qu :: ('p' :: 'a' :: 'y' :: 'l' :: 'o' :: 'a' :: 'd' :: qu :: ':' :: (encodeStringChars t.payload ++ (rb :: X)))))) =
      some (.str t.type, ',' :: (qu :: ('p' :: 'a' :: 'y' :: 'l' :: 'o' :: 'a' :: 'd' :: qu :: ':' :: (encodeStringChars t.payload ++ (rb :: X))))) :=
    pv_strlit (Nat.succ g5) t.type (',' :: (qu :: ('p' :: 'a' :: 'y' :: 'l' :: 'o' :: 'a' :: 'd' :: qu :: ':' :: (encodeStringChars t.payload ++ (rb :: X)))))
  have h3 : parseMembers (Nat.succ (Nat.succ (Nat.succ g5))) (qu :: ('t' :: 'y' :: 'p' :: 'e' :: qu :: ':' :: (encodeStringChars t.type ++ (',' :: (qu :: ('p' :: 'a' :: 'y' :: 'l' :: 'o' :: 'a' :: 'd' :: qu :: ':' :: (encodeStringChars t.payload ++ (rb :: X)))))))) =
      some (.cons (String.mk ['t', 'y', 'p', 'e']) (.str t.type)
        (.cons (String.mk ['p', 'a', 'y', 'l', 'o', 'a', 'd']) (.str t.payload) .nil), X) :=
    pm_step (Nat.succ (Nat.succ g5)) _ _ _ _ _ _ _ hkey3 hval3 h4
  have hkey2 : parseStringBody ('c' :: 'o' :: 'n' :: 'f' :: 'i' :: 'g' :: qu :: ':' :: (cfg ++ (',' :: (qu :: ('t' :: 'y' :: 'p' :: 'e' :: qu :: ':' :: (encodeStringChars t.type ++ (',' :: (qu :: ('p' :: 'a' :: 'y' :: 'l' :: 'o' :: 'a' :: 'd' :: qu :: ':' :: (encodeStringChars t.payload ++ (rb :: X))))))))))) =
      some (['c', 'o', 'n', 'f', 'i', 'g'], ':' :: (cfg ++ (',' :: (qu :: ('t' :: 'y' :: 'p' :: 'e' :: qu :: ':' :: (encodeStringChars t.type ++ (',' :: (qu :: ('p' :: 'a' :: 'y' :: 'l' :: 'o' :: 'a' :: 'd' :: qu :: ':' :: (encodeStringChars t.payload ++ (rb :: X))))))))))) := by
    rw [show ('c' :: 'o' :: 'n' :: 'f' :: 'i' :: 'g' :: qu :: ':' :: (cfg ++ (',' :: (qu :: ('t' :: 'y' :: 'p' :: 'e' :: qu :: ':' :: (encodeStringChars t.type ++ (',' :: (qu :: ('p' :: 'a' :: 'y' :: 'l' :: 'o' :: 'a' :: 'd' :: qu :: ':' :: (encodeStringChars t.payload ++ (rb :: X)))))))))) : List Char) =
      escChars ['c', 'o', 'n', 'f', 'i', 'g'] ++ qu :: (':' :: (cfg ++ (',' :: (qu :: ('t' :: 'y' :: 'p' :: 'e' :: qu :: ':' :: (encodeStringChars t.type ++ (',' :: (qu :: ('p' :: 'a' :: 'y' :: 'l' :: 'o' :: 'a' :: 'd' :: qu :: ':' :: (encodeStringChars t.payload ++ (rb :: X))))))))))) from rfl]
    exact psb_esc _ _
  have hvc2 : parseValue (Nat.succ (Nat.succ (Nat.succ g5))) (cfg ++ (',' :: (qu :: ('t' :: 'y' :: 'p' :: 'e' :: qu :: ':' :: (encodeStringChars t.type ++ (',' :: (qu :: ('p' :: 'a' :: 'y' :: 'l' :: 'o' :: 'a' :: 'd' :: qu :: ':' :: (encodeStringChars t.payload ++ (rb :: X)))))))))) =
      some (vc, ',' :: (qu :: ('t' :: 'y' :: 'p' :: 'e' :: qu :: ':' :: (encodeStringChars t.type ++ (',' :: (qu :: ('p' :: 'a' :: 'y' :: 'l' :: 'o' :: 'a' :: 'd' :: qu :: ':' :: (encodeStringChars t.payload ++ (rb :: X))))))))) := by
    rw [show Nat.succ (Nat.succ (Nat.succ g5)) = g5 + 3 from rfl]
    exact hvc
  have h2 : parseMembers (Nat.succ (Nat.succ (Nat.succ (Nat.succ g5)))) (qu :: ('c' :: 'o' :: 'n' :: 'f' :: 'i' :: 'g' :: qu :: ':' :: (cfg ++ (',' :: (qu :: ('t' :: 'y' :: 'p' :: 'e' :: qu :: ':' :: (encodeStringChars t.type ++ (',' :: (qu :: ('p' :: 'a' :: 'y' :: 'l' :: 'o' :: 'a' :: 'd' :: qu :: ':' :: (encodeStringChars t.payload ++ (rb :: X)))))))))))) =
      some (.cons (String.mk ['c', 'o', 'n', 'f', 'i', 'g']) vc
        (.cons (String.mk ['t', 'y', 'p', 'e']) (.str t.type)
          (.cons (String.mk ['p', 'a', 'y', 'l', 'o', 'a', 'd']) (.str t.payload) .nil)), X) :=
    pm_step (Nat.succ (Nat.succ (Nat.succ g5))) _ _ _ _ _ _ _ hkey2 hvc2 h3
  have hkey1 : parseStringBody ('i' :: 'd' :: qu :: ':' :: (encodeStringChars t.id ++ (',' :: (qu :: ('c' :: 'o' :: 'n' :: 'f' :: 'i' :: 'g' :: qu :: ':' :: (cfg ++ (',' :: (qu :: ('t' :: 'y' :: 'p' :: 'e' :: qu :: ':' :: (encodeStringChars t.type ++ (',' :: (qu :: ('p' :: 'a' :: 'y' :: 'l' :: 'o' :: 'a' :: 'd' :: qu :: ':' :: (encodeStringChars t.payload ++ (rb :: X))))))))))))))) =
      some (['i', 'd'], ':' :: (encodeStringChars t.id ++ (',' :: (qu :: ('c' :: 'o' :: 'n' :: 'f' :: 'i' :: 'g' :: qu :: ':' :: (cfg ++ (',' :: (qu :: ('t' :: 'y' :: 'p' :: 'e' :: qu :: ':' :: (encodeStringChars t.type ++ (',' :: (qu :: ('p' :: 'a' :: 'y' :: 'l' :: 'o' :: 'a' :: 'd' :: qu :: ':' :: (encodeStringChars t.payload ++ (rb :: X))))))))))))))) := by
    rw [show ('i' :: 'd' :: qu :: ':' :: (encodeStringChars t.id ++ (',' :: (qu :: ('c' :: 'o' :: 'n' :: 'f' :: 'i' :: 'g' :: qu :: ':' :: (cfg ++ (',' :: (qu :: ('t' :: 'y' :: 'p' :: 'e' :: qu :: ':' :: (encodeStringChars t.type ++ (',' :: (qu :: ('p' :: 'a' :: 'y' :: 'l' :: 'o' :: 'a' :: 'd' :: qu :: ':' :: (encodeStringChars t.payload ++ (rb :: X)))))))))))))) : List Char) =
      escChars ['i', 'd'] ++ qu :: (':' :: (encodeStringChars t.id ++ (',' :: (qu :: ('c' :: 'o' :: 'n' :: 'f' :: 'i' :: 'g' :: qu :: ':' :: (cfg ++ (',' :: (qu :: ('t' :: 'y' :: 'p' :: 'e' :: qu :: ':' :: (encodeStringChars t.type ++ (',' :: (qu :: ('p' :: 'a' :: 'y' :: 'l' :: 'o' :: 'a' :: 'd' :: qu :: ':' :: (encodeStringChars t.payload ++ (rb :: X))))))))))))))) from rfl]
    exact psb_esc _ _
  have hval1 : parseValue (Nat.succ (Nat.succ (Nat.succ (Nat.succ g5)))) (encodeStringChars t.id ++ (',' :: (qu :: ('c' :: 'o' :: 'n' :: 'f' :: 'i' :: 'g' :: qu :: ':' :: (cfg ++ (',' :: (qu :: ('t' :: 'y' :: 'p' :: 'e' :: qu :: ':' :: (encodeStringChars t.type ++ (',' :: (qu :: ('p' :: 'a' :: 'y' :: 'l' :: 'o' :: 'a' :: 'd' :: qu :: ':' :: (encodeStringChars t.payload ++ (rb :: X)))))))))))))) =
      some (.str t.id, ',' :: (qu :: ('c' :: 'o' :: 'n' :: 'f' :: 'i' :: 'g' :: qu :: ':' :: (cfg ++ (',' :: (qu :: ('t' :: 'y' :: 'p' :: 'e' :: qu :: ':' :: (encodeStringChars t.type ++ (',' :: (qu :: ('p' :: 'a' :: 'y' :: 'l' :: 'o' :: 'a' :: 'd' :: qu :: ':' :: (encodeStringChars t.payload ++ (rb :: X))))))))))))) :=
    pv_strlit (Nat.succ (Nat.succ (Nat.succ g5))) t.id (',' :: (qu :: ('c' :: 'o' :: 'n' :: 'f' :: 'i' :: 'g' :: qu :: ':' :: (cfg ++ (',' :: (qu :: ('t' :: 'y' :: 'p' :: 'e' :: qu :: ':' :: (encodeStringChars t.type ++ (',' :: (qu :: ('p' :: 'a' :: 'y' :: 'l' :: 'o' :: 'a' :: 'd' :: qu :: ':' :: (encodeStringChars t.payload ++ (rb :: X)))))))))))))
  have h1 : parseMembers (Nat.succ (Nat.succ (Nat.succ (Nat.succ (Nat.succ g5))))) (qu :: ('i' :: 'd' :: qu :: ':' :: (encodeStringChars t.id ++ (',' :: (qu :: ('c' :: 'o' :: 'n' :: 'f' :: 'i' :: 'g' :: qu :: ':' :: (cfg ++ (',' :: (qu :: ('t' :: 'y' :: 'p' :: 'e' :: qu :: ':' :: (encodeStringChars t.type ++ (',' :: (qu :: ('p' :: 'a' :: 'y' :: 'l' :: 'o' :: 'a' :: 'd' :: qu :: ':' :: (encodeStringChars t.payload ++ (rb :: X)))))))))))))))) =
      some (.cons (String.mk ['i', 'd']) (.str t.id)
        (.cons (String.mk ['c', 'o', 'n', 'f', 'i', 'g']) vc
          (.cons (String.mk ['t', 'y', 'p', 'e']) (.str t.type)
            (.cons (String.mk ['p', 'a', 'y', 'l', 'o', 'a', 'd']) (.str t.payload) .nil))), X) :=
    pm_step (Nat.succ (Nat.succ (Nat.succ (Nat.succ g5)))) _ _ _ _ _ _ _ hkey1 hval1 h2
  rw [hTC, show g5 + 6 = Nat.succ (Nat.succ (Nat.succ (Nat.succ (Nat.succ (Nat.succ g5))))) from rfl,
    pv_lb, skipWs_not_ws qu _ (by decide)]
  dsimp only
  rw [if_neg (by decide), h1]
  exact ⟨_, rfl⟩

/-- Decoding the exact text `Marshal` writes for a task assigns all four
fields; the raw config field receives the emitted config bytes verbatim. -/
theorem um_marshal (t : Task) (cfg : List Char) (c0 : Char) (cs0 : List Char)
    (hhd : cfg = c0 :: cs0) (hws0 : wsChar c0 = false)
    (hcfg : ∀ Z g2, SafeAfter Z → cfg.length + 1 ≤ g2 →
      ∃ v, parseValue g2 (cfg ++ Z) = some (v, Z)) :
    unmarshalTask (String.mk (taskChars t cfg)) =
      (⟨t.id, String.mk cfg, t.type, t.payload⟩, none) := by
  have hLen := taskChars_len t cfg
  obtain ⟨ms0, hms0⟩ := pv_taskChars t cfg (2 * (taskChars t cfg).length + 2) [] hcfg
    (by omega)
  rw [List.append_nil] at hms0
  have hpj : parseJson (String.mk (taskChars t cfg)) = some (.obj ms0) := by
    unfold parseJson
    rw [show (String.mk (taskChars t cfg)).data = taskChars t cfg from rfl,
      show (String.mk (taskChars t cfg)).length = (taskChars t cfg).length from rfl,
      hms0]
    rfl
  obtain ⟨vc, hvc⟩ := hcfg (',' :: (qu :: ('t' :: 'y' :: 'p' :: 'e' :: qu :: ':' :: (encodeStringChars t.type ++ (',' :: (qu :: ('p' :: 'a' :: 'y' :: 'l' :: 'o' :: 'a' :: 'd' :: qu :: ':' :: (encodeStringChars t.payload ++ (rb :: ([] : List Char))))))))))
    (2 * (c0 :: (cs0 ++ (',' :: (qu :: ('t' :: 'y' :: 'p' :: 'e' :: qu :: ':' :: (encodeStringChars t.type ++ (',' :: (qu :: ('p' :: 'a' :: 'y' :: 'l' :: 'o' :: 'a' :: 'd' :: qu :: ':' :: (encodeStringChars t.payload ++ (rb :: ([] : List Char)))))))))))).length + 2)
    (safeAfter_cons _ _ (by decide)) (by
      rw [hhd]
      simp only [List.length_append, List.length_cons]
      omega)
  have hvc2 : parseValue (2 * (c0 :: (cs0 ++ (',' :: (qu :: ('t' :: 'y' :: 'p' :: 'e' :: qu :: ':' :: (encodeStringChars t.type ++ (',' :: (qu :: ('p' :: 'a' :: 'y' :: 'l' :: 'o' :: 'a' :: 'd' :: qu :: ':' :: (encodeStringChars t.payload ++ (rb :: ([] : List Char)))))))))))).length + 2)
      (c0 :: (cs0 ++ (',' :: (qu :: ('t' :: 'y' :: 'p' :: 'e' :: qu :: ':' :: (encodeStringChars t.type ++ (',' :: (qu :: ('p' :: 'a' :: 'y' :: 'l' :: 'o' :: 'a' :: 'd' :: qu :: ':' :: (encodeStringChars t.payload ++ (rb :: ([] : List Char)))))))))))) = some (vc, ',' :: (qu :: ('t' :: 'y' :: 'p' :: 'e' :: qu :: ':' :: (encodeStringChars t.type ++ (',' :: (qu :: ('p' :: 'a' :: 'y' :: 'l' :: 'o' :: 'a' :: 'd' :: qu :: ':' :: (encodeStringChars t.payload ++ (rb :: ([] : List Char)))))))))) := by
    have h2 := hvc
    rw [hhd, List.cons_append] at h2
    exact h2
  have hpvsc : parseValueSpan (cfg ++ (',' :: (qu :: ('t' :: 'y' :: 'p' :: 'e' :: qu :: ':' :: (encodeStringChars t.type ++ (',' :: (qu :: ('p' :: 'a' :: 'y' :: 'l' :: 'o' :: 'a' :: 'd' :: qu :: ':' :: (encodeStringChars t.payload ++ (rb :: ([] : List Char))))))))))) =
      some ((vc, String.mk cfg), ',' :: (qu :: ('t' :: 'y' :: 'p' :: 'e' :: qu :: ':' :: (encodeStringChars t.type ++ (',' :: (qu :: ('p' :: 'a' :: 'y' :: 'l' :: 'o' :: 'a' :: 'd' :: qu :: ':' :: (encodeStringChars t.payload ++ (rb :: ([] : List Char)))))))))) := by
    rw [show cfg ++ (',' :: (qu :: ('t' :: 'y' :: 'p' :: 'e' :: qu :: ':' :: (encodeStringChars t.type ++ (',' :: (qu :: ('p' :: 'a' :: 'y' :: 'l' :: 'o' :: 'a' :: 'd' :: qu :: ':' :: (encodeStringChars t.payload ++ (rb :: ([] : List Char)))))))))) = c0 :: (cs0 ++ (',' :: (qu :: ('t' :: 'y' :: 'p' :: 'e' :: qu :: ':' :: (encodeStringChars t.type ++ (',' :: (qu :: ('p' :: 'a' :: 'y' :: 'l' :: 'o' :: 'a' :: 'd' :: qu :: ':' :: (encodeStringChars t.payload ++ (rb :: ([] : List Char))))))))))) from by
      rw [hhd, List.cons_append]]
    rw [pvs_eval c0 cs0 _ vc hws0 hvc2, ← hhd]
  have hkey1 : parseStringBody ('i' :: 'd' :: qu :: ':' :: (encodeStringChars t.id ++ (',' :: (qu :: ('c' :: 'o' :: 'n' :: 'f' :: 'i' :: 'g' :: qu :: ':' :: (cfg ++ (',' :: (qu :: ('t' :: 'y' :: 'p' :: 'e' :: qu :: ':' :: (encodeStringChars t.type ++ (',' :: (qu :: ('p' :: 'a' :: 'y' :: 'l' :: 'o' :: 'a' :: 'd' :: qu :: ':' :: (encodeStringChars t.payload ++ (rb :: ([] : List Char)))))))))))))))) =
      some (['i', 'd'], ':' :: (encodeStringChars t.id ++ (',' :: (qu :: ('c' :: 'o' :: 'n' :: 'f' :: 'i' :: 'g' :: qu :: ':' :: (cfg ++ (',' :: (qu :: ('t' :: 'y' :: 'p' :: 'e' :: qu :: ':' :: (encodeStringChars t.type ++ (',' :: (qu :: ('p' :: 'a' :: 'y' :: 'l' :: 'o' :: 'a' :: 'd' :: qu :: ':' :: (encodeStringChars t.payload ++ (rb :: ([] : List Char)))))))))))))))) := by
    rw [show ('i' :: 'd' :: qu :: ':' :: (encodeStringChars t.id ++ (',' :: (qu :: ('c' :: 'o' :: 'n' :: 'f' :: 'i' :: 'g' :: qu :: ':' :: (cfg ++ (',' :: (qu :: ('t' :: 'y' :: 'p' :: 'e' :: qu :: ':' :: (encodeStringChars t.type ++ (',' :: (qu :: ('p' :: 'a' :: 'y' :: 'l' :: 'o' :: 'a' :: 'd' :: qu :: ':' :: (encodeStringChars t.payload ++ (rb :: ([] : List Char))))))))))))))) : List Char) =
      escChars ['i', 'd'] ++ qu :: (':' :: (encodeStringChars t.id ++ (',' :: (qu :: ('c' :: 'o' :: 'n' :: 'f' :: 'i' :: 'g' :: qu :: ':' :: (cfg ++ (',' :: (qu :: ('t' :: 'y' :: 'p' :: 'e' :: qu :: ':' :: (encodeStringChars t.type ++ (',' :: (qu :: ('p' :: 'a' :: 'y' :: 'l' :: 'o' :: 'a' :: 'd' :: qu :: ':' :: (encodeStringChars t.payload ++ (rb :: ([] : List Char)))))))))))))))) from rfl]
    exact psb_esc _ _
  have hval1 : parseValueSpan (encodeStringChars t.id ++ (',' :: (qu :: ('c' :: 'o' :: 'n' :: 'f' :: 'i' :: 'g' :: qu :: ':' :: (cfg ++ (',' :: (qu :: ('t' :: 'y' :: 'p' :: 'e' :: qu :: ':' :: (encodeStringChars t.type ++ (',' :: (qu :: ('p' :: 'a' :: 'y' :: 'l' :: 'o' :: 'a' :: 'd' :: qu :: ':' :: (encodeStringChars t.payload ++ (rb :: ([] : List Char))))))))))))))) =
      some ((.str t.id, String.mk (encodeStringChars t.id)), ',' :: (qu :: ('c' :: 'o' :: 'n' :: 'f' :: 'i' :: 'g' :: qu :: ':' :: (cfg ++ (',' :: (qu :: ('t' :: 'y' :: 'p' :: 'e' :: qu :: ':' :: (encodeStringChars t.type ++ (',' :: (qu :: ('p' :: 'a' :: 'y' :: 'l' :: 'o' :: 'a' :: 'd' :: qu :: ':' :: (encodeStringChars t.payload ++ (rb :: ([] : List Char)))))))))))))) :=
    pvs_strlit t.id (',' :: (qu :: ('c' :: 'o' :: 'n' :: 'f' :: 'i' :: 'g' :: qu :: ':' :: (cfg ++ (',' :: (qu :: ('t' :: 'y' :: 'p' :: 'e' :: qu :: ':' :: (encodeStringChars t.type ++ (',' :: (qu :: ('p' :: 'a' :: 'y' :: 'l' :: 'o' :: 'a' :: 'd' :: qu :: ':' :: (encodeStringChars t.payload ++ (rb :: ([] : List Char))))))))))))))
  have hkey2 : parseStringBody ('c' :: 'o' :: 'n' :: 'f' :: 'i' :: 'g' :: qu :: ':' :: (cfg ++ (',' :: (qu :: ('t' :: 'y' :: 'p' :: 'e' :: qu :: ':' :: (encodeStringChars t.type ++ (',' :: (qu :: ('p' :: 'a' :: 'y' :: 'l' :: 'o' :: 'a' :: 'd' :: qu :: ':' :: (encodeStringChars t.payload ++ (rb :: ([] : List Char)))))))))))) =
      some (['c', 'o', 'n', 'f', 'i', 'g'], ':' :: (cfg ++ (',' :: (qu :: ('t' :: 'y' :: 'p' :: 'e' :: qu :: ':' :: (encodeStringChars t.type ++ (',' :: (qu :: ('p' :: 'a' :: 'y' :: 'l' :: 'o' :: 'a' :: 'd' :: qu :: ':' :: (encodeStringChars t.payload ++ (rb :: ([] : List Char)))))))))))) := by
    rw [show ('c' :: 'o' :: 'n' :: 'f' :: 'i' :: 'g' :: qu :: ':' :: (cfg ++ (',' :: (qu :: ('t' :: 'y' :: 'p' :: 'e' :: qu :: ':' :: (encodeStringChars t.type ++ (',' :: (qu :: ('p' :: 'a' :: 'y' :: 'l' :: 'o' :: 'a' :: 'd' :: qu :: ':' :: (encodeStringChars t.payload ++ (rb :: ([] : List Char))))))))))) : List Char) =
      escChars ['c', 'o', 'n', 'f', 'i', 'g'] ++ qu :: (':' :: (cfg ++ (',' :: (qu :: ('t' :: 'y' :: 'p' :: 'e' :: qu :: ':' :: (encodeStringChars t.type ++ (',' :: (qu :: ('p' :: 'a' :: 'y' :: 'l' :: 'o' :: 'a' :: 'd' :: qu :: ':' :: (encodeStringChars t.payload ++ (rb :: ([] : List Char)))))))))))) from rfl]
    exact psb_esc _ _
  have hkey3 : parseStringBody ('t' :: 'y' :: 'p' :: 'e' :: qu :: ':' :: (encodeStringChars t.type ++ (',' :: (qu :: ('p' :: 'a' :: 'y' :: 'l' :: 'o' :: 'a' :: 'd' :: qu :: ':' :: (encodeStringChars t.payload ++ (rb :: ([] : List Char)))))))) =
      some (['t', 'y', 'p', 'e'], ':' :: (encodeStringChars t.type ++ (',' :: (qu :: ('p' :: 'a' :: 'y' :: 'l' :: 'o' :: 'a' :: 'd' :: qu :: ':' :: (encodeStringChars t.payload ++ (rb :: ([] : List Char)))))))) := by
    rw [show ('t' :: 'y' :: 'p' :: 'e' :: qu :: ':' :: (encodeStringChars t.type ++ (',' :: (qu :: ('p' :: 'a' :: 'y' :: 'l' :: 'o' :: 'a' :: 'd' :: qu :: ':' :: (encodeStringChars t.payload ++ (rb :: ([] : List Char))))))) : List Char) =
      escChars ['t', 'y', 'p', 'e'] ++ qu :: (':' :: (encodeStringChars t.type ++ (',' :: (qu :: ('p' :: 'a' :: 'y' :: 'l' :: 'o' :: 'a' :: 'd' :: qu :: ':' :: (encodeStringChars t.payload ++ (rb :: ([] : List Char)))))))) from rfl]
    exact psb_esc _ _
  have hval3 : parseValueSpan (encodeStringChars t.type ++ (',' :: (qu :: ('p' :: 'a' :: 'y' :: 'l' :: 'o' :: 'a' :: 'd' :: qu :: ':' :: (encodeStringChars t.payload ++ (rb :: ([] : List Char))))))) =
      some ((.str t.type, String.mk (encodeStringChars t.type)), ',' :: (qu :: ('p' :: 'a' :: 'y' :: 'l' :: 'o' :: 'a' :: 'd' :: qu :: ':' :: (encodeStringChars t.payload ++ (rb :: ([] : List Char)))))) :=
    pvs_strlit t.type (',' :: (qu :: ('p' :: 'a' :: 'y' :: 'l' :: 'o' :: 'a' :: 'd' :: qu :: ':' :: (encodeStringChars t.payload ++ (rb :: ([] : List Char))))))
  have hkey4 : parseStringBody ('p' :: 'a' :: 'y' :: 'l' :: 'o' :: 'a' :: 'd' :: qu :: ':' :: (encodeStringChars t.payload ++ (rb :: ([] : List Char)))) =
      some (['p', 'a', 'y', 'l', 'o', 'a', 'd'], ':' :: (encodeStringChars t.payload ++ (rb :: ([] : List Char)))) := by
    rw [show ('p' :: 'a' :: 'y' :: 'l' :: 'o' :: 'a' :: 'd' :: qu :: ':' :: (encodeStringChars t.payload ++ (rb :: ([] : List Char))) : List Char) =
      escChars ['p', 'a', 'y', 'l', 'o', 'a', 'd'] ++ qu :: (':' :: (encodeStringChars t.payload ++ (rb :: ([] : List Char)))) from rfl]
    exact psb_esc _ _
  have hval4 : parseValueSpan (encodeStringChars t.payload ++ (rb :: ([] : List Char))) =
      some ((.str t.payload, String.mk (encodeStringChars t.payload)), rb :: ([] : List Char)) :=
    pvs_strlit t.payload (rb :: ([] : List Char))
  have hwalk : walkTask (String.mk (taskChars t cfg)) =
      (⟨t.id, String.mk cfg, t.type, t.payload⟩, none) := by
    unfold walkTask
    rw [show (String.mk (taskChars t cfg)).data = taskChars t cfg from rfl,
      show (String.mk (taskChars t cfg)).length = (taskChars t cfg).length from rfl]
    obtain ⟨k, hk⟩ : ∃ k, (taskChars t cfg).length = k + 3 :=
      ⟨(taskChars t cfg).length - 3, by omega⟩
    have hTC : taskChars t cfg = lb :: (qu :: ('i' :: 'd' :: qu :: ':' :: (encodeStringChars t.id ++ (',' :: (qu :: ('c' :: 'o' :: 'n' :: 'f' :: 'i' :: 'g' :: qu :: ':' :: (cfg ++ (',' :: (qu :: ('t' :: 'y' :: 'p' :: 'e' :: qu :: ':' :: (encodeStringChars t.type ++ (',' :: (qu :: ('p' :: 'a' :: 'y' :: 'l' :: 'o' :: 'a' :: 'd' :: qu :: ':' :: (encodeStringChars t.payload ++ (rb :: ([] : List Char))))))))))))))))) := rfl
    rw [hk, hTC, skipWs_not_ws lb _ (by decide)]
    dsimp only
    rw [if_pos rfl, skipWs_not_ws qu _ (by decide)]
    dsimp only
    rw [if_neg (by decide)]
    have hw4 : twF (k + 3 + 1) (qu :: ('i' :: 'd' :: qu :: ':' :: (encodeStringChars t.id ++ (',' :: (qu :: ('c' :: 'o' :: 'n' :: 'f' :: 'i' :: 'g' :: qu :: ':' :: (cfg ++ (',' :: (qu :: ('t' :: 'y' :: 'p' :: 'e' :: qu :: ':' :: (encodeStringChars t.type ++ (',' :: (qu :: ('p' :: 'a' :: 'y' :: 'l' :: 'o' :: 'a' :: 'd' :: qu :: ':' :: (encodeStringChars t.payload ++ (rb :: ([] : List Char))))))))))))))))) (default, none) =
        some (setTaskField (String.mk ['p', 'a', 'y', 'l', 'o', 'a', 'd']) (.str t.payload)
          (String.mk (encodeStringChars t.payload))
          (setTaskField (String.mk ['t', 'y', 'p', 'e']) (.str t.type)
            (String.mk (encodeStringChars t.type))
            (setTaskField (String.mk ['c', 'o', 'n', 'f', 'i', 'g']) vc (String.mk cfg)
              (setTaskField (String.mk ['i', 'd']) (.str t.id)
                (String.mk (encodeStringChars t.id)) (default, none))))) := by
      rw [show k + 3 + 1 = Nat.succ (k + 2 + 1) from rfl]
      refine tw_step (k + 2 + 1) _ _ _ _ _ _ _ _ hkey1 hval1 ?_
      rw [show k + 2 + 1 = Nat.succ (k + 1 + 1) from rfl]
      refine tw_step (k + 1 + 1) _ _ _ _ _ _ _ _ hkey2 hpvsc ?_
      rw [show k + 1 + 1 = Nat.succ (k + 1) from rfl]
      refine tw_step (k + 1) _ _ _ _ _ _ _ _ hkey3 hval3 ?_
      rw [show k + 1 = Nat.succ k from rfl]
      exact tw_last k _ _ _ _ _ _ _ hkey4 hval4
    rw [hw4]
    rfl
  unfold unmarshalTask
  rw [hpj]
  dsimp only
  exact hwalk

/-! ### Concrete fixtures used by witnesses and counterexamples -/

/-- An oracle whose database always fails; irrelevant wherever no database
call is reached. -/
def oracle0 : DbOracle :=
  ⟨fun _ _ => none, fun _ _ => .error "no database", fun _ _ => .error "no database"⟩

/-- A driver result whose `LastInsertId` is unsupported: 0 with an error, as
go-mssqldb reports it; three rows affected. -/
def rawExec0 : RawExecResult := ⟨0, some "LastInsertId is not supported", 3, none⟩

/-- An oracle for a reachable database whose exec succeeds but whose driver
does not support `LastInsertId`. -/
def oracleExec : DbOracle :=
  ⟨fun _ _ => none, fun _ _ => .error "no database", fun _ _ => .ok rawExec0⟩

/-- An oracle with deferred connection validation: opening succeeds, the first
query fails with a network error. -/
def oracleDeferred : DbOracle :=
  ⟨fun _ _ => none,
    fun _ _ => .error "dial tcp 127.0.0.1:3306: connect: connection refused",
    fun _ _ => .error "dial tcp 127.0.0.1:3306: connect: connection refused"⟩

def st0 : DbState := ⟨0, [], 0⟩

def reqBogusType : Request := ⟨"\x7b\"type\":\"bogus.query\"\x7d", none, none⟩

def taskBogusType : Task := ⟨"", "", "bogus.query", ""⟩

def reqNotJson : Request := ⟨"bogus", none, none⟩

def reqBig : Request := ⟨String.mk (List.replicate 2000000 'a'), none, none⟩

def reqExec : Request :=
  ⟨"\x7b\"id\":\"1\",\"config\":\x7b\"type\":\"mysql\",\"dsn\":\"u@/db\"\x7d,\"type\":\"mysql.exec\",\"payload\":\"DELETE FROM t\"\x7d",
    none, none⟩

def taskExec : Task :=
  ⟨"1", "\x7b\"type\":\"mysql\",\"dsn\":\"u@/db\"\x7d", "mysql.exec", "DELETE FROM t"⟩

/-- A task whose config names a driver that is not registered. -/
def taskBadDriver : Task :=
  ⟨"1", "\x7b\"type\":\"bogus\",\"dsn\":\"\"\x7d", "mysql.query", "SELECT 1"⟩

/-- A task whose config field `type` is a number: the unmarshal errors but
still fills `dsn`. -/
def taskBadCfg : Task := ⟨"1", "\x7b\"type\":1,\"dsn\":\"x\"\x7d", "mysql.query", "SELECT 1"⟩

def taskDeferred : Task :=
  ⟨"1", "\x7b\"type\":\"mysql\",\"dsn\":\"u:p@/db\"\x7d", "mysql.query", "SELECT 1"⟩

def taskCompact : Task := ⟨"1", "\x7b\x7d", "mysql.query", "SELECT 1"⟩

def taskSpaced : Task := ⟨"1", "\x7b \x7d", "mysql.query", "SELECT 1"⟩

def taskEsc : Task := ⟨"1", "\x7b\"a\":\"\\u0041\"\x7d", "mysql.query", "SELECT 1"⟩

def authHeaderGood : String := "Basic ZGlnaXN0b3JtY29ubmVjdG9yOnNlY3JldA=="

def authHeaderOddScheme : String := "Bogus ZGlnaXN0b3JtY29ubmVjdG9yOnNlY3JldA=="

/-! ### State bookkeeping of the session lifecycle -/

theorem initDb_state (o : DbOracle) (t : Task) (st : DbState) :
    (∀ st1, initDbConnection o t st = (none, st1) → st1.openSessions = st.openSessions) ∧
    (∀ h st1, initDbConnection o t st = (some h, st1) →
      st1.openSessions = h :: st.openSessions) := by
  unfold initDbConnection sqlOpen
  dsimp only
  by_cases hd : (getTaskDbConfig t).type ∈ registeredDrivers
  · rw [if_pos hd]
    rcases ho : o.openRes (getTaskDbConfig t).type (getTaskDbConfig t).dsn with _ | e
    · dsimp only
      constructor
      · intro st1 h1
        exact absurd (congrArg Prod.fst h1) (by simp)
      · intro h st1 h1
        have h2 := congrArg Prod.snd h1
        simp only at h2
        have h3 : st.nextId = h := by
          have := congrArg Prod.fst h1
          simpa using this
        rw [← h2, ← h3]
    · dsimp only
      constructor
      · intro st1 h1
        have h2 := congrArg Prod.snd h1
        simp only at h2
        rw [← h2]
      · intro h st1 h1
        exact absurd (congrArg Prod.fst h1) (by simp)
  · rw [if_neg hd]
    dsimp only
    constructor
    · intro st1 h1
      have h2 := congrArg Prod.snd h1
      simp only at h2
      rw [← h2]
    · intro h st1 h1
      exact absurd (congrArg Prod.fst h1) (by simp)

/-! ## The claims -/

/-- C1: for every task whose type is none of `mysql.query`, `mysql.exec`,
`mssql.query`, `mssql.exec`, `processTaskRequest` returns the error
"Unknown task type: type" and leaves the database state untouched (no
connection is attempted), and the handler responds 500 with an error envelope
whose body carries the unrecognized type. -/
theorem c1_unknown_type_rejected (o : DbOracle) (r : Request) (st : DbState) (t : Task)
    (hr : r.readErr = none) (hc : r.closeErr = none)
    (hp : parseTask (String.mk (r.body.data.take 1048576)) = (t, none))
    (h1 : t.type ≠ TASK_TYPE_DB_MYSQL_QUERY) (h2 : t.type ≠ TASK_TYPE_DB_MSSQL_QUERY)
    (h3 : t.type ≠ TASK_TYPE_DB_MYSQL_EXEC) (h4 : t.type ≠ TASK_TYPE_DB_MSSQL_EXEC) :
    processTaskRequest o r st = (.err ("Unknown task type: " ++ t.type), st) ∧
    handleTask o r st = (.resp 500 ⟨"error", .s ("Unknown task type: " ++ t.type)⟩, st) := by
  have hread : readAllLimited r = .ok (String.mk (r.body.data.take 1048576)) := by
    unfold readAllLimited
    rw [hr]
  have hmain : processTaskRequest o r st = (.err ("Unknown task type: " ++ t.type), st) := by
    unfold processTaskRequest
    rw [hread]
    dsimp only
    rw [hc]
    dsimp only
    rw [hp]
    dsimp only
    unfold dispatchTask
    rw [if_neg (by simp [h1, h2]), if_neg (by simp [h3, h4])]
  refine ⟨hmain, ?_⟩
  unfold handleTask
  rw [hmain]

/-- C1 witness: the task `{"type":"bogus.query"}` is rejected with the
"Unknown task type" error and a 500 error envelope. -/
theorem c1_witness :
    processTaskRequest oracle0 reqBogusType st0 =
      (.err ("Unknown task type: " ++ taskBogusType.type), st0) ∧
    handleTask oracle0 reqBogusType st0 =
      (.resp 500 ⟨"error", .s ("Unknown task type: " ++ taskBogusType.type)⟩, st0) :=
  c1_unknown_type_rejected oracle0 reqBogusType st0 taskBogusType rfl rfl rfl
    (by decide) (by decide) (by decide) (by decide)

/-- C2 (evaluating the code at the failing input): a task whose config names
the unregistered driver "bogus" makes `sql.Open` fail eagerly; `errCheck`
only logs that error, the nil handle is returned, and `db.SetMaxIdleConns`
panics, so no `ConnectionError` reaches the caller (first two conjuncts). A
driver that defers validation does propagate its late failure, wrapped as
"Database error: ..." (third conjunct). -/
theorem c2_open_error_panics :
    processDbQuery oracle0 taskBadDriver st0 = (.panicked nilDerefMsg, ⟨0, [], 1⟩) ∧
    dispatchTask oracle0 taskBadDriver st0 = (.panicked nilDerefMsg, ⟨0, [], 1⟩) ∧
    dispatchTask oracleDeferred taskDeferred st0 =
      (.err "Database error: dial tcp 127.0.0.1:3306: connect: connection refused",
        ⟨1, [], 1⟩) := by
  refine ⟨rfl, rfl, rfl⟩

/-- C3: the task handler only ever answers 200 with a success envelope around
the executor's value, or 500 with an error envelope whose body is exactly the
error's message string; when the executor panics no response is produced at
all. -/
theorem c3_envelope_discipline (o : DbOracle) (r : Request) (st : DbState) :
    (∃ b st1, processTaskRequest o r st = (.ok b, st1) ∧
      handleTask o r st = (.resp 200 ⟨"success", b⟩, st1)) ∨
    (∃ e st1, processTaskRequest o r st = (.err e, st1) ∧
      handleTask o r st = (.resp 500 ⟨"error", .s e⟩, st1)) ∨
    (∃ m st1, processTaskRequest o r st = (.panicked m, st1) ∧
      handleTask o r st = (.panicked m, st1)) := by
  unfold handleTask
  rcases hp : processTaskRequest o r st with ⟨out, st1⟩
  cases out with
  | ok b => exact Or.inl ⟨b, st1, rfl, rfl⟩
  | err e => exact Or.inr (Or.inl ⟨e, st1, rfl, rfl⟩)
  | panicked m => exact Or.inr (Or.inr ⟨m, st1, rfl, rfl⟩)

/-- C4: a request body that does not decode into a `Task` short-circuits with
the "Unable to parse JSON request body:" error before any database work (state
untouched) and yields a 500 error envelope. -/
theorem c4_malformed_request (o : DbOracle) (r : Request) (st : DbState) (t0 : Task) (e : String)
    (hr : r.readErr = none) (hc : r.closeErr = none)
    (hp : parseTask (String.mk (r.body.data.take 1048576)) = (t0, some e)) :
    processTaskRequest o r st = (.err ("Unable to parse JSON request body: " ++ e), st) ∧
    handleTask o r st =
      (.resp 500 ⟨"error", .s ("Unable to parse JSON request body: " ++ e)⟩, st) := by
  have hread : readAllLimited r = .ok (String.mk (r.body.data.take 1048576)) := by
    unfold readAllLimited
    rw [hr]
  have hmain : processTaskRequest o r st =
      (.err ("Unable to parse JSON request body: " ++ e), st) := by
    unfold processTaskRequest
    rw [hread]
    dsimp only
    rw [hc]
    dsimp only
    rw [hp]
  refine ⟨hmain, ?_⟩
  unfold handleTask
  rw [hmain]

/-- C4 witness: the body "bogus" is not JSON; the response is the 500
malformed-request envelope and the state is untouched. -/
theorem c4_witness :
    processTaskRequest oracle0 reqNotJson st0 =
      (.err ("Unable to parse JSON request body: " ++ "invalid character in JSON input"), st0) ∧
    handleTask oracle0 reqNotJson st0 =
      (.resp 500
        ⟨"error", .s ("Unable to parse JSON request body: " ++ "invalid character in JSON input")⟩,
        st0) :=
  c4_malformed_request oracle0 reqNotJson st0 default "invalid character in JSON input"
    rfl rfl rfl

/-- C5: both the query path and the exec path close the session they opened on
every exit path: the set of open sessions after the call is exactly the set
before it (the panic path never got a session to begin with, since `sql.Open`
failed). -/
theorem c5_session_closed (o : DbOracle) (t : Task) (st : DbState) :
    (processDbQuery o t st).2.openSessions = st.openSessions ∧
    (processDbExec o t st).2.openSessions = st.openSessions := by
  obtain ⟨hnone, hsome⟩ := initDb_state o t st
  constructor
  · unfold processDbQuery
    dsimp only
    rcases hi : initDbConnection o t st with ⟨oh, st1⟩
    cases oh with
    | none =>
      dsimp only
      exact hnone st1 hi
    | some h =>
      dsimp only
      have hopen := hsome h st1 hi
      rcases o.queryRes (getTaskDbConfig t) t.payload with e | rows <;>
        · dsimp only [closeSession]
          rw [hopen, List.erase_cons_head]
  · unfold processDbExec
    dsimp only
    rcases hi : initDbConnection o t st with ⟨oh, st1⟩
    cases oh with
    | none =>
      dsimp only
      exact hnone st1 hi
    | some h =>
      dsimp only
      have hopen := hsome h st1 hi
      rcases o.execRes (getTaskDbConfig t) t.payload with e | raw <;>
        · dsimp only [closeSession]
          rw [hopen, List.erase_cons_head]

/-- `sql.Open` bumps the attempt counter exactly once per `initDbConnection`. -/
theorem initDb_attempts (o : DbOracle) (t : Task) (st : DbState) :
    (initDbConnection o t st).2.attempts = st.attempts + 1 := by
  unfold initDbConnection sqlOpen
  dsimp only
  by_cases hd : (getTaskDbConfig t).type ∈ registeredDrivers
  · rw [if_pos hd]
    rcases o.openRes (getTaskDbConfig t).type (getTaskDbConfig t).dsn with _ | e <;> rfl
  · rw [if_neg hd]

/-- Both executor paths make exactly one connection attempt. -/
theorem proc_attempts (o : DbOracle) (t : Task) (st : DbState) :
    (processDbQuery o t st).2.attempts = st.attempts + 1 ∧
    (processDbExec o t st).2.attempts = st.attempts + 1 := by
  have hatt := initDb_attempts o t st
  constructor
  · unfold processDbQuery
    dsimp only
    rcases hi : initDbConnection o t st with ⟨oh, st1⟩
    rw [hi] at hatt
    cases oh with
    | none => exact hatt
    | some h =>
      dsimp only
      rcases o.queryRes (getTaskDbConfig t) t.payload with e | rows <;> exact hatt
  · unfold processDbExec
    dsimp only
    rcases hi : initDbConnection o t st with ⟨oh, st1⟩
    rw [hi] at hatt
    cases oh with
    | none => exact hatt
    | some h =>
      dsimp only
      rcases o.execRes (getTaskDbConfig t) t.payload with e | raw <;> exact hatt

/-- C6: for a well-formed exec task on a reachable database whose statement
runs without error, the handler answers 200/success with an exec body holding
the driver's two counters; the marshalled body always carries both
`last_insert_id` and `rows_affected` as JSON numbers; and when the driver does
not support a counter (it reports an error, which the code discards), the
response simply carries that counter's zero value — the exec as a whole still
succeeds. -/
theorem c6_exec_counters (o : DbOracle) (r : Request) (st : DbState) (t : Task)
    (raw : RawExecResult)
    (hr : r.readErr = none) (hc : r.closeErr = none)
    (hp : parseTask (String.mk (r.body.data.take 1048576)) = (t, none))
    (hty : t.type = TASK_TYPE_DB_MYSQL_EXEC ∨ t.type = TASK_TYPE_DB_MSSQL_EXEC)
    (hreg : (getTaskDbConfig t).type ∈ registeredDrivers)
    (hopen : o.openRes (getTaskDbConfig t).type (getTaskDbConfig t).dsn = none)
    (hexec : o.execRes (getTaskDbConfig t) t.payload = .ok raw)
    (hconvLi : raw.lastInsertIdErr.isSome = true → raw.lastInsertId = 0)
    (hconvRa : raw.rowsAffectedErr.isSome = true → raw.rowsAffected = 0) :
    handleTask o r st =
      (.resp 200 ⟨"success", .exec ⟨raw.lastInsertId, raw.rowsAffected⟩⟩,
        ⟨st.nextId + 1, st.openSessions, st.attempts + 1⟩) ∧
    execResultJson ⟨raw.lastInsertId, raw.rowsAffected⟩ =
      .obj (.cons "last_insert_id" (.num (Int.repr raw.lastInsertId))
        (.cons "rows_affected" (.num (Int.repr raw.rowsAffected)) .nil)) ∧
    (raw.lastInsertIdErr.isSome = true →
      (DbExecResult.mk raw.lastInsertId raw.rowsAffected).lastInsertId = 0) ∧
    (raw.rowsAffectedErr.isSome = true →
      (DbExecResult.mk raw.lastInsertId raw.rowsAffected).rowsAffected = 0) := by
  have hread : readAllLimited r = .ok (String.mk (r.body.data.take 1048576)) := by
    unfold readAllLimited
    rw [hr]
  have hinit : initDbConnection o t st =
      (some st.nextId, ⟨st.nextId + 1, st.nextId :: st.openSessions, st.attempts + 1⟩) := by
    unfold initDbConnection sqlOpen
    dsimp only
    rw [if_pos hreg, hopen]
  have hexecp : processDbExec o t st =
      (.ok ⟨raw.lastInsertId, raw.rowsAffected⟩,
        ⟨st.nextId + 1, st.openSessions, st.attempts + 1⟩) := by
    unfold processDbExec
    dsimp only
    rw [hinit]
    dsimp only
    rw [hexec]
    dsimp only [closeSession]
    rw [List.erase_cons_head]
  have hdisp : dispatchTask o t st =
      (.ok (.exec ⟨raw.lastInsertId, raw.rowsAffected⟩),
        ⟨st.nextId + 1, st.openSessions, st.attempts + 1⟩) := by
    unfold dispatchTask
    rw [if_neg (by rcases hty with h | h <;> rw [h] <;> decide),
      if_pos (by rcases hty with h | h <;> rw [h] <;> decide)]
    rw [hexecp]
  have hmain : processTaskRequest o r st =
      (.ok (.exec ⟨raw.lastInsertId, raw.rowsAffected⟩),
        ⟨st.nextId + 1, st.openSessions, st.attempts + 1⟩) := by
    unfold processTaskRequest
    rw [hread]
    dsimp only
    rw [hc]
    dsimp only
    rw [hp]
    dsimp only
    exact hdisp
  refine ⟨?_, rfl, hconvLi, hconvRa⟩
  unfold handleTask
  rw [hmain]

/-- C6 witness: the concrete exec request on a driver that does not support
`LastInsertId` still succeeds with `last_insert_id` 0 and `rows_affected` 3. -/
theorem c6_witness :
    handleTask oracleExec reqExec st0 =
      (.resp 200 ⟨"success", .exec ⟨rawExec0.lastInsertId, rawExec0.rowsAffected⟩⟩,
        ⟨st0.nextId + 1, st0.openSessions, st0.attempts + 1⟩) ∧
    execResultJson ⟨rawExec0.lastInsertId, rawExec0.rowsAffected⟩ =
      .obj (.cons "last_insert_id" (.num (Int.repr rawExec0.lastInsertId))
        (.cons "rows_affected" (.num (Int.repr rawExec0.rowsAffected)) .nil)) ∧
    (rawExec0.lastInsertIdErr.isSome = true →
      (DbExecResult.mk rawExec0.lastInsertId rawExec0.rowsAffected).lastInsertId = 0) ∧
    (rawExec0.rowsAffectedErr.isSome = true →
      (DbExecResult.mk rawExec0.lastInsertId rawExec0.rowsAffected).rowsAffected = 0) := by
  exact c6_exec_counters oracleExec reqExec st0 taskExec rawExec0 rfl rfl rfl
    (Or.inl rfl) (by decide) rfl rfl (by decide) (by decide)


/-- C7 (amended): `marshalTask` followed by `unmarshalTask` is not the identity on
tasks, because Go's `json.Marshal` runs `appendCompact` over the raw `Config`
bytes: insignificant whitespace between tokens is dropped and the characters
`<`, `>`, `&` are rewritten to `\u003c`/`\u003e`/`\u0026`, while everything
else — including escape sequences already present, such as `\u0041` — is kept
byte-for-byte, and `json.Unmarshal` stores the compacted value's literal bytes
back into `Config` verbatim. So whenever compaction of `t.Config` succeeds with
output `out`, the round trip returns the task with `Config` replaced by `out`
and `ID`, `Type`, `Payload` unchanged; it is the identity exactly when `out`
equals the original bytes. -/
theorem c7_roundtrip_compact (t : Task) (out : List Char)
    (hc : compactRaw t.rawConfig = some out) :
    taskRoundTrip t = .ok { t with rawConfig := String.mk out } ∧
    (String.mk out = t.rawConfig → taskRoundTrip t = .ok t) := by
  have hcv0 : ∃ rest0, compactValue (2 * t.rawConfig.length + 2) t.rawConfig.data =
      some (out, rest0) ∧ skipWs rest0 = [] := by
    unfold compactRaw at hc
    rcases h0 : compactValue (2 * t.rawConfig.length + 2) t.rawConfig.data with _ | ⟨out2, rest0⟩ <;>
      rw [h0] at hc
    · exact Option.noConfusion hc
    · dsimp only at hc
      by_cases hsw : skipWs rest0 = []
      · rw [if_pos hsw] at hc
        injection hc with hc2
        exact ⟨rest0, by rw [hc2], hsw⟩
      · rw [if_neg hsw] at hc
        exact Option.noConfusion hc
  obtain ⟨rest0, hcv, hsw⟩ := hcv0
  have hne : ¬t.rawConfig = "" := by
    intro h0
    rw [h0] at hcv
    exact Option.noConfusion hcv
  have hcfg : ∀ Z g2, SafeAfter Z → out.length + 1 ≤ g2 →
      ∃ v, parseValue g2 (out ++ Z) = some (v, Z) :=
    fun Z g2 hs hb =>
      (compact_parse (2 * t.rawConfig.length + 2)).1 t.rawConfig.data out rest0 hcv Z g2 hs hb
  obtain ⟨c0, cs0, hhd, hws0, -, -⟩ := cv_head _ _ _ _ hcv
  have hms : marshalTask t = .ok (String.mk (taskChars t out)) := by
    unfold marshalTask
    rw [if_neg hne, hc]
  have hum := um_marshal t out c0 cs0 hhd hws0 hcfg
  have hrt : taskRoundTrip t = .ok ⟨t.id, String.mk out, t.type, t.payload⟩ := by
    unfold taskRoundTrip
    rw [hms]
    dsimp only
    rw [hum]
  constructor
  · rw [hrt]
  · intro hcomp
    rw [hrt, hcomp]

/-- C7 counterexample to the original claim: a task whose `Config` is `{ }`
round-trips to the distinct task whose `Config` is `{}` — the interior space is
dropped by `appendCompact` — while `ID`, `Type` and `Payload` are preserved. -/
theorem c7_counterexample :
    taskRoundTrip taskSpaced = .ok taskCompact ∧
    ¬taskSpaced.rawConfig = taskCompact.rawConfig ∧
    taskSpaced.id = taskCompact.id ∧ taskSpaced.type = taskCompact.type ∧
    taskSpaced.payload = taskCompact.payload := by
  refine ⟨rfl, ?_, rfl, rfl, rfl⟩
  decide

/-- C7 witness: the amended theorem applied to two concrete tasks whose `Config`
bytes are already compact — `{}` and `{"a":"\u0041"}` (the latter keeping its
escape sequence untouched) — shows the round trip is the identity there. -/
theorem c7_witness :
    taskRoundTrip taskCompact = .ok taskCompact ∧ taskRoundTrip taskEsc = .ok taskEsc :=
  ⟨(c7_roundtrip_compact taskCompact ("\x7b\x7d".data) rfl).2 rfl,
   (c7_roundtrip_compact taskEsc ("\x7b\"a\":\"\\u0041\"\x7d".data) rfl).2 rfl⟩

/-- C8: the handler reads at most 1,048,576 bytes of body; a longer body is
silently truncated to the cap — the whole request is processed exactly as if
the client had sent only the first 1,048,576 bytes, with no size error
anywhere. -/
theorem c8_body_capped (o : DbOracle) (r : Request) (st : DbState)
    (hr : r.readErr = none) (hc : r.closeErr = none) :
    readAllLimited r = .ok (String.mk (r.body.data.take 1048576)) ∧
    (String.mk (r.body.data.take 1048576)).length ≤ 1048576 ∧
    processTaskRequest o r st =
      processTaskRequest o ⟨String.mk (r.body.data.take 1048576), none, none⟩ st := by
  have hread : readAllLimited r = .ok (String.mk (r.body.data.take 1048576)) := by
    unfold readAllLimited
    rw [hr]
  have hread2 : readAllLimited ⟨String.mk (r.body.data.take 1048576), none, none⟩ =
      .ok (String.mk (r.body.data.take 1048576)) := by
    unfold readAllLimited
    dsimp only
    rw [List.take_take, Nat.min_self]
  refine ⟨hread, ?_, ?_⟩
  · show (r.body.data.take 1048576).length ≤ 1048576
    rw [List.length_take]
    exact min_le_left _ _
  · unfold processTaskRequest
    rw [hread, hread2, hc]

/-- C8 witness: a 2,000,000-byte body is handled exactly like its first
1,048,576 bytes. -/
theorem c8_witness :
    readAllLimited reqBig = .ok (String.mk (reqBig.body.data.take 1048576)) ∧
    (String.mk (reqBig.body.data.take 1048576)).length ≤ 1048576 ∧
    processTaskRequest oracle0 reqBig st0 =
      processTaskRequest oracle0 ⟨String.mk (reqBig.body.data.take 1048576), none, none⟩ st0 :=
  c8_body_capped oracle0 reqBig st0 rfl rfl

/-- `strings.SplitN(_, sep, 2)` succeeds exactly on inputs holding the
separator, and returns the part before its first occurrence and everything
after it. -/
theorem splitFirst_eq_some {A : Type} [DecidableEq A] (sep : A) :
    ∀ (l a b : List A), splitFirst sep l = some (a, b) ↔ l = a ++ sep :: b ∧ sep ∉ a := by
  intro l
  induction l with
  | nil =>
    intro a b
    constructor
    · intro h
      exact Option.noConfusion h
    · rintro ⟨h1, -⟩
      exact absurd h1 (by simp)
  | cons c cs ih =>
    intro a b
    unfold splitFirst
    by_cases hc : c = sep
    · rw [if_pos hc]
      constructor
      · intro h
        simp only [Option.some.injEq, Prod.mk.injEq] at h
        obtain ⟨ha, hb⟩ := h
        subst ha hb
        exact ⟨by rw [hc]; rfl, by simp⟩
      · rintro ⟨h1, h2⟩
        cases a with
        | nil =>
          simp only [List.nil_append] at h1
          injection h1 with h3 h4
          subst h4
          rfl
        | cons a0 as =>
          simp only [List.cons_append] at h1
          injection h1 with h3 h4
          exact absurd (by rw [← h3, hc]; exact List.mem_cons_self sep as) h2
    · rw [if_neg hc]
      constructor
      · intro h
        rcases hs : splitFirst sep cs with _ | ⟨a2, b2⟩ <;> rw [hs] at h
        · exact Option.noConfusion h
        · simp only [Option.some.injEq, Prod.mk.injEq] at h
          obtain ⟨ha, hb⟩ := h
          obtain ⟨hl, hni⟩ := (ih a2 b2).mp hs
          subst hb
          subst ha
          refine ⟨by simp [hl], ?_⟩
          intro hm
          rcases List.mem_cons.mp hm with h3 | h3
          · exact hc h3.symm
          · exact hni h3
      · rintro ⟨h1, h2⟩
        cases a with
        | nil =>
          simp only [List.nil_append] at h1
          injection h1 with h3 h4
          exact absurd h3 hc
        | cons a0 as =>
          simp only [List.cons_append] at h1
          injection h1 with h3 h4
          have h2a : sep ∉ as := fun hm => h2 (List.mem_cons_of_mem a0 hm)
          rw [(ih as b).mpr ⟨h4, h2a⟩, h3]

/-- C9: a request passes `checkAuth` exactly when its `Authorization` header
splits at a first space — the scheme token before it is arbitrary and never
inspected — and the rest base64-decodes to the bytes of
"digistormconnector", a colon, and the configured API key; a passing request
is dispatched to the protected handler, every other one gets 401 with the
`WWW-Authenticate` challenge. -/
theorem c9_auth_characterization (k hdr : String) :
    (checkAuth k hdr = true ↔
      ∃ scheme creds bs2, hdr.data = scheme ++ ' ' :: creds ∧ ' ' ∉ scheme ∧
        base64Decode creds = .ok bs2 ∧
        bs2 = strBytes AUTH_USER ++ 58 :: strBytes k) ∧
    (checkAuth k hdr = false →
      handleAuthMiddleware k hdr =
        .unauthorized 401 "Basic realm=\"MY REALM\"" "401 Unauthorized\n") ∧
    (checkAuth k hdr = true → handleAuthMiddleware k hdr = .dispatched) := by
  refine ⟨?_, ?_, ?_⟩
  · constructor
    · intro h
      unfold checkAuth at h
      rcases hs : splitFirst ' ' hdr.data with _ | ⟨scheme, creds⟩ <;> rw [hs] at h
      · simp at h
      · dsimp only at h
        rcases hb : base64Decode creds with e | bs2 <;> rw [hb] at h
        · simp at h
        · dsimp only at h
          rcases hcn : splitFirst 58 bs2 with _ | ⟨user, pass⟩ <;> rw [hcn] at h
          · simp at h
          · simp only [Bool.and_eq_true, decide_eq_true_eq] at h
            obtain ⟨hu, hp2⟩ := h
            obtain ⟨hl1, hni1⟩ := (splitFirst_eq_some ' ' hdr.data scheme creds).mp hs
            obtain ⟨hl2, -⟩ := (splitFirst_eq_some 58 bs2 user pass).mp hcn
            exact ⟨scheme, creds, bs2, hl1, hni1, hb, by rw [hl2, hu, hp2]⟩
    · rintro ⟨scheme, creds, bs2, hl, hni, hb, hbs⟩
      have h58 : (58 : Nat) ∉ strBytes AUTH_USER := by decide
      unfold checkAuth
      rw [(splitFirst_eq_some ' ' hdr.data scheme creds).mpr ⟨hl, hni⟩]
      dsimp only
      rw [hb]
      dsimp only
      rw [(splitFirst_eq_some 58 bs2 (strBytes AUTH_USER) (strBytes k)).mpr ⟨hbs, h58⟩]
      simp
  · intro h
    unfold handleAuthMiddleware
    rw [h]
    rfl
  · intro h
    unfold handleAuthMiddleware
    rw [h]
    rfl

/-- C9 witness: the right credentials pass under the scheme "Basic" and just
as well under the uninspected scheme "Bogus"; a header with undecodable
credentials gets the 401 challenge. -/
theorem c9_witness :
    handleAuthMiddleware "secret" authHeaderGood = .dispatched ∧
    handleAuthMiddleware "secret" authHeaderOddScheme = .dispatched ∧
    handleAuthMiddleware "secret" "Basic nope" =
      .unauthorized 401 "Basic realm=\"MY REALM\"" "401 Unauthorized\n" :=
  ⟨(c9_auth_characterization "secret" authHeaderGood).2.2 (by decide),
   (c9_auth_characterization "secret" authHeaderOddScheme).2.2 (by decide),
   (c9_auth_characterization "secret" "Basic nope").2.1 (by decide)⟩

/-- C10 (amended): the config unmarshal error is discarded after logging —
the task proceeds with whatever config fields did decode (`getTaskDbConfig`
returns the partially-filled struct unconditionally); for a recognized task
type a connection attempt is then made even when the config failed to
unmarshal; and the only errors such a task can return to the caller are
database errors, never a malformed-config error. -/
theorem c10_config_error_only_logged (t : Task) (o : DbOracle) (st : DbState) :
    getTaskDbConfig t = (unmarshalTaskDbConfig t.rawConfig).1 ∧
    ((unmarshalTaskDbConfig t.rawConfig).2.isSome = true →
      (t.type = TASK_TYPE_DB_MYSQL_QUERY ∨ t.type = TASK_TYPE_DB_MSSQL_QUERY ∨
        t.type = TASK_TYPE_DB_MYSQL_EXEC ∨ t.type = TASK_TYPE_DB_MSSQL_EXEC) →
      (dispatchTask o t st).2.attempts = st.attempts + 1) ∧
    (∀ e st1,
      (t.type = TASK_TYPE_DB_MYSQL_QUERY ∨ t.type = TASK_TYPE_DB_MSSQL_QUERY ∨
        t.type = TASK_TYPE_DB_MYSQL_EXEC ∨ t.type = TASK_TYPE_DB_MSSQL_EXEC) →
      dispatchTask o t st = (.err e, st1) → ∃ m, e = "Database error: " ++ m) := by
  have hquery : ∀ (hq : t.type = TASK_TYPE_DB_MYSQL_QUERY ∨ t.type = TASK_TYPE_DB_MSSQL_QUERY),
      dispatchTask o t st =
        (match processDbQuery o t st with
          | (.ok rows, st1) => (.ok (.rows rows), st1)
          | (.err e, st1) => (.err ("Database error: " ++ e), st1)
          | (.panicked m, st1) => (.panicked m, st1)) := by
    intro hq
    unfold dispatchTask
    rw [if_pos (by rcases hq with h | h <;> rw [h] <;> decide)]
  have hexecd : ∀ (hq1 : ¬(t.type = TASK_TYPE_DB_MYSQL_QUERY ∨ t.type = TASK_TYPE_DB_MSSQL_QUERY))
      (hq2 : t.type = TASK_TYPE_DB_MYSQL_EXEC ∨ t.type = TASK_TYPE_DB_MSSQL_EXEC),
      dispatchTask o t st =
        (match processDbExec o t st with
          | (.ok res, st1) => (.ok (.exec res), st1)
          | (.err e, st1) => (.err ("Database error: " ++ e), st1)
          | (.panicked m, st1) => (.panicked m, st1)) := by
    intro hq1 hq2
    unfold dispatchTask
    rw [if_neg (by
        simp only [Bool.or_eq_true, decide_eq_true_eq]
        exact hq1),
      if_pos (by rcases hq2 with h | h <;> rw [h] <;> decide)]
  refine ⟨rfl, ?_, ?_⟩
  · intro hcfg hty
    by_cases hq : t.type = TASK_TYPE_DB_MYSQL_QUERY ∨ t.type = TASK_TYPE_DB_MSSQL_QUERY
    · rw [hquery hq]
      have hatt := (proc_attempts o t st).1
      rcases hr : processDbQuery o t st with ⟨out, st1⟩
      rw [hr] at hatt
      cases out <;> exact hatt
    · have hq2 : t.type = TASK_TYPE_DB_MYSQL_EXEC ∨ t.type = TASK_TYPE_DB_MSSQL_EXEC := by
        rcases hty with h | h | h | h
        · exact absurd (Or.inl h) hq
        · exact absurd (Or.inr h) hq
        · exact Or.inl h
        · exact Or.inr h
      rw [hexecd hq hq2]
      have hatt := (proc_attempts o t st).2
      rcases hr : processDbExec o t st with ⟨out, st1⟩
      rw [hr] at hatt
      cases out <;> exact hatt
  · intro e st1 hty hd
    by_cases hq : t.type = TASK_TYPE_DB_MYSQL_QUERY ∨ t.type = TASK_TYPE_DB_MSSQL_QUERY
    · rw [hquery hq] at hd
      rcases hr : processDbQuery o t st with ⟨out, st2⟩
      rw [hr] at hd
      cases out with
      | ok rows => simp at hd
      | err e2 =>
        simp only [Prod.mk.injEq] at hd
        obtain ⟨h1, -⟩ := hd
        injection h1 with h1
        exact ⟨e2, h1.symm⟩
      | panicked m => simp at hd
    · have hq2 : t.type = TASK_TYPE_DB_MYSQL_EXEC ∨ t.type = TASK_TYPE_DB_MSSQL_EXEC := by
        rcases hty with h | h | h | h
        · exact absurd (Or.inl h) hq
        · exact absurd (Or.inr h) hq
        · exact Or.inl h
        · exact Or.inr h
      rw [hexecd hq hq2] at hd
      rcases hr : processDbExec o t st with ⟨out, st2⟩
      rw [hr] at hd
      cases out with
      | ok res => simp at hd
      | err e2 =>
        simp only [Prod.mk.injEq] at hd
        obtain ⟨h1, -⟩ := hd
        injection h1 with h1
        exact ⟨e2, h1.symm⟩
      | panicked m => simp at hd

/-- C10 counterexample: the config `\x7b"type":1,"dsn":"x"\x7d` fails to
unmarshal, yet the config the task proceeds with has `dsn` "x" — not the
zero-valued (all-empty) config the claim states. -/
theorem c10_counterexample :
    (unmarshalTaskDbConfig taskBadCfg.rawConfig).2.isSome = true ∧
    getTaskDbConfig taskBadCfg = ⟨"", "x"⟩ ∧
    getTaskDbConfig taskBadCfg ≠ (⟨"", ""⟩ : TaskDbConfig) := by
  refine ⟨rfl, rfl, ?_⟩
  decide

/-- C10 witness: on the bad-config task the connection is still attempted,
and a failing query on a deferred-validation driver comes back as a database
error, never as a config error. -/
theorem c10_witness :
    getTaskDbConfig taskBadCfg = (unmarshalTaskDbConfig taskBadCfg.rawConfig).1 ∧
    (dispatchTask oracle0 taskBadCfg st0).2.attempts = st0.attempts + 1 ∧
    (∃ m, "Database error: dial tcp 127.0.0.1:3306: connect: connection refused" =
      "Database error: " ++ m) := by
  refine ⟨(c10_config_error_only_logged taskBadCfg oracle0 st0).1,
    (c10_config_error_only_logged taskBadCfg oracle0 st0).2.1 (by decide) (Or.inl rfl),
    (c10_config_error_only_logged taskDeferred oracleDeferred st0).2.2
      "Database error: dial tcp 127.0.0.1:3306: connect: connection refused"
      ⟨1, [], 1⟩ (Or.inl rfl) ?_⟩
  rfl

end Connector
